import Mathlib

/-!
# rock_hdmi_in: buffer hand-off between the V4L2 capture pool and the DRM/GBM swapchain

Shallow embedding of

* `src/src/drm_gbm_egl.cpp`: `page_flip_handler`, `drain_drm_events`, `wait_pageflip`,
  `drm_set_crtc_for_bo`, `drm_gbm_egl_swap_buffers`, `choose_mode_override`,
  `choose_mode` and the mode selection of `init_drm_gbm_egl`;
* `src/src/v4l2_capture.cpp`: `bgr24_to_rgb24`, `V4L2Capture::configure`,
  `V4L2Capture::acquire_frame`, `V4L2Capture::release_frame`;
* `src/src/main.cpp`: the render loop of `main` (lines 669-1129), restricted to the
  statements that touch the capture pool, the swapchain and the hand-off variables.

Kernel calls are modelled by explicit outcome scripts supplied by the caller, and
every call that moves buffer ownership is appended to a ghost log, oldest entry first.
Unsigned counters wrap at their C width.
-/

namespace RockHdmiIn

/-! ## Display side (drm_gbm_egl.cpp) -/

/-- Outcome of one `select()` on the DRM fd, together with what `drmHandleEvent`
dispatches when the fd is readable. -/
inductive SelectResult where
  /-- The call returned a negative value with errno EINTR. -/
  | eintr
  /-- The call returned a negative value with another errno. -/
  | error
  /-- The call returned 0: nothing readable within the timeout. -/
  | timeout
  /-- The fd is readable and `drmHandleEvent` dispatches `flips` page-flip events. -/
  | ready (flips : Nat)
  deriving DecidableEq, Repr

/-- Return value of `drmModePageFlip`: 0, non-zero with errno EBUSY, non-zero otherwise. -/
inductive FlipRet where
  | ok
  | ebusy
  | failed
  deriving DecidableEq, Repr

/-- Ghost log entries of the display side. -/
inductive DrmEvent where
  /-- Entry of `page_flip_handler`: a completion event is being handled. -/
  | flip_handled
  /-- Successful `gbm_surface_lock_front_buffer` returning `bo`. -/
  | lock_front_buffer (bo : Nat)
  /-- Call of `gbm_surface_release_buffer` on `bo`. -/
  | release_buffer (bo : Nat)
  /-- Successful `drmModeAddFB2` registering `fb` for `bo`. -/
  | add_fb (bo fb : Nat)
  /-- Successful `drmModeSetCrtc` on framebuffer `fb` of `bo`. -/
  | set_crtc (bo fb : Nat)
  /-- Call of `drmModePageFlip` for `bo`; `event` tells whether a completion event was
  requested, `ret` is the kernel's answer, and `pending_before` is the value
  `pageflip_pending` had when control reached the submission statements. -/
  | page_flip (bo fb : Nat) (event : Bool) (ret : FlipRet) (pending_before : Bool)
  deriving DecidableEq, Repr

/-- The fields of `struct GbmEglDrm` (drm_gbm_egl.h) that the swapchain reads or writes.
Buffer-object pointers are `Option Nat` (`none` is `nullptr`), `gbm_surf` records whether
the surface pointer is non-null. `fb_data` is the user data GBM attaches to buffer
objects (buffer object, cached framebuffer id) and `log` is the ghost log. -/
structure GbmEglDrm where
  gbm_surf : Bool
  prev_bo : Option Nat
  prev_bo2 : Option Nat
  cur_bo : Option Nat
  modeset_done : Bool
  pageflip_pending : Bool
  pageflip_enabled : Bool
  pageflip_use_event : Bool
  pageflip_timeouts : Nat
  pageflip_submitted : Nat
  pageflip_completed : Nat
  pageflip_dropped : Nat
  fb_data : List (Nat × Nat)
  log : List DrmEvent

/-- The context as the header initialises it, after `init_drm_gbm_egl` has created the
surface. -/
def GbmEglDrm.init : GbmEglDrm where
  gbm_surf := true
  prev_bo := none
  prev_bo2 := none
  cur_bo := none
  modeset_done := false
  pageflip_pending := false
  pageflip_enabled := true
  pageflip_use_event := true
  pageflip_timeouts := 0
  pageflip_submitted := 0
  pageflip_completed := 0
  pageflip_dropped := 0
  fb_data := []
  log := []

/-- Call `gbm_surface_release_buffer(ctx.gbm_surf, bo)`. -/
def gbm_surface_release_buffer (ctx : GbmEglDrm) (bo : Nat) : GbmEglDrm :=
  { ctx with log := ctx.log ++ [DrmEvent.release_buffer bo] }

/-- The statement
`if (ctx.gbm_surf && ctx.prev_bo) { release(prev_bo); ctx.prev_bo = nullptr; }`. -/
def release_prev_bo (ctx : GbmEglDrm) : GbmEglDrm :=
  match ctx.gbm_surf, ctx.prev_bo with
  | true, some bo => { gbm_surface_release_buffer ctx bo with prev_bo := none }
  | _, _ => ctx

/-- The statement
`if (ctx.gbm_surf && ctx.prev_bo2) { release(prev_bo2); ctx.prev_bo2 = nullptr; }`. -/
def release_prev_bo2 (ctx : GbmEglDrm) : GbmEglDrm :=
  match ctx.gbm_surf, ctx.prev_bo2 with
  | true, some bo => { gbm_surface_release_buffer ctx bo with prev_bo2 := none }
  | _, _ => ctx

/-- The statement
`if (ctx.gbm_surf && ctx.cur_bo) { release(cur_bo); ctx.cur_bo = nullptr; }`. -/
def release_cur_bo (ctx : GbmEglDrm) : GbmEglDrm :=
  match ctx.gbm_surf, ctx.cur_bo with
  | true, some bo => { gbm_surface_release_buffer ctx bo with cur_bo := none }
  | _, _ => ctx

/-- Function `page_flip_handler` (drm_gbm_egl.cpp:417-433), with `data` pointing to `ctx`. -/
def page_flip_handler (ctx : GbmEglDrm) : GbmEglDrm :=
  let ctx := { ctx with log := ctx.log ++ [DrmEvent.flip_handled] }
  let ctx := { ctx with pageflip_pending := false }
  let ctx := { ctx with pageflip_completed := (ctx.pageflip_completed + 1) % 2 ^ 64 }
  let ctx := release_prev_bo ctx
  let ctx := { ctx with prev_bo := ctx.cur_bo }
  { ctx with cur_bo := none }

/-- Call `drmHandleEvent` when it reads `flips` page-flip events: the handler runs once
for each of them. -/
def drmHandleEvent (ctx : GbmEglDrm) : Nat → GbmEglDrm
  | 0 => ctx
  | n + 1 => drmHandleEvent (page_flip_handler ctx) n

/-- Function `drain_drm_events` (drm_gbm_egl.cpp:435-456). The list gives the outcomes
of the successive zero-timeout `select()` calls; when it is exhausted `select()`
reports nothing readable. -/
def drain_drm_events (ctx : GbmEglDrm) : List SelectResult → GbmEglDrm
  | [] => ctx
  | r :: rest =>
    if !ctx.pageflip_pending then ctx
    else
      match r with
      | SelectResult.eintr => drain_drm_events ctx rest
      | SelectResult.error => ctx
      | SelectResult.timeout => ctx
      | SelectResult.ready n => drain_drm_events (drmHandleEvent ctx n) rest

/-- The `while (ctx.pageflip_pending && remaining > 0)` loop of `wait_pageflip`
(drm_gbm_egl.cpp:475-492). `remaining` is never updated by the source. -/
def wait_pageflip_loop (ctx : GbmEglDrm) (remaining : Int) : List SelectResult → GbmEglDrm
  | [] => ctx
  | r :: rest =>
    if !(ctx.pageflip_pending && decide (remaining > 0)) then ctx
    else
      match r with
      | SelectResult.eintr => wait_pageflip_loop ctx remaining rest
      | SelectResult.error => ctx
      | SelectResult.timeout => ctx
      | SelectResult.ready n => drmHandleEvent ctx n

/-- Function `wait_pageflip` (drm_gbm_egl.cpp:458-511). -/
def wait_pageflip (ctx : GbmEglDrm) (timeout_ms : Int) (sel : List SelectResult) :
    GbmEglDrm :=
  if !ctx.pageflip_pending then ctx
  else
    let ctx := wait_pageflip_loop ctx timeout_ms sel
    if ctx.pageflip_pending then
      let ctx := { ctx with pageflip_timeouts := (ctx.pageflip_timeouts + 1) % 2 ^ 32 }
      if ctx.pageflip_timeouts > 10 then
        let ctx := { ctx with pageflip_pending := false }
        let ctx := { ctx with pageflip_timeouts := 0 }
        let ctx := { ctx with pageflip_enabled := false }
        release_prev_bo ctx
      else ctx
    else { ctx with pageflip_timeouts := 0 }

/-- Function `drm_set_crtc_for_bo` (drm_gbm_egl.cpp:513-565). `addfb` is the outcome of
`drmModeAddFB2` (`none` when it fails, else the new framebuffer id), `setcrtc_ok` tells
whether `drmModeSetCrtc` returns 0. Returns the result, `fb_id_inout` and the context. -/
def drm_set_crtc_for_bo (ctx : GbmEglDrm) (bo : Nat) (fb_id_inout : Nat)
    (addfb : Option Nat) (setcrtc_ok : Bool) : Bool × Nat × GbmEglDrm :=
  let registered : Option (Nat × GbmEglDrm) :=
    match ctx.fb_data.lookup bo with
    | some fb => some (fb, ctx)
    | none =>
      match addfb with
      | none => none
      | some fb_id =>
        some (fb_id, { ctx with fb_data := (bo, fb_id) :: ctx.fb_data,
                                log := ctx.log ++ [DrmEvent.add_fb bo fb_id] })
  match registered with
  | none => (false, fb_id_inout, ctx)
  | some (fb, ctx) =>
    if !ctx.modeset_done then
      if !setcrtc_ok then (false, fb, ctx)
      else (true, fb, { ctx with modeset_done := true,
                                 log := ctx.log ++ [DrmEvent.set_crtc bo fb] })
    else (true, fb, ctx)

/-- What the kernel and GBM answer during one `drm_gbm_egl_swap_buffers` call. -/
structure SwapEnv where
  /-- Outcomes of the `select()` calls of `drain_drm_events`. -/
  drain : List SelectResult
  /-- Outcomes of the `select()` calls of the `wait_pageflip` at line 571. -/
  wait1 : List SelectResult
  /-- Result of `gbm_surface_lock_front_buffer` (`none` is a null pointer). -/
  front : Option Nat
  /-- Outcome of `drmModeAddFB2`, should it be called. -/
  addfb : Option Nat
  /-- Whether `drmModeSetCrtc` returns 0, should it be called (a call issues at most one). -/
  setcrtc_ok : Bool
  /-- Return of `drmModePageFlip`, should it be called (a call issues at most one). -/
  flip : FlipRet
  /-- Outcomes of the `select()` calls of the `wait_pageflip` at line 675. -/
  wait2 : List SelectResult

/-- The event-requesting submission, written twice in the source with the same
statements (drm_gbm_egl.cpp:677-687 and 694-706). -/
def submit_event_flip (ctx : GbmEglDrm) (bo fb_id : Nat) (ret : FlipRet) :
    Bool × GbmEglDrm :=
  let pending_before := ctx.pageflip_pending
  let ctx := { ctx with cur_bo := some bo }
  let ctx := { ctx with pageflip_pending := true }
  let ctx := { ctx with log := ctx.log ++ [DrmEvent.page_flip bo fb_id true ret pending_before] }
  if ret ≠ FlipRet.ok then
    let ctx := { ctx with pageflip_pending := false }
    (false, gbm_surface_release_buffer ctx bo)
  else
    (true, { ctx with pageflip_submitted := (ctx.pageflip_submitted + 1) % 2 ^ 64 })

/-- First part of `drm_gbm_egl_swap_buffers` (drm_gbm_egl.cpp:568-595): drain the event
stream, then wait once for a flip that is still pending and fall back to mode-setting
when it stays pending. -/
def swap_buffers_settle (ctx : GbmEglDrm) (env : SwapEnv) : GbmEglDrm :=
  let ctx := drain_drm_events ctx env.drain
  if ctx.pageflip_enabled && ctx.pageflip_pending then
    let ctx := wait_pageflip ctx 16 env.wait1
    if ctx.pageflip_pending then
      let ctx := { ctx with pageflip_enabled := false }
      let ctx := { ctx with pageflip_pending := false }
      let ctx := { ctx with pageflip_timeouts := 0 }
      let ctx := { ctx with pageflip_dropped := 0 }
      let ctx := release_prev_bo ctx
      let ctx := release_prev_bo2 ctx
      release_cur_bo ctx
    else ctx
  else ctx

/-- Second part of `drm_gbm_egl_swap_buffers` (drm_gbm_egl.cpp:597-706): lock the
rendered buffer and present it. -/
def swap_buffers_present (ctx : GbmEglDrm) (env : SwapEnv) : Bool × GbmEglDrm :=
  match env.front with
  | none => (false, ctx)
  | some bo =>
    let ctx := { ctx with log := ctx.log ++ [DrmEvent.lock_front_buffer bo] }
    let was_modeset := ctx.modeset_done
    match drm_set_crtc_for_bo ctx bo 0 env.addfb env.setcrtc_ok with
    | (false, _, ctx) => (false, gbm_surface_release_buffer ctx bo)
    | (true, fb_id, ctx) =>
      if !was_modeset && ctx.modeset_done then
        let ctx :=
          match ctx.prev_bo with
          | some p => gbm_surface_release_buffer ctx p
          | none => ctx
        (true, { ctx with prev_bo := some bo })
      else if !ctx.pageflip_use_event then
        let ctx := { ctx with log := ctx.log ++
          [DrmEvent.page_flip bo fb_id false env.flip ctx.pageflip_pending] }
        match env.flip with
        | FlipRet.ebusy =>
          let ctx := gbm_surface_release_buffer ctx bo
          (true, { ctx with pageflip_dropped := (ctx.pageflip_dropped + 1) % 2 ^ 64 })
        | FlipRet.failed => (false, gbm_surface_release_buffer ctx bo)
        | FlipRet.ok =>
          let ctx := { ctx with pageflip_submitted := (ctx.pageflip_submitted + 1) % 2 ^ 64 }
          let ctx := release_prev_bo2 ctx
          let ctx := { ctx with prev_bo2 := ctx.prev_bo }
          let ctx := { ctx with prev_bo := some bo }
          let ctx := { ctx with cur_bo := none }
          (true, { ctx with pageflip_pending := false })
      else if !ctx.pageflip_enabled then
        if !env.setcrtc_ok then (false, gbm_surface_release_buffer ctx bo)
        else
          let ctx := { ctx with log := ctx.log ++ [DrmEvent.set_crtc bo fb_id] }
          let ctx := release_prev_bo ctx
          let ctx := release_prev_bo2 ctx
          (true, { ctx with prev_bo := some bo })
      else if ctx.pageflip_pending then
        let ctx := wait_pageflip ctx 16 env.wait2
        if !ctx.pageflip_pending then submit_event_flip ctx bo fb_id env.flip
        else
          let ctx := { ctx with pageflip_dropped := (ctx.pageflip_dropped + 1) % 2 ^ 64 }
          (true, gbm_surface_release_buffer ctx bo)
      else submit_event_flip ctx bo fb_id env.flip

/-- Function `drm_gbm_egl_swap_buffers` (drm_gbm_egl.cpp:567-707). -/
def drm_gbm_egl_swap_buffers (ctx : GbmEglDrm) (env : SwapEnv) : Bool × GbmEglDrm :=
  swap_buffers_present (swap_buffers_settle ctx env) env

/-- One step of a display session: a `drm_gbm_egl_swap_buffers` call or an invocation
of the completion handler. -/
inductive DisplayOp where
  | swap (env : SwapEnv)
  | completion

/-- Effect of one display step on the context. -/
def DisplayOp.apply (ctx : GbmEglDrm) : DisplayOp → GbmEglDrm
  | DisplayOp.swap env => (drm_gbm_egl_swap_buffers ctx env).2
  | DisplayOp.completion => page_flip_handler ctx

/-- The context after a sequence of display steps. -/
def run_display (ctx : GbmEglDrm) (ops : List DisplayOp) : GbmEglDrm :=
  ops.foldl DisplayOp.apply ctx

/-- The context after a sequence of `drm_gbm_egl_swap_buffers` calls. -/
def run_swaps (ctx : GbmEglDrm) (envs : List SwapEnv) : GbmEglDrm :=
  envs.foldl (fun c env => (drm_gbm_egl_swap_buffers c env).2) ctx

/-! ## Capture side (v4l2_capture.cpp) -/

/-- Pixel format code `V4L2_PIX_FMT_NV12` (fourcc N, V, 1, 2). -/
def V4L2_PIX_FMT_NV12 : Nat := 0x3231564e

/-- Pixel format code `V4L2_PIX_FMT_BGR24` (fourcc B, G, R, 3). -/
def V4L2_PIX_FMT_BGR24 : Nat := 0x33524742

/-- The fields of `struct V4L2Frame`. Pointers are addresses, 0 being `nullptr`. -/
structure V4L2Frame where
  width : Nat
  height : Nat
  fourcc : Nat
  data : List Nat
  num_planes : Nat
  y_stride : Nat
  uv_stride : Nat
  plane0 : Nat
  plane1 : Nat
  index : Nat
  needs_release : Bool
  ts_sec : Int
  ts_usec : Int

/-- A default-constructed `V4L2Frame` (the member initialisers of the header). -/
def V4L2Frame.init : V4L2Frame where
  width := 0
  height := 0
  fourcc := 0
  data := []
  num_planes := 0
  y_stride := 0
  uv_stride := 0
  plane0 := 0
  plane1 := 0
  index := 0
  needs_release := false
  ts_sec := 0
  ts_usec := 0

/-- One mapped plane, `V4L2Capture::Plane`. -/
structure Plane where
  start : Nat
  length : Nat

/-- One pool slot, `V4L2Capture::Buffer`, with `planes[0]` and `planes[1]`. -/
structure Buffer where
  planes0 : Plane
  planes1 : Plane
  dmabuf_fd : Int

/-- A default-constructed `Buffer`. -/
def Buffer.init : Buffer where
  planes0 := { start := 0, length := 0 }
  planes1 := { start := 0, length := 0 }
  dmabuf_fd := -1

/-- The private fields of `class V4L2Capture` that configuration, acquisition and release
read or write; the last two carry the member initialisers of the header as defaults. -/
structure V4L2Capture where
  fd_ : Int
  width_ : Nat
  height_ : Nat
  fourcc_ : Nat
  num_planes_ : Nat
  y_stride_ : Nat
  uv_stride_ : Nat
  buffers_ : List Buffer
  dmabuf_export_supported_ : Bool := false
  reqbuf_count_ : Nat := 4

/-- Method `V4L2Capture::dmabuf_fd` (v4l2_capture.cpp:173-176). -/
def V4L2Capture.dmabuf_fd (cap : V4L2Capture) (index : Nat) : Int :=
  match cap.buffers_.get? index with
  | none => -1
  | some b => b.dmabuf_fd

/-- Ghost log entries of the capture side: the buffer ioctls in the order issued. -/
inductive Ioctl where
  /-- A `VIDIOC_DQBUF` that returned buffer `index`. -/
  | dqbuf (index : Nat)
  /-- A `VIDIOC_QBUF` of buffer `index`; `ok` tells whether the kernel accepted it. -/
  | qbuf (index : Nat) (ok : Bool)
  deriving DecidableEq, Repr

/-- Outcome of one `VIDIOC_DQBUF`. -/
inductive DqResult where
  /-- A filled buffer with its index and capture timestamp. -/
  | buf (index : Nat) (ts_sec ts_usec : Int)
  /-- Failure with errno EAGAIN: nothing is ready. -/
  | eagain
  /-- Failure with another errno. -/
  | error
  deriving DecidableEq, Repr

/-- The capture device as the program sees it: `qbufs` scripts the outcomes of the
successive `VIDIOC_QBUF` calls (an exhausted script means success), `mem` is the content
of the mapped memory and `log` the ghost log. -/
structure V4L2Dev where
  qbufs : List Bool
  mem : Nat → Nat
  log : List Ioctl

/-- The part of `struct v4l2_buffer` the program reads back after a dequeue. -/
structure v4l2_buffer where
  index : Nat
  tv_sec : Int
  tv_usec : Int

/-- A zero-initialised `v4l2_buffer`. -/
def v4l2_buffer.init : v4l2_buffer where
  index := 0
  tv_sec := 0
  tv_usec := 0

/-- Call `xioctl(fd_, VIDIOC_QBUF, ...)` for buffer `index`; the result is true when the
call does not return a negative value. -/
def VIDIOC_QBUF (dev : V4L2Dev) (index : Nat) : Bool × V4L2Dev :=
  match dev.qbufs with
  | [] => (true, { dev with log := dev.log ++ [Ioctl.qbuf index true] })
  | ok :: rest => (ok, { dev with qbufs := rest, log := dev.log ++ [Ioctl.qbuf index ok] })

/-- How the dequeue loop of `acquire_frame` ends. -/
inductive DqLoop where
  /-- A `return false` inside the loop. -/
  | failed (dev : V4L2Dev)
  /-- The `break` on EAGAIN, with the values of `have` and `last`. -/
  | done (dev : V4L2Dev) (have_ : Bool) (last : v4l2_buffer)

/-- The `while (true)` loop of `acquire_frame` (v4l2_capture.cpp:239-260). The list
gives the outcomes of the successive `VIDIOC_DQBUF` calls; when it is exhausted the
device answers EAGAIN. -/
def dequeue_loop : List DqResult → V4L2Dev → Bool → v4l2_buffer → DqLoop
  | [], dev, have_, last => DqLoop.done dev have_ last
  | DqResult.eagain :: _, dev, have_, last => DqLoop.done dev have_ last
  | DqResult.error :: _, dev, _, _ => DqLoop.failed dev
  | DqResult.buf index ts_sec ts_usec :: rest, dev, have_, last =>
    let dev := { dev with log := dev.log ++ [Ioctl.dqbuf index] }
    if have_ then
      match VIDIOC_QBUF dev last.index with
      | (false, dev) => DqLoop.failed dev
      | (true, dev) =>
        dequeue_loop rest dev true { index := index, tv_sec := ts_sec, tv_usec := ts_usec }
    else
      dequeue_loop rest dev true { index := index, tv_sec := ts_sec, tv_usec := ts_usec }

/-- The pixel loop of `bgr24_to_rgb24` (v4l2_capture.cpp:371-381); the first argument
counts the iterations left. -/
def bgr24_to_rgb24_loop (mem : Nat → Nat) (bgr : Nat) :
    Nat → Nat → Nat → List Nat → List Nat
  | 0, _, _, rgb_out => rgb_out
  | n + 1, in_i, out_i, rgb_out =>
    let b := mem (bgr + in_i + 0)
    let g := mem (bgr + in_i + 1)
    let r := mem (bgr + in_i + 2)
    let rgb_out := rgb_out.set (out_i + 0) r
    let rgb_out := rgb_out.set (out_i + 1) g
    let rgb_out := rgb_out.set (out_i + 2) b
    bgr24_to_rgb24_loop mem bgr n (in_i + 3) (out_i + 3) rgb_out

/-- Method `std::vector<uint8_t>::resize(n)`: truncate or pad with zeros. -/
def vector_resize (v : List Nat) (n : Nat) : List Nat :=
  v.take n ++ List.replicate (n - v.length) 0

/-- Function `bgr24_to_rgb24` (v4l2_capture.cpp:363-385) reading the source pixels from
memory `mem` at address `bgr`. -/
def bgr24_to_rgb24 (mem : Nat → Nat) (bgr width height : Nat) (rgb_out : List Nat) :
    Bool × List Nat :=
  if bgr = 0 ∨ width = 0 ∨ height = 0 then (false, rgb_out)
  else
    let rgb_out := vector_resize rgb_out ((width * height * 3) % 2 ^ 64)
    let pixels := (width * height) % 2 ^ 64
    (true, bgr24_to_rgb24_loop mem bgr pixels 0 0 rgb_out)

/-- Method `V4L2Capture::acquire_frame` (v4l2_capture.cpp:218-317). `pr` is the return
of `poll`, `dq` the outcomes of the `VIDIOC_DQBUF` calls of this call. -/
def V4L2Capture.acquire_frame (cap : V4L2Capture) (dev : V4L2Dev) (pr : Int)
    (dq : List DqResult) (out : V4L2Frame) : Bool × V4L2Frame × V4L2Dev :=
  if cap.fd_ < 0 then (false, out, dev)
  else
    let out := { out with needs_release := false, plane0 := 0, plane1 := 0, data := [],
                          ts_sec := 0, ts_usec := 0 }
    if pr = 0 then (true, out, dev)
    else if pr < 0 then (false, out, dev)
    else
      match dequeue_loop dq dev false v4l2_buffer.init with
      | DqLoop.failed dev => (false, out, dev)
      | DqLoop.done dev have_ last =>
        if !have_ then (true, out, dev)
        else
          let out := { out with width := cap.width_, height := cap.height_,
                                fourcc := cap.fourcc_, num_planes := cap.num_planes_,
                                y_stride := cap.y_stride_, uv_stride := cap.uv_stride_,
                                index := last.index, needs_release := true,
                                ts_sec := last.tv_sec, ts_usec := last.tv_usec,
                                plane0 := 0, plane1 := 0, data := [] }
          let buffer := (cap.buffers_.get? last.index).getD Buffer.init
          if cap.fourcc_ = V4L2_PIX_FMT_NV12 then
            let y_size := (cap.y_stride_ * cap.height_) % 2 ^ 64
            let uv_size := (cap.uv_stride_ * (cap.height_ / 2)) % 2 ^ 64
            if cap.num_planes_ ≥ 2 then
              (true, { out with plane0 := buffer.planes0.start,
                                plane1 := buffer.planes1.start }, dev)
            else if cap.num_planes_ = 1 then
              let base := buffer.planes0.start
              let avail := buffer.planes0.length
              if avail < (y_size + uv_size) % 2 ^ 64 then
                (false, out, (VIDIOC_QBUF dev last.index).2)
              else
                (true, { out with plane0 := base, plane1 := base + y_size }, dev)
            else
              (false, out, (VIDIOC_QBUF dev last.index).2)
          else if cap.fourcc_ = V4L2_PIX_FMT_BGR24 ∧ cap.num_planes_ ≥ 1 then
            let src := buffer.planes0.start
            match bgr24_to_rgb24 dev.mem src cap.width_ cap.height_ out.data with
            | (false, data) =>
              (false, { out with data := data }, (VIDIOC_QBUF dev last.index).2)
            | (true, data) =>
              let out := { out with data := data, needs_release := false,
                                    plane0 := 0, plane1 := 0 }
              match VIDIOC_QBUF dev last.index with
              | (false, dev) => (false, out, dev)
              | (true, dev) => (true, out, dev)
          else
            (false, out, (VIDIOC_QBUF dev last.index).2)

/-- Method `V4L2Capture::release_frame` (v4l2_capture.cpp:319-331). -/
def V4L2Capture.release_frame (_cap : V4L2Capture) (dev : V4L2Dev) (frame : V4L2Frame) :
    Bool × V4L2Frame × V4L2Dev :=
  if !frame.needs_release then (true, frame, dev)
  else
    match VIDIOC_QBUF dev frame.index with
    | (false, dev) => (false, frame, dev)
    | (true, dev) => (true, { frame with needs_release := false }, dev)

/-! ## The render loop of `main` (main.cpp) -/

/-- The conversion `(int)frame.index` of a `uint32_t` to a 32-bit `int`. -/
def to_int (index : Nat) : Int :=
  if index % 2 ^ 32 < 2 ^ 31 then ((index % 2 ^ 32 : Nat) : Int)
  else ((index % 2 ^ 32 : Nat) : Int) - 2 ^ 32

/-- The conversion `(uint32_t)displayed_v4l2_index` of an `int` to `uint32_t`. -/
def to_uint32 (i : Int) : Nat :=
  (i % 2 ^ 32).toNat

/-- The variables of `main` that the hand-off between capture and display uses.
`y_images_size` is `y_images.size()`; `test_clear` and the capture configuration do not
change inside the loop. -/
structure MainState where
  gfx : GbmEglDrm
  cap : V4L2Capture
  dev : V4L2Dev
  test_clear : Bool
  use_zero_copy : Bool
  y_images_size : Nat
  last_seen_flip_completed : Nat
  displayed_v4l2_index : Int
  pending_v4l2_index : Int

/-- What the outside world answers during one iteration of the render loop. -/
structure IterEnv where
  /-- Return of `poll` inside `acquire_frame`. -/
  pr : Int
  /-- Outcomes of the `VIDIOC_DQBUF` calls of `acquire_frame`. -/
  dq : List DqResult
  /-- Whether both `eglCreateImageKHR` calls succeed for capture buffer `i`. -/
  import_ok : Nat → Bool
  /-- Answers to the `drm_gbm_egl_swap_buffers` call of the iteration. -/
  swap : SwapEnv

/-- The handle `V4L2Frame rel; rel.needs_release = true; rel.index = (uint32_t)i;`. -/
def rel_frame (i : Int) : V4L2Frame :=
  { V4L2Frame.init with needs_release := true, index := to_uint32 i }

/-- The completion-driven release at the top of the loop (main.cpp:687-700). The first
argument bounds the number of iterations; `pageflip_completed - last_seen_flip_completed`
iterations exhaust the loop condition. -/
def release_completed : Nat → MainState → MainState
  | 0, st => st
  | fuel + 1, st =>
    if st.gfx.pageflip_completed > st.last_seen_flip_completed then
      let seen := (st.last_seen_flip_completed + 1) % 2 ^ 64
      let st := { st with last_seen_flip_completed := seen }
      if st.displayed_v4l2_index ≥ (0 : Int) then
        match st.cap.release_frame st.dev (rel_frame st.displayed_v4l2_index) with
        | (false, _, dev) => { st with dev := dev }
        | (true, _, dev) =>
          let st := { st with dev := dev }
          let st := { st with displayed_v4l2_index := st.pending_v4l2_index }
          release_completed fuel { st with pending_v4l2_index := -1 }
      else
        let st := { st with displayed_v4l2_index := st.pending_v4l2_index }
        release_completed fuel { st with pending_v4l2_index := -1 }
    else st

/-- The zero-copy import of main.cpp:842-907, run while `y_images` is empty: the vectors
get one entry for each capture buffer and `use_zero_copy` is cleared as soon as a buffer
has no DMABUF fd or an image cannot be created. -/
def import_images (st : MainState) (import_ok : Nat → Bool) : MainState :=
  if st.y_images_size = 0 then
    let nbuf := st.cap.buffers_.length
    let st := { st with y_images_size := nbuf }
    if (List.range nbuf).all (fun i => decide (st.cap.dmabuf_fd i ≥ 0) && import_ok i) then st
    else { st with use_zero_copy := false }
  else st

/-- The hand-off after a successful swap (main.cpp:1077-1113). The result is false when
the loop is left by `break`. -/
def post_swap_handoff (st : MainState) (frame : V4L2Frame) (flips_before flips_after : Nat) :
    Bool × MainState :=
  if frame.needs_release then
    if st.use_zero_copy then
      if !st.gfx.pageflip_enabled || !st.gfx.pageflip_use_event then
        let released : Bool × MainState :=
          if st.displayed_v4l2_index ≥ 0 then
            match st.cap.release_frame st.dev (rel_frame st.displayed_v4l2_index) with
            | (ok, _, dev) => (ok, { st with dev := dev })
          else (true, st)
        match released with
        | (false, st) => (false, st)
        | (true, st) =>
          let st := { st with displayed_v4l2_index := to_int frame.index }
          (true, { st with pending_v4l2_index := -1 })
      else
        if flips_after > flips_before then
          (true, { st with pending_v4l2_index := to_int frame.index })
        else
          if st.displayed_v4l2_index < 0 then
            (true, { st with displayed_v4l2_index := to_int frame.index })
          else
            match st.cap.release_frame st.dev frame with
            | (ok, _, dev) => (ok, { st with dev := dev })
    else
      match st.cap.release_frame st.dev frame with
      | (ok, _, dev) => (ok, { st with dev := dev })
  else (true, st)

/-- A call `drm_gbm_egl_swap_buffers(gfx)` from the loop. -/
def swap_gfx (st : MainState) (env : SwapEnv) : Bool × MainState :=
  match drm_gbm_egl_swap_buffers st.gfx env with
  | (ok, gfx) => (ok, { st with gfx := gfx })

/-- One iteration of `while (g_running)` (main.cpp:669-1114). Rendering calls are left
out: they touch none of the modelled variables. The result is true when the iteration
ends normally or by `continue`, false when it ends by `break`. -/
def main_loop_body (st : MainState) (env : IterEnv) : Bool × MainState :=
  if st.test_clear then swap_gfx st env.swap
  else
    let st :=
      if st.use_zero_copy then
        release_completed (st.gfx.pageflip_completed - st.last_seen_flip_completed) st
      else st
    match st.cap.acquire_frame st.dev env.pr env.dq V4L2Frame.init with
    | (false, _, dev) => (false, { st with dev := dev })
    | (true, frame, dev) =>
      let st := { st with dev := dev }
      let use_nv12 := decide (st.cap.fourcc_ = 0x3231564e)
      if !frame.needs_release && frame.data.isEmpty && !use_nv12 then swap_gfx st env.swap
      else if use_nv12 && !frame.needs_release then swap_gfx st env.swap
      else if !use_nv12 && frame.data.isEmpty then (true, st)
      else
        let st := if use_nv12 && st.use_zero_copy then import_images st env.import_ok else st
        let flips_before := st.gfx.pageflip_submitted
        match swap_gfx st env.swap with
        | (false, st) => (false, st)
        | (true, st) =>
          let flips_after := st.gfx.pageflip_submitted
          post_swap_handoff st frame flips_before flips_after

/-- The loop `while (g_running)`: the list holds the iterations entered before
`g_running` is cleared. -/
def main_loop (st : MainState) : List IterEnv → MainState
  | [] => st
  | env :: rest =>
    match main_loop_body st env with
    | (false, st) => st
    | (true, st) => main_loop st rest

/-- The releases after the loop (main.cpp:1116-1129); their results are ignored. -/
def shutdown_release (st : MainState) : MainState :=
  if st.use_zero_copy then
    let st :=
      if st.displayed_v4l2_index ≥ 0 then
        { st with dev := (st.cap.release_frame st.dev (rel_frame st.displayed_v4l2_index)).2.2 }
      else st
    if st.pending_v4l2_index ≥ 0 then
      { st with dev := (st.cap.release_frame st.dev (rel_frame st.pending_v4l2_index)).2.2 }
    else st
  else st

/-- The render loop followed by the shutdown releases. -/
def main_run (st : MainState) (envs : List IterEnv) : MainState :=
  shutdown_release (main_loop st envs)

/-- The state on entry to the render loop (main.cpp:654-668) for a started capture. -/
def MainState.entry (cap : V4L2Capture) (dev : V4L2Dev) (test_clear use_zero_copy : Bool) :
    MainState where
  gfx := GbmEglDrm.init
  cap := cap
  dev := dev
  test_clear := test_clear
  use_zero_copy := use_zero_copy
  y_images_size := 0
  last_seen_flip_completed := GbmEglDrm.init.pageflip_completed
  displayed_v4l2_index := -1
  pending_v4l2_index := -1

/-! ## Reading the ghost logs -/

/-- Number of completion events handled according to a display log. -/
def handled_count (log : List DrmEvent) : Nat :=
  log.count DrmEvent.flip_handled

/-- Whether `bo` is passed to `gbm_surface_release_buffer` in `log` before any
completion event is handled. -/
def released_before_completion (bo : Nat) : List DrmEvent → Bool
  | [] => false
  | DrmEvent.flip_handled :: _ => false
  | DrmEvent.release_buffer b :: rest => b == bo || released_before_completion bo rest
  | _ :: rest => released_before_completion bo rest

/-- The indices dequeued according to a capture log, in order. -/
def dequeued (log : List Ioctl) : List Nat :=
  log.filterMap fun e =>
    match e with
    | Ioctl.dqbuf i => some i
    | Ioctl.qbuf _ _ => none

/-- The indices for which a re-queue was issued according to a capture log, in order. -/
def requeued (log : List Ioctl) : List Nat :=
  log.filterMap fun e =>
    match e with
    | Ioctl.dqbuf _ => none
    | Ioctl.qbuf i _ => some i

/-! ## Vocabulary of the statements -/

/-- The buffer still held by the dequeue loop: `last` when `have` is set. -/
def held (have_ : Bool) (last : v4l2_buffer) : List Nat :=
  if have_ then [last.index] else []

/-- The dequeue script in which the device yields the given buffers in order. -/
def yields (bs : List v4l2_buffer) : List DqResult :=
  bs.map fun b => DqResult.buf b.index b.tv_sec b.tv_usec

/-- Log entries that the completion handler produces. -/
def completion_only (t : List DrmEvent) : Prop :=
  ∀ e ∈ t, e = DrmEvent.flip_handled ∨ ∃ b, e = DrmEvent.release_buffer b

/-- The context after the downgrade that `wait_pageflip` performs on its own
(drm_gbm_egl.cpp:500-506). -/
def wait_reset (s : GbmEglDrm) : GbmEglDrm :=
  release_prev_bo { s with pageflip_pending := false, pageflip_timeouts := 0,
                           pageflip_enabled := false }

/-- The context after the fallback of `drm_gbm_egl_swap_buffers` (drm_gbm_egl.cpp:578-593)
taken from `s` when the wait left the flip pending. -/
def swap_fallback (s : GbmEglDrm) : GbmEglDrm :=
  release_cur_bo (release_prev_bo2 (release_prev_bo
    { s with pageflip_enabled := false, pageflip_pending := false, pageflip_timeouts := 0,
             pageflip_dropped := 0 }))

/-- Log entries that `drm_set_crtc_for_bo` produces for buffer `bo`. -/
def setup_only (bo : Nat) (u : List DrmEvent) : Prop :=
  ∀ e ∈ u, (∃ f, e = DrmEvent.add_fb bo f) ∨ ∃ f, e = DrmEvent.set_crtc bo f

/-- The release entries for the buffers held in the given slots, in order. -/
def slot_releases (slots : List (Option Nat)) : List DrmEvent :=
  (slots.filterMap id).map DrmEvent.release_buffer

/-- The completion count agrees with the number of handled events in the log. -/
def completed_matches_log (s : GbmEglDrm) : Prop :=
  s.pageflip_completed = handled_count s.log % 2 ^ 64

/-- The framebuffer id `drm_set_crtc_for_bo` obtains for `bo`: the cached one, else the
one `drmModeAddFB2` returns. -/
def fb_id_for (ctx : GbmEglDrm) (env : SwapEnv) (bo : Nat) : Option Nat :=
  match ctx.fb_data.lookup bo with
  | some fb => some fb
  | none => env.addfb

/-- The registration entry logged for `bo`: none when its framebuffer id is cached. -/
def fb_log (ctx : GbmEglDrm) (env : SwapEnv) (bo : Nat) : List DrmEvent :=
  match ctx.fb_data.lookup bo, env.addfb with
  | none, some fb => [DrmEvent.add_fb bo fb]
  | _, _ => []

/-- The presentation script of the scenario: after the anchoring mode-set, five frames of
which the second and the fourth find the previous flip still pending after the bounded
wait, while the third and the fifth find its completion event readable. -/
def scenario : List SwapEnv :=
  [ { drain := [], wait1 := [], front := some 0, addfb := some 100, setcrtc_ok := true,
      flip := FlipRet.ok, wait2 := [] },
    { drain := [], wait1 := [], front := some 1, addfb := some 101, setcrtc_ok := true,
      flip := FlipRet.ok, wait2 := [] },
    { drain := [SelectResult.timeout], wait1 := [SelectResult.timeout], front := some 2,
      addfb := some 102, setcrtc_ok := true, flip := FlipRet.ok,
      wait2 := [SelectResult.timeout] },
    { drain := [SelectResult.ready 1], wait1 := [], front := some 0, addfb := some 100,
      setcrtc_ok := true, flip := FlipRet.ok, wait2 := [] },
    { drain := [SelectResult.timeout], wait1 := [SelectResult.timeout], front := some 1,
      addfb := some 101, setcrtc_ok := true, flip := FlipRet.ok,
      wait2 := [SelectResult.timeout] },
    { drain := [SelectResult.ready 1], wait1 := [], front := some 2, addfb := some 102,
      setcrtc_ok := true, flip := FlipRet.ok, wait2 := [] } ]

/-- The context at the end of the scenario, after a last drain that finds a completion
event readable. -/
def scenario_end : GbmEglDrm :=
  drain_drm_events (run_swaps GbmEglDrm.init scenario) [SelectResult.ready 1]

/-! ## Concrete inputs -/

/-- A started capture of four two-plane NV12 buffers, each exported as a DMABUF. -/
def demo_cap : V4L2Capture where
  fd_ := 3
  width_ := 4
  height_ := 2
  fourcc_ := V4L2_PIX_FMT_NV12
  num_planes_ := 2
  y_stride_ := 4
  uv_stride_ := 4
  buffers_ := List.replicate 4
    { planes0 := { start := 4096, length := 8 }, planes1 := { start := 8192, length := 4 },
      dmabuf_fd := 10 }

/-- A capture device that accepts every re-queue. -/
def demo_dev : V4L2Dev where
  qbufs := []
  mem := fun _ => 0
  log := []

/-- A capture device that rejects the next re-queue. -/
def demo_dev_busy : V4L2Dev where
  qbufs := [false]
  mem := fun _ => 0
  log := []

/-- A handle that owns capture buffer 2. -/
def demo_frame : V4L2Frame :=
  { V4L2Frame.init with index := 2, needs_release := true }

/-- A dequeued buffer with index `i` and timestamp `i` seconds. -/
def demo_buf (i : Nat) : v4l2_buffer where
  index := i
  tv_sec := i
  tv_usec := 0

/-- A swap in which every kernel call succeeds: `drain` and `wait1` script the event
stream, `bo` is the buffer locked from the surface. -/
def swap_ok (drain wait1 : List SelectResult) (bo : Nat) : SwapEnv where
  drain := drain
  wait1 := wait1
  front := some bo
  addfb := some (100 + bo)
  setcrtc_ok := true
  flip := FlipRet.ok
  wait2 := []

/-- The context after the anchoring mode-set of buffer 1 and the submission of a flip to
buffer 2: the flip is pending with `cur_bo` = 2 and `prev_bo` = 1. -/
def flip_in_flight : GbmEglDrm :=
  run_swaps GbmEglDrm.init [swap_ok [] [] 1, swap_ok [] [] 2]

/-- A swap of buffer 3 during which no completion event arrives. -/
def swap_timeout : SwapEnv :=
  swap_ok [SelectResult.timeout] [SelectResult.timeout] 3

/-- A swap of buffer 3 whose drain finds the completion event. -/
def swap_completed : SwapEnv :=
  swap_ok [SelectResult.ready 1] [] 3

/-- One iteration of the render loop in which the device yields buffer `index`, the swap
finds the event stream as scripted by `drain` and locks `bo`, and every call succeeds. -/
def iter_ok (index : Nat) (drain : List SelectResult) (bo : Nat) : IterEnv where
  pr := 1
  dq := [DqResult.buf index 0 0]
  import_ok := fun _ => true
  swap := swap_ok drain [] bo

/-- Four iterations of the zero-copy loop in normal operation: the first swap anchors the
mode, the second submits a flip, the third and fourth find the previous flip completed
and submit the next one. -/
def leak_run : List IterEnv :=
  [iter_ok 0 [] 0, iter_ok 1 [] 1, iter_ok 2 [SelectResult.ready 1] 2,
   iter_ok 3 [SelectResult.ready 1] 0]

/-- The loop entry state for the zero-copy pipeline on `demo_cap`. -/
def leak_entry : MainState :=
  MainState.entry demo_cap demo_dev false true

/-! ## Display sessions and their invariants -/

/-- The initial context for a session configured with the given values of
`pageflip_enabled` and `pageflip_use_event`. -/
def GbmEglDrm.start (enabled use_event : Bool) : GbmEglDrm :=
  { GbmEglDrm.init with pageflip_enabled := enabled, pageflip_use_event := use_event }

/-- A session with flips disabled and events unsupported, after the anchoring mode-set of
buffer 1. -/
def anchored_off_noevent : GbmEglDrm :=
  run_swaps (GbmEglDrm.start false false) [swap_ok [] [] 1]

/-- A session with flips disabled and events supported, after the anchoring mode-set of
buffer 1. -/
def anchored_off : GbmEglDrm :=
  run_swaps (GbmEglDrm.start false true) [swap_ok [] [] 1]

/-- A session with events unsupported, after the anchoring mode-set of buffer 1 and an
accepted flip to buffer 2. -/
def noevent_flipped : GbmEglDrm :=
  run_swaps (GbmEglDrm.start true false) [swap_ok [] [] 1, swap_ok [] [] 2]

/-- The context once `drm_gbm_egl_swap_buffers` has locked `bo` and `drm_set_crtc_for_bo`
has returned: `modeset_done` and the framebuffer records as that call left them, and
the log extended by the lock and the entries `u` of that call. -/
def after_setup (s : GbmEglDrm) (bo : Nat) (md : Bool) (fbd : List (Nat × Nat))
    (u : List DrmEvent) : GbmEglDrm :=
  { s with modeset_done := md, fb_data := fbd,
           log := s.log ++ DrmEvent.lock_front_buffer bo :: u }

/-- The invariant of event-driven sessions: the surface exists, completion events are in
use and the second retention slot is empty. -/
def event_mode_inv (s : GbmEglDrm) : Prop :=
  s.gbm_surf = true ∧ s.pageflip_use_event = true ∧ s.prev_bo2 = none

/-- The buffer and the kernel's answer of a log entry that is an event-requesting
`drmModePageFlip` call. -/
def event_flip_of : DrmEvent → Option (Nat × FlipRet)
  | DrmEvent.page_flip bo _ true ret _ => some (bo, ret)
  | _ => none

/-- The event-requesting flip submissions of a display log, in order. -/
def event_flips (log : List DrmEvent) : List (Nat × FlipRet) :=
  log.filterMap event_flip_of

/-- The most recent event-requesting flip submission of a display log. -/
def last_event_flip (log : List DrmEvent) : Option (Nat × FlipRet) :=
  (event_flips log).getLast?

/-- The invariant behind the in-flight slot: while a flip is pending, `cur_bo` holds the
buffer of the most recent event-requesting submission, which the kernel accepted. -/
def in_flight_inv (s : GbmEglDrm) : Prop :=
  s.gbm_surf = true ∧
  (s.pageflip_pending = true →
    ∃ bo, s.cur_bo = some bo ∧ last_event_flip s.log = some (bo, FlipRet.ok))

/-- A session of an anchoring swap and one accepted flip, as display steps. -/
def flip_session : List DisplayOp :=
  [DisplayOp.swap (swap_ok [] [] 1), DisplayOp.swap (swap_ok [] [] 2)]

/-- Effect of one log entry on the list of buffers locked from the render surface and not
yet released. -/
def lock_step (l : List Nat) : DrmEvent → List Nat
  | DrmEvent.lock_front_buffer b => b :: l
  | DrmEvent.release_buffer b => l.erase b
  | _ => l

/-- The buffers locked from the render surface and not yet released according to a display
log, one entry for each lock that is still outstanding. -/
def locked_buffers (log : List DrmEvent) : List Nat :=
  log.foldl lock_step []

/-- Whether slot `o` holds buffer `b`, as a number. -/
def slot_count (b : Nat) (o : Option Nat) : Nat :=
  if o = some b then 1 else 0

/-- Release of the buffer held in a slot, on the list of locked buffers. -/
def release_slot (l : List Nat) : Option Nat → List Nat
  | some b => l.erase b
  | none => l

/-- The invariant behind the retention bound: every outstanding lock is accounted for by a
slot, where `cur_bo` only counts while a flip is pending or after flips were disabled (in
the other states it is null or names a buffer that was released when its submission was
rejected); without completion events `cur_bo` stays null and no flip is ever pending. -/
def held_inv (s : GbmEglDrm) : Prop :=
  s.gbm_surf = true ∧
  (s.pageflip_use_event = false → s.cur_bo = none ∧ s.pageflip_pending = false) ∧
  ∀ b, (locked_buffers s.log).count b ≤
    (if s.pageflip_pending || !s.pageflip_enabled then slot_count b s.cur_bo else 0) +
      slot_count b s.prev_bo + slot_count b s.prev_bo2

/-- The buffers held in the three slots of the swapchain. -/
def slot_buffers (s : GbmEglDrm) : List Nat :=
  [s.cur_bo, s.prev_bo, s.prev_bo2].filterMap id

/-- The framebuffer id of a log entry that registers a framebuffer for buffer `bo`. -/
def registration_of (bo : Nat) : DrmEvent → Option Nat
  | DrmEvent.add_fb b fb => if b = bo then some fb else none
  | _ => none

/-- The framebuffer ids registered for buffer `bo` according to a display log, in order. -/
def registrations (bo : Nat) (log : List DrmEvent) : List Nat :=
  log.filterMap (registration_of bo)

/-- The invariant behind the framebuffer cache: the records attached to buffer objects are
the registrations of the log. -/
def fb_cache_inv (s : GbmEglDrm) : Prop :=
  s.gbm_surf = true ∧ ∀ b, registrations b s.log = (s.fb_data.lookup b).toList

/-! ## Capture configuration (v4l2_capture.cpp:36-171) -/

/-- The fields of `struct v4l2_pix_format_mplane` that `configure` reads or writes, with
`plane_fmt[0]` and `plane_fmt[1]` spelled out. -/
structure v4l2_pix_format_mplane where
  width : Nat
  height : Nat
  pixelformat : Nat
  num_planes : Nat
  plane_fmt0_bytesperline : Nat
  plane_fmt0_sizeimage : Nat
  plane_fmt1_bytesperline : Nat
  plane_fmt1_sizeimage : Nat
  deriving DecidableEq, Repr

/-- Outcome of `VIDIOC_S_FMT`: success with the format the driver wrote back, failure with
errno EINVAL, failure with another errno. -/
inductive SFmtResult where
  | ok (fmt : v4l2_pix_format_mplane)
  | einval
  | error
  deriving DecidableEq, Repr

/-- What `VIDIOC_QUERYBUF` writes for one buffer: the plane count `buf.length` and the
lengths of the first two planes. -/
structure QueryBuf where
  length : Nat
  plane0_length : Nat
  plane1_length : Nat
  deriving DecidableEq, Repr

/-- The value `MAP_FAILED`, `(void*)-1` on a 64-bit target. -/
def MAP_FAILED : Nat := 2 ^ 64 - 1

/-- What the driver answers during one `configure` call. -/
structure ConfigEnv where
  /-- Result of the first `VIDIOC_G_FMT` (`none` when it fails). -/
  g_fmt : Option v4l2_pix_format_mplane
  /-- Result of `VIDIOC_S_FMT` for the requested format. -/
  s_fmt : v4l2_pix_format_mplane → SFmtResult
  /-- Result of the second `VIDIOC_G_FMT` (`none` when it fails). -/
  g_fmt_again : Option v4l2_pix_format_mplane
  /-- Result of `VIDIOC_REQBUFS` for the requested count: `none` when it fails, else the
  count the driver granted. -/
  reqbufs : Nat → Option Nat
  /-- Result of `VIDIOC_QUERYBUF` for a buffer index (`none` when it fails). -/
  querybuf : Nat → Option QueryBuf
  /-- Address returned by `mmap` for plane `p` of buffer `i`. -/
  mmap : Nat → Nat → Nat
  /-- Result of `VIDIOC_EXPBUF` for a buffer index: `none` when it fails, else the
  exported file descriptor, which is not negative. -/
  expbuf : Nat → Option Nat

/-- The assignment `buffers_[i] = f(buffers_[i])`. -/
def update_buffer : List Buffer → Nat → (Buffer → Buffer) → List Buffer
  | [], _, _ => []
  | b :: bs, 0, f => f b :: bs
  | b :: bs, i + 1, f => b :: update_buffer bs i f

/-- The call `buffers_.resize(n)`. -/
def buffers_resize (bs : List Buffer) (n : Nat) : List Buffer :=
  bs.take n ++ List.replicate (n - bs.length) Buffer.init

/-- The lambda `try_set_fmt` of `configure`, returning the driver's answer in place of the
boolean. It overwrites `pixelformat` and `num_planes` of `fmt` before the call, so the
values a failed earlier attempt left there do not matter. -/
def try_set_fmt (env : ConfigEnv) (fmt : v4l2_pix_format_mplane) (pixfmt planes : Nat) :
    SFmtResult :=
  env.s_fmt { fmt with pixelformat := pixfmt, num_planes := planes }

/-- The plane loop `for (p = 0; p < buf.length && p < 2; p++)` for buffer `i`
(v4l2_capture.cpp:141-151). -/
def map_planes (env : ConfigEnv) (i : Nat) (q : QueryBuf) (cap : V4L2Capture) :
    Bool × V4L2Capture :=
  if 0 < q.length then
    let cap := { cap with buffers_ := update_buffer cap.buffers_ i fun b =>
      { b with planes0 := { start := env.mmap i 0, length := q.plane0_length } } }
    if env.mmap i 0 = MAP_FAILED then (false, cap)
    else if 1 < q.length then
      let cap := { cap with buffers_ := update_buffer cap.buffers_ i fun b =>
        { b with planes1 := { start := env.mmap i 1, length := q.plane1_length } } }
      if env.mmap i 1 = MAP_FAILED then (false, cap) else (true, cap)
    else (true, cap)
  else (true, cap)

/-- The buffer loop `for (i = 0; i < req.count; i++)` of `configure`
(v4l2_capture.cpp:128-162), with `remaining` iterations left from index `i`. -/
def configure_buffers (env : ConfigEnv) : Nat → Nat → V4L2Capture → Bool × V4L2Capture
  | 0, _, cap => (true, cap)
  | remaining + 1, i, cap =>
    let cap := { cap with buffers_ := update_buffer cap.buffers_ i fun b =>
      { b with dmabuf_fd := -1 } }
    match env.querybuf i with
    | none => (false, cap)
    | some q =>
      match map_planes env i q cap with
      | (false, cap) => (false, cap)
      | (true, cap) =>
        let cap :=
          match env.expbuf i with
          | some fd =>
            { cap with
              buffers_ := update_buffer cap.buffers_ i fun b => { b with dmabuf_fd := fd },
              dmabuf_export_supported_ := true }
          | none => cap
        configure_buffers env remaining (i + 1) cap

/-- The stride fix-up of `configure` (v4l2_capture.cpp:104-114) for plane 0 size `size0`. -/
def fix_strides (cap : V4L2Capture) (size0 : Nat) : V4L2Capture :=
  if cap.fourcc_ = V4L2_PIX_FMT_NV12 ∧ cap.num_planes_ = 1 then
    let cap :=
      if cap.y_stride_ = 0 ∧ cap.height_ ≠ 0 then
        let denom := (cap.height_ * 3) % 2 ^ 64
        let numer := (size0 * 2) % 2 ^ 64
        { cap with y_stride_ := if denom ≠ 0 then (numer / denom) % 2 ^ 32 else cap.width_ }
      else cap
    let cap := if cap.y_stride_ = 0 then { cap with y_stride_ := cap.width_ } else cap
    { cap with uv_stride_ := cap.y_stride_ }
  else
    let cap := if cap.y_stride_ = 0 then { cap with y_stride_ := cap.width_ } else cap
    if cap.uv_stride_ = 0 then { cap with uv_stride_ := cap.y_stride_ } else cap

/-- Method `V4L2Capture::configure` (v4l2_capture.cpp:36-171). -/
def V4L2Capture.configure (cap : V4L2Capture) (env : ConfigEnv) (width height : Nat) :
    Bool × V4L2Capture :=
  if cap.fd_ < 0 then (false, cap)
  else
    let cap := { cap with dmabuf_export_supported_ := false }
    match env.g_fmt with
    | none => (false, cap)
    | some fmt =>
      let fmt := if width ≠ 0 then { fmt with width := width } else fmt
      let fmt := if height ≠ 0 then { fmt with height := height } else fmt
      let negotiated : Option v4l2_pix_format_mplane :=
        match try_set_fmt env fmt V4L2_PIX_FMT_BGR24 1 with
        | SFmtResult.ok f => some f
        | SFmtResult.einval =>
          match try_set_fmt env fmt V4L2_PIX_FMT_NV12 2 with
          | SFmtResult.ok f => some f
          | _ => none
        | SFmtResult.error => none
      match negotiated with
      | none => (false, cap)
      | some fmt =>
        let fmt :=
          match env.g_fmt_again with
          | some got => got
          | none => fmt
        let cap := { cap with width_ := fmt.width, height_ := fmt.height,
                              fourcc_ := fmt.pixelformat }
        if fmt.num_planes < 1 then (false, cap)
        else
          let cap := { cap with num_planes_ := fmt.num_planes }
          let cap := { cap with y_stride_ := fmt.plane_fmt0_bytesperline }
          let cap := { cap with
            uv_stride_ := if cap.num_planes_ ≥ 2 then fmt.plane_fmt1_bytesperline else 0 }
          let cap := fix_strides cap fmt.plane_fmt0_sizeimage
          match env.reqbufs (if cap.reqbuf_count_ < 2 then 2 else cap.reqbuf_count_) with
          | none => (false, cap)
          | some count =>
            if count < 2 then (false, cap)
            else
              let cap := { cap with buffers_ := buffers_resize cap.buffers_ count }
              configure_buffers env count 0 cap

/-- Method `V4L2Capture::buffer_count`. -/
def V4L2Capture.buffer_count (cap : V4L2Capture) : Nat :=
  cap.buffers_.length % 2 ^ 32

/-- Method `V4L2Capture::dmabuf_export_supported`. -/
def V4L2Capture.dmabuf_export_supported (cap : V4L2Capture) : Bool :=
  cap.dmabuf_export_supported_

/-- An opened capture object before configuration. -/
def opened_cap : V4L2Capture where
  fd_ := 3
  width_ := 0
  height_ := 0
  fourcc_ := 0
  num_planes_ := 0
  y_stride_ := 0
  uv_stride_ := 0
  buffers_ := []

/-- The two-plane NV12 format of a 4x2 image. -/
def nv12_4x2 : v4l2_pix_format_mplane where
  width := 4
  height := 2
  pixelformat := V4L2_PIX_FMT_NV12
  num_planes := 2
  plane_fmt0_bytesperline := 4
  plane_fmt0_sizeimage := 8
  plane_fmt1_bytesperline := 4
  plane_fmt1_sizeimage := 4

/-- A driver that only accepts NV12, grants two buffers and exports the buffers whose
index satisfies `exports` as file descriptor 10 + index. -/
def nv12_driver (exports : Nat → Bool) : ConfigEnv where
  g_fmt := some nv12_4x2
  s_fmt := fun f => if f.pixelformat = V4L2_PIX_FMT_NV12 then SFmtResult.ok nv12_4x2
    else SFmtResult.einval
  g_fmt_again := some nv12_4x2
  reqbufs := fun _ => some 2
  querybuf := fun _ => some { length := 2, plane0_length := 8, plane1_length := 4 }
  mmap := fun i p => 4096 * (2 * i + p + 1)
  expbuf := fun i => if exports i then some (10 + i) else none

/-- The descriptor `configure` stores for buffer `i`: the exported one, else -1. -/
def exported_fd (env : ConfigEnv) (i : Nat) : Int :=
  match env.expbuf i with
  | some fd => fd
  | none => -1

/-! ## Capture buffers owned by the application -/

/-- Effect of one capture ioctl on the list of buffers the application owns: a dequeue
adds the buffer, an accepted re-queue gives it back. -/
def owned_step (l : List Nat) : Ioctl → List Nat
  | Ioctl.dqbuf i => i :: l
  | Ioctl.qbuf i true => l.erase i
  | Ioctl.qbuf _ false => l

/-- The capture buffers dequeued and not yet given back according to a capture log. -/
def owned (log : List Ioctl) : List Nat :=
  log.foldl owned_step []

/-- The fields of `drmModeModeInfo` that mode selection reads. -/
structure drmModeModeInfo where
  clock : Nat
  hdisplay : Nat
  htotal : Nat
  vdisplay : Nat
  vtotal : Nat
  vrefresh : Nat
  type : Nat
  name : List Char
  deriving DecidableEq, Repr

/-- The fields of `drmModeConnector` that mode selection reads; `count_modes` is the
length of `modes`. -/
structure drmModeConnector where
  modes : List drmModeModeInfo
  deriving DecidableEq, Repr

/-- The lambda `vrefresh` (drm_gbm_egl.cpp:49-53): the `vrefresh` field if it is not zero,
else the value derived from the pixel clock with 32-bit unsigned arithmetic, as an `int`. -/
def vrefresh (m : drmModeModeInfo) : Int :=
  if m.vrefresh ≠ 0 then to_int m.vrefresh
  else if m.htotal ≠ 0 ∧ m.vtotal ≠ 0 then
    to_int (((m.clock * 1000) % 2 ^ 32) / ((m.htotal * m.vtotal) % 2 ^ 32))
  else 0

/-- The C library's `isspace` in the "C" locale. -/
def isspace (c : Char) : Bool :=
  c.toNat = 32 || (9 ≤ c.toNat && c.toNat ≤ 13)

/-- The C library's `isdigit`. -/
def isdigit (c : Char) : Bool :=
  48 ≤ c.toNat && c.toNat ≤ 57

/-- The trimming of drm_gbm_egl.cpp:41-46: drop the white space at both ends. -/
def trim (s : List Char) : List Char :=
  ((s.dropWhile isspace).reverse.dropWhile isspace).reverse

/-- Position of the first `c` in `s`, `none` for `npos`. -/
def find_char (c : Char) : List Char → Option Nat
  | [] => none
  | a :: rest => if a = c then some 0 else (find_char c rest).map (· + 1)

/-- The call `s.find(c, pos)`. -/
def string_find (s : List Char) (c : Char) (pos : Nat) : Option Nat :=
  (find_char c (s.drop pos)).map (· + pos)

/-- The call `s.substr(pos, n)`. -/
def substr (s : List Char) (pos n : Nat) : List Char :=
  (s.drop pos).take n

/-- The number a string of decimal digits denotes. -/
def decimal (s : List Char) : Nat :=
  s.foldl (fun n c => 10 * n + (c.toNat - 48)) 0

/-- The call `std::atoi` on a non-empty string of decimal digits, the only strings the
program passes to it: `strtol` saturates at `LONG_MAX` and the result is converted to
`int`. -/
def atoi (s : List Char) : Int :=
  to_int (min (decimal s) (2 ^ 63 - 1))

/-- The block of drm_gbm_egl.cpp:56-80 that parses `WxH` or `WxH@R`, returning `req_w`,
`req_h` and `req_r`. -/
def parse_override (s : List Char) : Int × Int × Int :=
  match string_find s 'x' 0 with
  | none => (-1, -1, -1)
  | some x =>
    if x > 0 then
      let at_ := string_find s '@' (x + 1)
      let sw := substr s 0 x
      let sh :=
        match at_ with
        | none => s.drop (x + 1)
        | some a => substr s (x + 1) (a - (x + 1))
      let ok := !sw.isEmpty && !sh.isEmpty && sw.all isdigit && sh.all isdigit
      if ok then
        let req_w := atoi sw
        let req_h := atoi sh
        match at_ with
        | none => (req_w, req_h, -1)
        | some a =>
          let sr := s.drop (a + 1)
          let okr := !sr.isEmpty && sr.all isdigit
          if okr then (req_w, req_h, atoi sr) else (req_w, req_h, -1)
      else (-1, -1, -1)
    else (-1, -1, -1)

/-- The selection loop of drm_gbm_egl.cpp:94-112 over the modes from index `i` on, with
the values of `best` and `best_vr`; `none` stands for `return false`. -/
def override_scan (modes : List drmModeModeInfo) (req_w req_h req_r : Int) :
    List drmModeModeInfo → Nat → Int → Int → Option drmModeModeInfo
  | [], _, best, _ => if best ≥ 0 then modes.get? best.toNat else none
  | m :: rest, i, best, best_vr =>
    if (m.hdisplay : Int) ≠ req_w ∨ (m.vdisplay : Int) ≠ req_h then
      override_scan modes req_w req_h req_r rest (i + 1) best best_vr
    else
      let vr := vrefresh m
      if req_r ≥ 0 then
        if vr ≠ req_r then override_scan modes req_w req_h req_r rest (i + 1) best best_vr
        else some m
      else if best < 0 ∨ vr > best_vr then
        override_scan modes req_w req_h req_r rest (i + 1) i vr
      else override_scan modes req_w req_h req_r rest (i + 1) best best_vr

/-- Function `choose_mode_override` (drm_gbm_egl.cpp:35-113): `none` stands for
`return false`, `some m` for `return true` with `out = m`. Null pointers are `none`. -/
def choose_mode_override (conn : Option drmModeConnector) (mode_override : Option (List Char)) :
    Option drmModeModeInfo :=
  match conn with
  | none => none
  | some conn =>
    if conn.modes.length = 0 then none
    else
      match mode_override with
      | none => none
      | some str =>
        if str.isEmpty then none
        else
          let s := trim str
          if s.isEmpty then none
          else
            match parse_override s with
            | (req_w, req_h, req_r) =>
              if req_w < 0 ∨ req_h < 0 then conn.modes.find? fun m => s = m.name
              else override_scan conn.modes req_w req_h req_r conn.modes 0 (-1) 0

/-- A mode of the given size and refresh rate, named as the kernel names modes. -/
def mode_of (w h r : Nat) (name : List Char) : drmModeModeInfo where
  clock := 0
  hdisplay := w
  htotal := 0
  vdisplay := h
  vtotal := 0
  vrefresh := r
  type := 0
  name := name

/-- The candidates 1920x1080 at 60 Hz, 1920x1080 at 50 Hz and 3840x2160 at 30 Hz. -/
def demo_modes : List drmModeModeInfo :=
  [mode_of 1920 1080 60 "1920x1080".toList, mode_of 1920 1080 50 "1920x1080".toList,
   mode_of 3840 2160 30 "3840x2160".toList]

/-- Mode `m` has the requested size. -/
def has_size (w h : Int) (m : drmModeModeInfo) : Prop :=
  (m.hdisplay : Int) = w ∧ (m.vdisplay : Int) = h

/-- The invariant behind the idle hypotheses of the presentation paths: a flip is pending
only after the mode was set, while flips are enabled and completion events are in use. -/
def pending_inv (s : GbmEglDrm) : Prop :=
  s.gbm_surf = true ∧
  (s.pageflip_pending = true →
    s.modeset_done = true ∧ s.pageflip_enabled = true ∧ s.pageflip_use_event = true)

/-- Mode `m` is the first element of `l` with property `p`. -/
def first_with {α : Type} (p : α → Prop) (l : List α) (m : α) : Prop :=
  ∃ pre post, l = pre ++ m :: post ∧ p m ∧ ∀ m' ∈ pre, ¬ p m'

/-! ## Automatic mode selection (drm_gbm_egl.cpp:128-200) -/

/-- The flag `DRM_MODE_TYPE_PREFERRED` (1 << 3). -/
def DRM_MODE_TYPE_PREFERRED : Nat := 8

/-- A zero-initialised `drmModeModeInfo`. -/
def drmModeModeInfo.zero : drmModeModeInfo where
  clock := 0
  hdisplay := 0
  htotal := 0
  vdisplay := 0
  vtotal := 0
  vrefresh := 0
  type := 0
  name := []

/-- The element `conn->modes[i]` for an `int` index; the program only uses indices of
the array. -/
def mode_at (modes : List drmModeModeInfo) (i : Int) : drmModeModeInfo :=
  (modes.get? i.toNat).getD drmModeModeInfo.zero

/-- The 64-bit product `(uint64_t)m.hdisplay * (uint64_t)m.vdisplay`. -/
def pixel_count (m : drmModeModeInfo) : Nat :=
  (m.hdisplay * m.vdisplay) % 2 ^ 64

/-- The lambda `better` of `choose_mode` (drm_gbm_egl.cpp:137-147). -/
def better (cand best : drmModeModeInfo) : Bool :=
  let cp := pixel_count cand
  let bp := pixel_count best
  if cp ≠ bp then decide (cp > bp)
  else if cand.hdisplay ≠ best.hdisplay then decide (cand.hdisplay > best.hdisplay)
  else if cand.vdisplay ≠ best.vdisplay then decide (cand.vdisplay > best.vdisplay)
  else decide (vrefresh cand > vrefresh best)

/-- The loop over the preferred modes (drm_gbm_egl.cpp:150-155) from index `i` on, with
the value of `preferred_best`. -/
def preferred_scan (modes : List drmModeModeInfo) : List drmModeModeInfo → Nat → Int → Int
  | [], _, preferred_best => preferred_best
  | m :: rest, i, preferred_best =>
    if Nat.land m.type DRM_MODE_TYPE_PREFERRED = 0 then
      preferred_scan modes rest (i + 1) preferred_best
    else if preferred_best < 0 ∨ better m (mode_at modes preferred_best) = true then
      preferred_scan modes rest (i + 1) i
    else preferred_scan modes rest (i + 1) preferred_best

/-- The hand-written loop over all modes (drm_gbm_egl.cpp:165-196) from index `i` on, with
the values of `best`, `best_pixels` and `best_vr`. -/
def best_scan (modes : List drmModeModeInfo) :
    List drmModeModeInfo → Nat → Int → Nat → Int → Int
  | [], _, best, _, _ => best
  | m :: rest, i, best, best_pixels, best_vr =>
    let pixels := pixel_count m
    let vr := vrefresh m
    if pixels > best_pixels then best_scan modes rest (i + 1) i pixels vr
    else if pixels < best_pixels then best_scan modes rest (i + 1) best best_pixels best_vr
    else if m.hdisplay > (mode_at modes best).hdisplay then
      best_scan modes rest (i + 1) i best_pixels vr
    else if m.hdisplay < (mode_at modes best).hdisplay then
      best_scan modes rest (i + 1) best best_pixels best_vr
    else if m.vdisplay > (mode_at modes best).vdisplay then
      best_scan modes rest (i + 1) i best_pixels vr
    else if m.vdisplay < (mode_at modes best).vdisplay then
      best_scan modes rest (i + 1) best best_pixels best_vr
    else if vr > best_vr then best_scan modes rest (i + 1) i best_pixels vr
    else best_scan modes rest (i + 1) best best_pixels best_vr

/-- Function `choose_mode` (drm_gbm_egl.cpp:128-200): `none` stands for `return false`,
`some m` for `return true` with `out = m`. -/
def choose_mode (conn : Option drmModeConnector) : Option drmModeModeInfo :=
  match conn with
  | none => none
  | some conn =>
    if conn.modes.length = 0 then none
    else
      let preferred_best := preferred_scan conn.modes conn.modes 0 (-1)
      if preferred_best ≥ 0 then some (mode_at conn.modes preferred_best)
      else
        let best := best_scan conn.modes (conn.modes.drop 1) 1 0
          (pixel_count (mode_at conn.modes 0)) (vrefresh (mode_at conn.modes 0))
        some (mode_at conn.modes best)

/-- The mode selection of `init_drm_gbm_egl` (drm_gbm_egl.cpp:333-349): the override when
one is given, else the automatic choice; `none` stands for `return false`. -/
def init_select_mode (conn : Option drmModeConnector) (mode_override : Option (List Char)) :
    Option drmModeModeInfo :=
  match mode_override with
  | none => choose_mode conn
  | some str => if str.isEmpty then choose_mode conn else choose_mode_override conn (some str)

/-- The loop of drm_gbm_egl.cpp:150-155 without the test of the preferred flag: the fold
of `better` over the modes from index `i` on. -/
def better_fold (modes : List drmModeModeInfo) : List drmModeModeInfo → Nat → Int → Int
  | [], _, best => best
  | m :: rest, i, best =>
    if best < 0 ∨ better m (mode_at modes best) = true then better_fold modes rest (i + 1) i
    else better_fold modes rest (i + 1) best

/-- Mode `m` carries the preferred flag. -/
def is_preferred (m : drmModeModeInfo) : Prop :=
  Nat.land m.type DRM_MODE_TYPE_PREFERRED ≠ 0

instance is_preferred_decidable : DecidablePred is_preferred :=
  fun m => inferInstanceAs (Decidable (Nat.land m.type DRM_MODE_TYPE_PREFERRED ≠ 0))

/-- The strict lexicographic order on (pixel count, width, height, refresh rate). -/
def mode_lt (a b : drmModeModeInfo) : Prop :=
  pixel_count a < pixel_count b ∨ (pixel_count a = pixel_count b ∧
    (a.hdisplay < b.hdisplay ∨ (a.hdisplay = b.hdisplay ∧
      (a.vdisplay < b.vdisplay ∨ (a.vdisplay = b.vdisplay ∧ vrefresh a < vrefresh b)))))

/-- Mode `m` of `modes` is the earliest maximal candidate: it is a candidate, every earlier
candidate is smaller and no later candidate is greater. -/
def first_maximal (cand : drmModeModeInfo → Prop) (modes : List drmModeModeInfo)
    (m : drmModeModeInfo) : Prop :=
  ∃ pre post, modes = pre ++ m :: post ∧ cand m ∧
    (∀ c ∈ pre, cand c → mode_lt c m) ∧ (∀ c ∈ post, cand c → ¬ mode_lt m c)

/-- A mode with the given size, refresh rate and type flags. -/
def typed_mode (w h r type : Nat) : drmModeModeInfo where
  clock := 0
  hdisplay := w
  htotal := 0
  vdisplay := h
  vtotal := 0
  vrefresh := r
  type := type
  name := []

/-- The string has the size part of the override grammar: digits, `x`, digits, then
nothing or an `@` with any text. -/
def size_parses (s : List Char) : Prop :=
  ∃ ws hs rest, s = ws ++ 'x' :: (hs ++ rest) ∧ ws ≠ [] ∧ hs ≠ [] ∧
    (∀ c ∈ ws, isdigit c = true) ∧ (∀ c ∈ hs, isdigit c = true) ∧
    (rest = [] ∨ ∃ r, rest = '@' :: r)

/-- The shape the two `better` loops share: the modes failing test `c` are skipped. -/
def cand_scan (c : drmModeModeInfo → Bool) (modes : List drmModeModeInfo) :
    List drmModeModeInfo → Nat → Int → Int
  | [], _, best => best
  | m :: rest, i, best =>
    if c m = false then cand_scan c modes rest (i + 1) best
    else if best < 0 ∨ better m (mode_at modes best) = true then
      cand_scan c modes rest (i + 1) i
    else cand_scan c modes rest (i + 1) best

/-- What a `better` loop has established after the modes of `pre`: either no candidate
was seen and the index is -1, or the index is that of the earliest maximal candidate. -/
def scan_inv (cand : drmModeModeInfo → Prop) (pre : List drmModeModeInfo) (best : Int) : Prop :=
  (best = -1 ∧ ∀ m ∈ pre, ¬ cand m) ∨
  ∃ p m q, pre = p ++ m :: q ∧ best = p.length ∧ cand m ∧
    (∀ c ∈ p, cand c → mode_lt c m) ∧ (∀ c ∈ q, cand c → ¬ mode_lt m c)

/-- A 1920x1080 mode without a `vrefresh` value, with the given pixel clock in kHz and
the given totals. -/
def timed_mode (clock htotal vtotal : Nat) : drmModeModeInfo where
  clock := clock
  hdisplay := 1920
  htotal := htotal
  vdisplay := 1080
  vtotal := vtotal
  vrefresh := 0
  type := 0
  name := []

/-- Every readable `select()` of the script delivers at most one page-flip event, as a
display with at most one flip in flight does. -/
def single_events (l : List SelectResult) : Bool :=
  l.all fun r =>
    match r with
    | SelectResult.ready n => decide (n ≤ 1)
    | _ => true

/-- The session runs the completion handler only while a flip is pending: a direct
invocation finds `pageflip_pending` set, and the event scripts of every swap deliver at
most one completion at a time (the event loops of a swap dispatch only while pending). -/
def handler_while_pending : GbmEglDrm → List DisplayOp → Bool
  | _, [] => true
  | s, DisplayOp.swap env :: rest =>
    single_events env.drain && single_events env.wait1 &&
      handler_while_pending (DisplayOp.apply s (DisplayOp.swap env)) rest
  | s, DisplayOp.completion :: rest =>
    s.pageflip_pending && handler_while_pending (page_flip_handler s) rest

/-- The counter relation of the flip state machine: the completions, plus one for a flip
in flight, do not exceed the submissions. -/
def counters_inv (s : GbmEglDrm) : Prop :=
  s.pageflip_completed + (if s.pageflip_pending then 1 else 0) ≤ s.pageflip_submitted

theorem drmHandleEvent_add (s : GbmEglDrm) (a b : Nat) :
    drmHandleEvent (drmHandleEvent s a) b = drmHandleEvent s (a + b) := by
  induction a generalizing s with
  | zero => simp [drmHandleEvent]
  | succ a ih =>
    have e : a + 1 + b = (a + b) + 1 := by omega
    rw [e]
    simp only [drmHandleEvent]
    exact ih _

theorem drain_drm_events_eq (s : GbmEglDrm) (l : List SelectResult) :
    ∃ n, drain_drm_events s l = drmHandleEvent s n := by
  induction l generalizing s with
  | nil => exact ⟨0, rfl⟩
  | cons r rest ih =>
    unfold drain_drm_events
    by_cases hp : s.pageflip_pending = true
    · cases r with
      | eintr => simpa [hp] using ih s
      | error => exact ⟨0, by simp [hp, drmHandleEvent]⟩
      | timeout => exact ⟨0, by simp [hp, drmHandleEvent]⟩
      | ready n =>
        obtain ⟨m, hm⟩ := ih (drmHandleEvent s n)
        exact ⟨n + m, by simp [hp, hm, drmHandleEvent_add]⟩
    · exact ⟨0, by simp [hp, drmHandleEvent]⟩

theorem wait_pageflip_loop_eq (s : GbmEglDrm) (r : Int) (l : List SelectResult) :
    ∃ n, wait_pageflip_loop s r l = drmHandleEvent s n := by
  induction l with
  | nil => exact ⟨0, rfl⟩
  | cons x rest ih =>
    unfold wait_pageflip_loop
    split
    · exact ⟨0, rfl⟩
    · cases x with
      | eintr => simpa using ih
      | error => exact ⟨0, rfl⟩
      | timeout => exact ⟨0, rfl⟩
      | ready n => exact ⟨n, rfl⟩

/-- Fields that no number of completion events changes. -/
theorem drmHandleEvent_frame (s : GbmEglDrm) (n : Nat) :
    (drmHandleEvent s n).gbm_surf = s.gbm_surf ∧
    (drmHandleEvent s n).prev_bo2 = s.prev_bo2 ∧
    (drmHandleEvent s n).modeset_done = s.modeset_done ∧
    (drmHandleEvent s n).pageflip_enabled = s.pageflip_enabled ∧
    (drmHandleEvent s n).pageflip_use_event = s.pageflip_use_event ∧
    (drmHandleEvent s n).pageflip_timeouts = s.pageflip_timeouts ∧
    (drmHandleEvent s n).pageflip_submitted = s.pageflip_submitted ∧
    (drmHandleEvent s n).pageflip_dropped = s.pageflip_dropped ∧
    (drmHandleEvent s n).fb_data = s.fb_data := by
  induction n generalizing s with
  | zero => simp [drmHandleEvent]
  | succ n ih =>
    simp only [drmHandleEvent]
    have h := ih (page_flip_handler s)
    have e : (page_flip_handler s).gbm_surf = s.gbm_surf ∧
        (page_flip_handler s).prev_bo2 = s.prev_bo2 ∧
        (page_flip_handler s).modeset_done = s.modeset_done ∧
        (page_flip_handler s).pageflip_enabled = s.pageflip_enabled ∧
        (page_flip_handler s).pageflip_use_event = s.pageflip_use_event ∧
        (page_flip_handler s).pageflip_timeouts = s.pageflip_timeouts ∧
        (page_flip_handler s).pageflip_submitted = s.pageflip_submitted ∧
        (page_flip_handler s).pageflip_dropped = s.pageflip_dropped ∧
        (page_flip_handler s).fb_data = s.fb_data := by
      simp only [page_flip_handler, release_prev_bo, gbm_surface_release_buffer]
      split <;> simp
    obtain ⟨e1, e2, e3, e4, e5, e6, e7, e8, e9⟩ := e
    obtain ⟨h1, h2, h3, h4, h5, h6, h7, h8, h9⟩ := h
    exact ⟨h1.trans e1, h2.trans e2, h3.trans e3, h4.trans e4, h5.trans e5, h6.trans e6,
      h7.trans e7, h8.trans e8, h9.trans e9⟩

/-! ## Lemmas on the capture pool -/

theorem dequeued_append (a b : List Ioctl) : dequeued (a ++ b) = dequeued a ++ dequeued b := by
  simp [dequeued, List.filterMap_append]

theorem requeued_append (a b : List Ioctl) : requeued (a ++ b) = requeued a ++ requeued b := by
  simp [requeued, List.filterMap_append]

theorem VIDIOC_QBUF_log (dev : V4L2Dev) (i : Nat) :
    (VIDIOC_QBUF dev i).2.log = dev.log ++ [Ioctl.qbuf i (VIDIOC_QBUF dev i).1] := by
  unfold VIDIOC_QBUF
  split <;> simp

theorem VIDIOC_QBUF_ok (dev : V4L2Dev) (i : Nat) (h : ∀ ok ∈ dev.qbufs, ok = true) :
    (VIDIOC_QBUF dev i).1 = true ∧ ∀ ok ∈ (VIDIOC_QBUF dev i).2.qbufs, ok = true := by
  unfold VIDIOC_QBUF
  split
  · next he => simp [he]
  · next ok rest he =>
    rw [he] at h
    exact ⟨h ok (by simp), fun x hx => h x (by simp [hx])⟩

/-- Loop invariant of the dequeue loop: what was dequeued is what was re-queued plus the
buffer still held. -/
theorem dequeue_loop_done (dq : List DqResult) (dev dev' : V4L2Dev) (h h' : Bool)
    (l l' : v4l2_buffer) (hd : dequeue_loop dq dev h l = DqLoop.done dev' h' l') :
    ∃ new, dev'.log = dev.log ++ new ∧
      held h l ++ dequeued new = requeued new ++ held h' l' ∧
      (∀ i, Ioctl.qbuf i false ∉ new) ∧ dev'.mem = dev.mem := by
  induction dq generalizing dev h l with
  | nil =>
    simp only [dequeue_loop, DqLoop.done.injEq] at hd
    obtain ⟨rfl, rfl, rfl⟩ := hd
    exact ⟨[], by simp [dequeued, requeued]⟩
  | cons r rest ih =>
    cases r with
    | eagain =>
      simp only [dequeue_loop, DqLoop.done.injEq] at hd
      obtain ⟨rfl, rfl, rfl⟩ := hd
      exact ⟨[], by simp [dequeued, requeued]⟩
    | error => simp [dequeue_loop] at hd
    | buf index ts_sec ts_usec =>
      simp only [dequeue_loop] at hd
      cases h with
      | false =>
        simp only [Bool.false_eq_true, if_false] at hd
        obtain ⟨new, e1, e2, e3, e4⟩ := ih _ _ _ hd
        refine ⟨Ioctl.dqbuf index :: new, by simpa using e1, ?_, ?_, by simpa using e4⟩
        · have := e2
          simp only [held, if_true, if_false, Bool.false_eq_true] at this ⊢
          simp only [dequeued, requeued, List.filterMap_cons, List.nil_append] at this ⊢
          simpa using this
        · intro i hi
          simp only [List.mem_cons] at hi
          rcases hi with hi | hi
          · cases hi
          · exact e3 i hi
      | true =>
        simp only [if_true] at hd
        split at hd
        · simp at hd
        · next dev1 hq =>
          obtain ⟨new, e1, e2, e3, e4⟩ := ih _ _ _ hd
          have hl := VIDIOC_QBUF_log { dev with log := dev.log ++ [Ioctl.dqbuf index] } l.index
          have hm : dev1.mem = dev.mem := by
            have : (VIDIOC_QBUF { dev with log := dev.log ++ [Ioctl.dqbuf index] } l.index).2.mem
                = dev.mem := by
              unfold VIDIOC_QBUF
              split <;> simp
            rw [hq] at this
            exact this
          rw [hq] at hl
          simp only at hl
          refine ⟨Ioctl.dqbuf index :: Ioctl.qbuf l.index true :: new, ?_, ?_, ?_, ?_⟩
          · rw [e1, hl]; simp
          · have := e2
            simp only [held, if_true] at this ⊢
            simp only [dequeued, requeued, List.filterMap_cons] at this ⊢
            simp only [List.cons_append, List.nil_append] at this ⊢
            rw [← this]
          · intro i hi
            simp only [List.mem_cons] at hi
            rcases hi with hi | hi | hi
            · cases hi
            · cases hi
            · exact e3 i hi
          · rw [e4, hm]

/-- C4: when `acquire_frame` returns true, the buffers it dequeued are exactly the ones it
re-queued (every re-queue accepted), followed by `out.index` when `needs_release` is set
and by nothing when it is clear. -/
theorem C4_acquire_ownership_matches_flag (cap : V4L2Capture) (dev : V4L2Dev) (pr : Int)
    (dq : List DqResult) (out : V4L2Frame)
    (hret : (cap.acquire_frame dev pr dq out).1 = true) :
    ∃ new, (cap.acquire_frame dev pr dq out).2.2.log = dev.log ++ new ∧
      dequeued new = requeued new ++
        (if (cap.acquire_frame dev pr dq out).2.1.needs_release
          then [(cap.acquire_frame dev pr dq out).2.1.index] else []) ∧
      (∀ i, Ioctl.qbuf i false ∉ new) := by
  unfold V4L2Capture.acquire_frame at hret ⊢
  by_cases hfd : cap.fd_ < 0
  · simp [hfd] at hret
  simp only [hfd, if_false] at hret ⊢
  by_cases hpr0 : pr = 0
  · simp only [hpr0, if_true]
    exact ⟨[], by simp [dequeued, requeued]⟩
  simp only [hpr0, if_false] at hret ⊢
  by_cases hprn : pr < 0
  · simp [hprn] at hret
  simp only [hprn, if_false] at hret ⊢
  cases hloop : dequeue_loop dq dev false v4l2_buffer.init with
  | failed d => simp [hloop] at hret
  | done d hv last =>
    obtain ⟨new, e1, e2, e3, e4⟩ := dequeue_loop_done dq dev d false hv _ last hloop
    simp only [hloop] at hret ⊢
    cases hv with
    | false =>
      refine ⟨new, by simpa using e1, ?_, e3⟩
      simpa [held] using e2
    | true =>
      simp only [Bool.not_true, Bool.false_eq_true, if_false] at hret ⊢
      simp only [held, if_true, if_false, Bool.false_eq_true, List.nil_append] at e2
      by_cases hnv : cap.fourcc_ = V4L2_PIX_FMT_NV12
      · simp only [hnv, if_true] at hret ⊢
        by_cases hp2 : cap.num_planes_ ≥ 2
        · simp only [hp2, if_true]
          exact ⟨new, e1, by simpa using e2, e3⟩
        · simp only [hp2, if_false] at hret ⊢
          by_cases hp1 : cap.num_planes_ = 1
          · simp only [hp1, if_true] at hret ⊢
            split at hret
            · simp at hret
            · next hav =>
              simp only [hav, if_false]
              exact ⟨new, e1, by simpa using e2, e3⟩
          · simp [hp1] at hret
      · simp only [hnv, if_false] at hret ⊢
        by_cases hb : cap.fourcc_ = V4L2_PIX_FMT_BGR24 ∧ cap.num_planes_ ≥ 1
        · rw [if_pos hb] at hret ⊢
          cases hconv : bgr24_to_rgb24 d.mem
              ((cap.buffers_.get? last.index).getD Buffer.init).planes0.start
              cap.width_ cap.height_ [] with
          | mk okc data =>
            simp only [hconv] at hret ⊢
            cases okc with
            | false => simp at hret
            | true =>
              simp only at hret ⊢
              have hl := VIDIOC_QBUF_log d last.index
              cases hq : VIDIOC_QBUF d last.index with
              | mk okq d2 =>
                rw [hq] at hl
                simp only [hq] at hret ⊢
                cases okq with
                | false => simp at hret
                | true =>
                  simp only at hl ⊢
                  refine ⟨new ++ [Ioctl.qbuf last.index true], ?_, ?_, ?_⟩
                  · rw [hl, e1]; simp
                  · rw [dequeued_append, requeued_append, e2]
                    simp [dequeued, requeued]
                  · intro i hi
                    simp only [List.mem_append, List.mem_singleton] at hi
                    rcases hi with hi | hi
                    · exact e3 i hi
                    · cases hi
        · simp [hb] at hret

/-- C4 at a concrete input: a successful zero-copy acquisition of buffer 2. -/
theorem C4_acquire_witness :
    (demo_cap.acquire_frame demo_dev 1 (yields [demo_buf 1, demo_buf 2]) V4L2Frame.init).1 = true ∧
    ∃ new,
      (demo_cap.acquire_frame demo_dev 1 (yields [demo_buf 1, demo_buf 2])
        V4L2Frame.init).2.2.log = demo_dev.log ++ new ∧
      dequeued new = requeued new ++
        (if (demo_cap.acquire_frame demo_dev 1 (yields [demo_buf 1, demo_buf 2])
              V4L2Frame.init).2.1.needs_release
          then [(demo_cap.acquire_frame demo_dev 1 (yields [demo_buf 1, demo_buf 2])
              V4L2Frame.init).2.1.index] else []) ∧
      (∀ i, Ioctl.qbuf i false ∉ new) :=
  ⟨by decide,
   C4_acquire_ownership_matches_flag demo_cap demo_dev 1 (yields [demo_buf 1, demo_buf 2])
    V4L2Frame.init (by decide)⟩

/-- With every re-queue accepted and a script that yields `bs` and then reports EAGAIN,
the dequeue loop ends normally holding the last buffer of `bs`. -/
theorem dequeue_loop_yields (bs : List v4l2_buffer) (stop : List DqResult) (dev : V4L2Dev)
    (h : Bool) (l : v4l2_buffer) (hq : ∀ ok ∈ dev.qbufs, ok = true)
    (hstop : stop = [] ∨ ∃ rest, stop = DqResult.eagain :: rest) :
    ∃ dev' new, dequeue_loop (yields bs ++ stop) dev h l =
        DqLoop.done dev' (h || !bs.isEmpty) (bs.getLast?.getD l) ∧
      dev'.log = dev.log ++ new ∧ dequeued new = bs.map (fun b => b.index) ∧
      (∀ ok ∈ dev'.qbufs, ok = true) := by
  induction bs generalizing dev h l with
  | nil =>
    refine ⟨dev, [], ?_, by simp, by simp [dequeued], hq⟩
    rcases hstop with rfl | ⟨rest, rfl⟩ <;> simp [yields, dequeue_loop]
  | cons b bs ih =>
    have hlast : (b :: bs).getLast?.getD l = bs.getLast?.getD b := by
      cases bs with
      | nil => simp
      | cons c cs =>
        rw [List.getLast?_cons_cons]
        cases hx : (c :: cs).getLast? with
        | none => simp at hx
        | some x => rfl
    cases h with
    | false =>
      obtain ⟨dev', new, e1, e2, e3, e4⟩ :=
        ih { dev with log := dev.log ++ [Ioctl.dqbuf b.index] } true b hq
      refine ⟨dev', Ioctl.dqbuf b.index :: new, ?_, by simpa using e2, ?_, e4⟩
      · rw [hlast]
        simpa [yields, dequeue_loop] using e1
      · simp [dequeued_append, dequeued] at e3 ⊢
        simpa [dequeued] using e3
    | true =>
      have hok := VIDIOC_QBUF_ok { dev with log := dev.log ++ [Ioctl.dqbuf b.index] } l.index hq
      have hl := VIDIOC_QBUF_log { dev with log := dev.log ++ [Ioctl.dqbuf b.index] } l.index
      cases hv : VIDIOC_QBUF { dev with log := dev.log ++ [Ioctl.dqbuf b.index] } l.index with
      | mk okq d1 =>
        rw [hv] at hok hl
        simp only at hok hl
        obtain ⟨hok1, hok2⟩ := hok
        subst hok1
        obtain ⟨dev', new, e1, e2, e3, e4⟩ := ih d1 true b hok2
        refine ⟨dev', Ioctl.dqbuf b.index :: Ioctl.qbuf l.index true :: new, ?_, ?_, ?_, e4⟩
        · rw [hlast]
          simpa [yields, dequeue_loop, hv] using e1
        · rw [e2, hl]; simp
        · simpa [dequeued] using e3

/-- C3: when the device yields `bs` followed by `bn` without blocking and every re-queue
is accepted, `acquire_frame` dequeues exactly these buffers, re-queues the buffers of
`bs` once each in dequeue order (and after them only `bn`, in the paths that do not hand
`bn` to the caller), and the handle carries the index and timestamp of `bn`. -/
theorem C3_acquire_drains_to_latest (cap : V4L2Capture) (dev : V4L2Dev) (pr : Int)
    (out : V4L2Frame) (bs : List v4l2_buffer) (bn : v4l2_buffer) (stop : List DqResult)
    (hfd : ¬ cap.fd_ < 0) (hpr : 0 < pr) (hq : ∀ ok ∈ dev.qbufs, ok = true)
    (hstop : stop = [] ∨ ∃ rest, stop = DqResult.eagain :: rest) :
    ∃ new,
      (cap.acquire_frame dev pr (yields (bs ++ [bn]) ++ stop) out).2.2.log = dev.log ++ new ∧
      dequeued new = (bs ++ [bn]).map (fun b => b.index) ∧
      requeued new = bs.map (fun b => b.index) ++
        (if (cap.acquire_frame dev pr (yields (bs ++ [bn]) ++ stop) out).1 &&
            (cap.acquire_frame dev pr (yields (bs ++ [bn]) ++ stop) out).2.1.needs_release
          then [] else [bn.index]) ∧
      (cap.acquire_frame dev pr (yields (bs ++ [bn]) ++ stop) out).2.1.index = bn.index ∧
      (cap.acquire_frame dev pr (yields (bs ++ [bn]) ++ stop) out).2.1.ts_sec = bn.tv_sec ∧
      (cap.acquire_frame dev pr (yields (bs ++ [bn]) ++ stop) out).2.1.ts_usec = bn.tv_usec := by
  obtain ⟨d, new, hloop, e1, e2, e4⟩ :=
    dequeue_loop_yields (bs ++ [bn]) stop dev false v4l2_buffer.init hq hstop
  have hlast : (bs ++ [bn]).getLast?.getD v4l2_buffer.init = bn := by simp
  have hne : (false || !(bs ++ [bn]).isEmpty) = true := by simp
  rw [hlast, hne] at hloop
  obtain ⟨new', f1, f2, -, -⟩ := dequeue_loop_done _ dev d false true _ bn hloop
  have hnew : new' = new := List.append_cancel_left (f1.symm.trans e1)
  subst hnew
  have hreq : requeued new' = bs.map (fun b => b.index) := by
    have : requeued new' ++ [bn.index] = bs.map (fun b => b.index) ++ [bn.index] := by
      have h2 := f2
      simp only [held, if_true, if_false, Bool.false_eq_true, List.nil_append] at h2
      rw [← h2, e2]; simp
    exact List.append_cancel_right this
  have hpr0 : ¬ pr = 0 := by omega
  have hprn : ¬ pr < 0 := by omega
  have hqlog := VIDIOC_QBUF_log d bn.index
  have hqok := (VIDIOC_QBUF_ok d bn.index e4).1
  have tailq : ∃ new2, (VIDIOC_QBUF d bn.index).2.log = dev.log ++ new2 ∧
      dequeued new2 = (bs ++ [bn]).map (fun b => b.index) ∧
      requeued new2 = bs.map (fun b => b.index) ++ [bn.index] := by
    refine ⟨new' ++ [Ioctl.qbuf bn.index true], ?_, ?_, ?_⟩
    · rw [hqlog, hqok, e1]; simp
    · rw [dequeued_append, e2]; simp [dequeued]
    · rw [requeued_append, hreq]; simp [requeued]
  obtain ⟨new2, t1, t2, t3⟩ := tailq
  unfold V4L2Capture.acquire_frame
  simp only [hfd, if_false, hpr0, hprn, hloop, Bool.not_true, Bool.false_eq_true]
  by_cases hnv : cap.fourcc_ = V4L2_PIX_FMT_NV12
  · simp only [hnv, if_true]
    by_cases hp2 : cap.num_planes_ ≥ 2
    · simp only [hp2, if_true]
      exact ⟨new', e1, e2, by simp [hreq]⟩
    · simp only [hp2, if_false]
      by_cases hp1 : cap.num_planes_ = 1
      · simp only [hp1, if_true]
        split
        · exact ⟨new2, t1, t2, by simp [t3]⟩
        · exact ⟨new', e1, e2, by simp [hreq]⟩
      · simp only [hp1, if_false]
        exact ⟨new2, t1, t2, by simp [t3]⟩
  · simp only [hnv, if_false]
    by_cases hb : cap.fourcc_ = V4L2_PIX_FMT_BGR24 ∧ cap.num_planes_ ≥ 1
    · rw [if_pos hb]
      cases hconv : bgr24_to_rgb24 d.mem
          ((cap.buffers_.get? bn.index).getD Buffer.init).planes0.start
          cap.width_ cap.height_ [] with
      | mk okc data =>
        cases okc with
        | false => exact ⟨new2, t1, t2, by simp [t3]⟩
        | true =>
          simp only
          cases hv : VIDIOC_QBUF d bn.index with
          | mk okq d2 =>
            rw [hv] at hqok t1
            simp only at hqok t1
            subst hqok
            exact ⟨new2, t1, t2, by simp [t3]⟩
    · rw [if_neg hb]
      exact ⟨new2, t1, t2, by simp [t3]⟩

/-- C3 at a concrete input: the device yields buffers 0, 1 and 2. -/
theorem C3_acquire_witness :
    (¬ demo_cap.fd_ < 0 ∧ (0 : Int) < 1) ∧
    ∃ new,
      (demo_cap.acquire_frame demo_dev 1
        (yields ([demo_buf 0, demo_buf 1] ++ [demo_buf 2]) ++ []) V4L2Frame.init).2.2.log =
          demo_dev.log ++ new ∧
      dequeued new = ([demo_buf 0, demo_buf 1] ++ [demo_buf 2]).map (fun b => b.index) ∧
      requeued new = [demo_buf 0, demo_buf 1].map (fun b => b.index) ++
        (if (demo_cap.acquire_frame demo_dev 1
              (yields ([demo_buf 0, demo_buf 1] ++ [demo_buf 2]) ++ []) V4L2Frame.init).1 &&
            (demo_cap.acquire_frame demo_dev 1
              (yields ([demo_buf 0, demo_buf 1] ++ [demo_buf 2]) ++ [])
              V4L2Frame.init).2.1.needs_release
          then [] else [(demo_buf 2).index]) ∧
      (demo_cap.acquire_frame demo_dev 1
        (yields ([demo_buf 0, demo_buf 1] ++ [demo_buf 2]) ++ []) V4L2Frame.init).2.1.index =
          (demo_buf 2).index ∧
      (demo_cap.acquire_frame demo_dev 1
        (yields ([demo_buf 0, demo_buf 1] ++ [demo_buf 2]) ++ []) V4L2Frame.init).2.1.ts_sec =
          (demo_buf 2).tv_sec ∧
      (demo_cap.acquire_frame demo_dev 1
        (yields ([demo_buf 0, demo_buf 1] ++ [demo_buf 2]) ++ []) V4L2Frame.init).2.1.ts_usec =
          (demo_buf 2).tv_usec :=
  ⟨⟨by decide, by decide⟩,
   C3_acquire_drains_to_latest demo_cap demo_dev 1 V4L2Frame.init [demo_buf 0, demo_buf 1]
    (demo_buf 2) [] (by decide) (by decide) (by decide) (Or.inl rfl)⟩

theorem page_flip_handler_log (s : GbmEglDrm) :
    ∃ t, (page_flip_handler s).log = s.log ++ DrmEvent.flip_handled :: t ∧
      completion_only t ∧ handled_count t = 0 := by
  simp only [page_flip_handler, release_prev_bo, gbm_surface_release_buffer]
  split
  · next b _ _ =>
    refine ⟨[DrmEvent.release_buffer b], by simp, ?_, by simp [handled_count]⟩
    intro e he
    simp only [List.mem_singleton] at he
    exact Or.inr ⟨b, he⟩
  · exact ⟨[], by simp, by simp [completion_only], by simp [handled_count]⟩

theorem drmHandleEvent_log (s : GbmEglDrm) (n : Nat) :
    ∃ t, (drmHandleEvent s n).log = s.log ++ t ∧ completion_only t ∧ handled_count t = n ∧
      (0 < n → ∃ t', t = DrmEvent.flip_handled :: t') := by
  induction n generalizing s with
  | zero => exact ⟨[], by simp [drmHandleEvent], by simp [completion_only],
      by simp [handled_count], by simp⟩
  | succ n ih =>
    obtain ⟨t1, h1, c1, k1⟩ := page_flip_handler_log s
    obtain ⟨t2, h2, c2, k2, -⟩ := ih (page_flip_handler s)
    refine ⟨DrmEvent.flip_handled :: (t1 ++ t2), ?_, ?_, ?_, fun _ => ⟨_, rfl⟩⟩
    · simp only [drmHandleEvent]
      rw [h2, h1]; simp
    · intro e he
      simp only [List.mem_cons, List.mem_append] at he
      rcases he with he | he | he
      · exact Or.inl he
      · exact c1 e he
      · exact c2 e he
    · simp only [handled_count] at k1 k2 ⊢
      simp [List.count_cons, List.count_append, k1, k2]

theorem drmHandleEvent_succ_pending (s : GbmEglDrm) (n : Nat) :
    (drmHandleEvent s (n + 1)).pageflip_pending = false := by
  induction n generalizing s with
  | zero => simp [drmHandleEvent, page_flip_handler, release_prev_bo, gbm_surface_release_buffer]; split <;> rfl
  | succ n ih =>
    have := ih (page_flip_handler s)
    simpa [drmHandleEvent] using this

theorem drmHandleEvent_completed (s : GbmEglDrm) (n : Nat) :
    (drmHandleEvent s n).pageflip_completed % 2 ^ 64 = (s.pageflip_completed + n) % 2 ^ 64 := by
  induction n generalizing s with
  | zero => simp [drmHandleEvent]
  | succ n ih =>
    simp only [drmHandleEvent]
    rw [ih]
    have : (page_flip_handler s).pageflip_completed = (s.pageflip_completed + 1) % 2 ^ 64 := by
      simp only [page_flip_handler, release_prev_bo, gbm_surface_release_buffer]
      split <;> rfl
    rw [this]
    omega

theorem drain_drm_events_cases (s : GbmEglDrm) (l : List SelectResult) :
    drain_drm_events s l = s ∨ ∃ n, drain_drm_events s l = drmHandleEvent s (n + 1) := by
  obtain ⟨n, hn⟩ := drain_drm_events_eq s l
  cases n with
  | zero => exact Or.inl hn
  | succ n => exact Or.inr ⟨n, hn⟩

theorem wait_pageflip_loop_cases (s : GbmEglDrm) (r : Int) (l : List SelectResult) :
    wait_pageflip_loop s r l = s ∨ ∃ n, wait_pageflip_loop s r l = drmHandleEvent s (n + 1) := by
  obtain ⟨n, hn⟩ := wait_pageflip_loop_eq s r l
  cases n with
  | zero => exact Or.inl hn
  | succ n => exact Or.inr ⟨n, hn⟩

theorem wait_pageflip_cases (s : GbmEglDrm) (r : Int) (l : List SelectResult) :
    (s.pageflip_pending = false ∧ wait_pageflip s r l = s) ∨
    (s.pageflip_pending = true ∧ ∃ n, wait_pageflip_loop s r l = drmHandleEvent s (n + 1) ∧
      wait_pageflip s r l = { drmHandleEvent s (n + 1) with pageflip_timeouts := 0 }) ∨
    (s.pageflip_pending = true ∧ wait_pageflip_loop s r l = s ∧
      ¬ (s.pageflip_timeouts + 1) % 2 ^ 32 > 10 ∧
      wait_pageflip s r l = { s with pageflip_timeouts := (s.pageflip_timeouts + 1) % 2 ^ 32 }) ∨
    (s.pageflip_pending = true ∧ wait_pageflip_loop s r l = s ∧
      (s.pageflip_timeouts + 1) % 2 ^ 32 > 10 ∧ wait_pageflip s r l = wait_reset s) := by
  cases hp : s.pageflip_pending with
  | false => exact Or.inl ⟨rfl, by simp [wait_pageflip, hp]⟩
  | true =>
    refine Or.inr ?_
    rcases wait_pageflip_loop_cases s r l with h | ⟨n, h⟩
    · by_cases ht : (s.pageflip_timeouts + 1) % 2 ^ 32 > 10
      · refine Or.inr (Or.inr ⟨rfl, h, ht, ?_⟩)
        simp only [wait_pageflip, hp, h, wait_reset, Bool.not_true, Bool.false_eq_true,
          if_false, if_true]
        rw [if_pos ht]
      · refine Or.inr (Or.inl ⟨rfl, h, ht, ?_⟩)
        simp only [wait_pageflip, hp, h, Bool.not_true, Bool.false_eq_true, if_false, if_true]
        rw [if_neg ht]
    · exact Or.inl ⟨rfl, n, h, by
        simp [wait_pageflip, hp, h, drmHandleEvent_succ_pending]⟩

theorem swap_buffers_settle_cases (s : GbmEglDrm) (env : SwapEnv) :
    (∃ n, drain_drm_events s env.drain = drmHandleEvent s (n + 1) ∧
      swap_buffers_settle s env = drmHandleEvent s (n + 1)) ∨
    (drain_drm_events s env.drain = s ∧
      (s.pageflip_enabled && s.pageflip_pending) = false ∧ swap_buffers_settle s env = s) ∨
    (drain_drm_events s env.drain = s ∧ s.pageflip_enabled = true ∧ s.pageflip_pending = true ∧
      ∃ n, wait_pageflip_loop s 16 env.wait1 = drmHandleEvent s (n + 1) ∧
        swap_buffers_settle s env = { drmHandleEvent s (n + 1) with pageflip_timeouts := 0 }) ∨
    (drain_drm_events s env.drain = s ∧ s.pageflip_enabled = true ∧ s.pageflip_pending = true ∧
      wait_pageflip_loop s 16 env.wait1 = s ∧ ¬ (s.pageflip_timeouts + 1) % 2 ^ 32 > 10 ∧
      swap_buffers_settle s env = swap_fallback s) ∨
    (drain_drm_events s env.drain = s ∧ s.pageflip_enabled = true ∧ s.pageflip_pending = true ∧
      wait_pageflip_loop s 16 env.wait1 = s ∧ (s.pageflip_timeouts + 1) % 2 ^ 32 > 10 ∧
      swap_buffers_settle s env = wait_reset s) := by
  rcases drain_drm_events_cases s env.drain with hd | ⟨n, hd⟩
  · refine Or.inr ?_
    by_cases hep : (s.pageflip_enabled && s.pageflip_pending) = true
    · have he : s.pageflip_enabled = true := by simp_all
      have hp : s.pageflip_pending = true := by simp_all
      refine Or.inr ?_
      rcases wait_pageflip_cases s 16 env.wait1 with ⟨h1, _⟩ | ⟨_, n, h1, h2⟩ | ⟨_, h1, h2, h3⟩ |
          ⟨_, h1, h2, h3⟩
      · simp [hp] at h1
      · refine Or.inl ⟨hd, he, hp, n, h1, ?_⟩
        have := drmHandleEvent_succ_pending s n
        simp [swap_buffers_settle, hd, he, hp, h2, this]
      · refine Or.inr (Or.inl ⟨hd, he, hp, h1, h2, ?_⟩)
        simp [swap_buffers_settle, hd, he, hp, h3, swap_fallback]
      · refine Or.inr (Or.inr ⟨hd, he, hp, h1, h2, ?_⟩)
        have : (wait_reset s).pageflip_pending = false := by
          simp only [wait_reset, release_prev_bo, gbm_surface_release_buffer]
          split <;> rfl
        simp [swap_buffers_settle, hd, he, hp, h3, this]
    · refine Or.inl ⟨hd, by simpa using hep, ?_⟩
      simp [swap_buffers_settle, hd, hep]
  · refine Or.inl ⟨n, hd, ?_⟩
    have := drmHandleEvent_succ_pending s n
    simp [swap_buffers_settle, hd, this]

theorem swap_buffers_settle_idle (s : GbmEglDrm) (env : SwapEnv) :
    ((swap_buffers_settle s env).pageflip_enabled &&
      (swap_buffers_settle s env).pageflip_pending) = false := by
  rcases swap_buffers_settle_cases s env with ⟨n, -, h⟩ | ⟨-, h1, h⟩ | ⟨-, -, -, n, -, h⟩ |
      ⟨-, -, -, -, -, h⟩ | ⟨-, -, -, -, -, h⟩
  · rw [h, drmHandleEvent_succ_pending]; simp
  · rw [h]; exact h1
  · rw [h]; simp [drmHandleEvent_succ_pending]
  · rw [h]
    simp only [swap_fallback, release_cur_bo, release_prev_bo2, release_prev_bo,
      gbm_surface_release_buffer]
    repeat' split
    all_goals simp
  · rw [h]
    simp only [wait_reset, release_prev_bo, gbm_surface_release_buffer]
    split <;> simp

theorem drm_set_crtc_for_bo_spec (s : GbmEglDrm) (bo fb0 : Nat) (addfb : Option Nat)
    (ok : Bool) :
    ∃ okr fbr md fbd u, drm_set_crtc_for_bo s bo fb0 addfb ok =
        (okr, fbr, { s with modeset_done := md, fb_data := fbd, log := s.log ++ u }) ∧
      setup_only bo u ∧ (s.modeset_done = true → md = true) ∧ (okr = true → md = true) := by
  obtain ⟨surf, p, p2, c, mdone, pend, en, ue, t, sub, com, dr, fbd, log⟩ := s
  simp only [drm_set_crtc_for_bo, setup_only]
  cases List.lookup bo fbd with
  | some fb =>
    cases mdone <;> cases ok
    · exact ⟨false, fb, false, fbd, [], by simp⟩
    · exact ⟨true, fb, true, fbd, [DrmEvent.set_crtc bo fb], by simp⟩
    · exact ⟨true, fb, true, fbd, [], by simp⟩
    · exact ⟨true, fb, true, fbd, [], by simp⟩
  | none =>
    cases addfb with
    | none => exact ⟨false, fb0, mdone, fbd, [], by simp⟩
    | some fb =>
      cases mdone <;> cases ok
      · exact ⟨false, fb, false, (bo, fb) :: fbd, [DrmEvent.add_fb bo fb], by simp⟩
      · exact ⟨true, fb, true, (bo, fb) :: fbd, [DrmEvent.add_fb bo fb, DrmEvent.set_crtc bo fb],
          by simp⟩
      · exact ⟨true, fb, true, (bo, fb) :: fbd, [DrmEvent.add_fb bo fb], by simp⟩
      · exact ⟨true, fb, true, (bo, fb) :: fbd, [DrmEvent.add_fb bo fb], by simp⟩

theorem handled_count_setup (bo : Nat) (u : List DrmEvent) (h : setup_only bo u) :
    handled_count u = 0 := by
  simp only [handled_count, List.count_eq_zero]
  intro hm
  rcases h _ hm with ⟨f, hf⟩ | ⟨f, hf⟩ <;> cases hf

theorem setup_only_no_release (bo : Nat) (u : List DrmEvent) (h : setup_only bo u) (b : Nat) :
    DrmEvent.release_buffer b ∉ u := by
  intro hm
  rcases h _ hm with ⟨f, hf⟩ | ⟨f, hf⟩ <;> cases hf

theorem setup_only_no_flip (bo : Nat) (u : List DrmEvent) (h : setup_only bo u)
    (b f : Nat) (ev : Bool) (ret : FlipRet) (pb : Bool) :
    DrmEvent.page_flip b f ev ret pb ∉ u := by
  intro hm
  rcases h _ hm with ⟨f, hf⟩ | ⟨f, hf⟩ <;> cases hf

/-- What the presenting part of a swap does to a context that is not both enabled and
pending: the flags and the completion count stay, only buffers held in a slot or the
new buffer are released, and an event-requesting flip starts from an idle context. -/
theorem swap_buffers_present_spec (s : GbmEglDrm) (env : SwapEnv)
    (hidle : (s.pageflip_enabled && s.pageflip_pending) = false) :
    ∃ u, (swap_buffers_present s env).2.log = s.log ++ u ∧
      (swap_buffers_present s env).2.pageflip_enabled = s.pageflip_enabled ∧
      (swap_buffers_present s env).2.pageflip_completed = s.pageflip_completed ∧
      handled_count u = 0 ∧
      (∀ b, DrmEvent.release_buffer b ∈ u →
        env.front = some b ∨ s.prev_bo = some b ∨ s.prev_bo2 = some b) ∧
      (∀ bo fb ret pb, DrmEvent.page_flip bo fb true ret pb ∈ u →
        pb = false ∧ (swap_buffers_present s env).2.cur_bo = some bo ∧
        (ret = FlipRet.ok → (swap_buffers_present s env).1 = true ∧
          (swap_buffers_present s env).2.pageflip_pending = true ∧
          (swap_buffers_present s env).2.pageflip_submitted =
            (s.pageflip_submitted + 1) % 2 ^ 64) ∧
        (ret ≠ FlipRet.ok → (swap_buffers_present s env).1 = false ∧
          (swap_buffers_present s env).2.pageflip_pending = false ∧
          (swap_buffers_present s env).2.pageflip_submitted = s.pageflip_submitted)) ∧
      (swap_buffers_present s env).2.pageflip_use_event = s.pageflip_use_event ∧
      (s.pageflip_use_event = true →
        (swap_buffers_present s env).2.pageflip_dropped = s.pageflip_dropped) := by
  generalize hr : swap_buffers_present s env = r
  unfold swap_buffers_present at hr
  cases hf : env.front with
  | none =>
    simp only [hf] at hr
    subst hr
    exact ⟨[], by simp [handled_count]⟩
  | some bo =>
    obtain ⟨okr, fbr, md, fbd, u, hs, hu, -, -⟩ := drm_set_crtc_for_bo_spec
      { s with log := s.log ++ [DrmEvent.lock_front_buffer bo] } bo 0 env.addfb env.setcrtc_ok
    have hc := handled_count_setup bo u hu
    have hnr := setup_only_no_release bo u hu
    have hnf := setup_only_no_flip bo u hu
    simp only [handled_count] at hc
    simp only [hf, hs] at hr
    cases okr with
    | false =>
      simp only [gbm_surface_release_buffer] at hr
      subst hr
      exact ⟨_, by simp; rfl, by simp [handled_count, List.count_append, hc, hnr, hnf]⟩
    | true =>
      cases he : s.pageflip_enabled <;> cases hp : s.pageflip_pending <;>
        simp only [he, hp] at hidle
      all_goals first
        | contradiction
        | (simp [submit_event_flip, release_prev_bo, release_prev_bo2,
             gbm_surface_release_buffer, he, hp] at hr
           repeat' split at hr
           all_goals subst hr
           all_goals refine ⟨_, by simp; rfl, ?_⟩
           all_goals simp [handled_count, List.count_append, List.count_cons, hc, he, hnr, hnf]
           all_goals simp_all)

theorem swap_fallback_eq (s : GbmEglDrm) (hs : s.gbm_surf = true) :
    swap_fallback s =
      { s with pageflip_enabled := false, pageflip_pending := false, pageflip_timeouts := 0,
               pageflip_dropped := 0, prev_bo := none, prev_bo2 := none, cur_bo := none,
               log := s.log ++ slot_releases [s.prev_bo, s.prev_bo2, s.cur_bo] } := by
  obtain ⟨surf, p, p2, c, md, pend, en, ue, t, sub, com, dr, fbd, log⟩ := s
  simp only at hs
  subst hs
  cases p <;> cases p2 <;> cases c <;>
    simp [swap_fallback, release_cur_bo, release_prev_bo2, release_prev_bo,
      gbm_surface_release_buffer, slot_releases]

theorem swap_fallback_spec (s : GbmEglDrm) :
    ∃ t, (swap_fallback s).log = s.log ++ t ∧ completion_only t ∧ handled_count t = 0 ∧
      (swap_fallback s).pageflip_enabled = false ∧
      (swap_fallback s).pageflip_submitted = s.pageflip_submitted ∧
      (swap_fallback s).pageflip_completed = s.pageflip_completed := by
  cases hs : s.gbm_surf with
  | true =>
    rw [swap_fallback_eq s hs]
    refine ⟨_, rfl, ?_, ?_, rfl, rfl, rfl⟩
    · intro e he
      simp only [slot_releases, List.mem_map] at he
      obtain ⟨b, -, hb⟩ := he
      exact Or.inr ⟨b, hb.symm⟩
    · simp only [handled_count, slot_releases, List.count_eq_zero, List.mem_map]
      rintro ⟨b, -, hb⟩
      cases hb
  | false =>
    refine ⟨[], ?_⟩
    simp [swap_fallback, release_cur_bo, release_prev_bo2, release_prev_bo, hs,
      completion_only, handled_count]

theorem wait_reset_spec (s : GbmEglDrm) :
    ∃ t, (wait_reset s).log = s.log ++ t ∧ completion_only t ∧ handled_count t = 0 ∧
      (∀ b, DrmEvent.release_buffer b ∈ t → s.prev_bo = some b) ∧
      (wait_reset s).pageflip_enabled = false ∧
      (wait_reset s).pageflip_submitted = s.pageflip_submitted ∧
      (wait_reset s).pageflip_completed = s.pageflip_completed := by
  simp only [wait_reset, release_prev_bo, gbm_surface_release_buffer]
  split
  · next b _ hb =>
    refine ⟨[DrmEvent.release_buffer b], rfl, ?_, by simp [handled_count], ?_, rfl, rfl, rfl⟩
    · intro e he
      simp only [List.mem_singleton] at he
      exact Or.inr ⟨b, he⟩
    · intro x hx
      simp only [List.mem_singleton, DrmEvent.release_buffer.injEq] at hx
      rw [hx]; exact hb
  · exact ⟨[], by simp [completion_only, handled_count]⟩

theorem handled_count_append (a b : List DrmEvent) :
    handled_count (a ++ b) = handled_count a + handled_count b := by
  simp [handled_count, List.count_append]

theorem drmHandleEvent_succ_completed (s : GbmEglDrm) (n : Nat) :
    (drmHandleEvent s (n + 1)).pageflip_completed = (s.pageflip_completed + (n + 1)) % 2 ^ 64 := by
  have h := drmHandleEvent_completed s (n + 1)
  have hlt : (drmHandleEvent s (n + 1)).pageflip_completed < 2 ^ 64 := by
    clear h
    induction n generalizing s with
    | zero =>
      simp only [drmHandleEvent, page_flip_handler, release_prev_bo, gbm_surface_release_buffer]
      split <;> exact Nat.mod_lt _ (by norm_num)
    | succ n ih =>
      have := ih (page_flip_handler s)
      simpa [drmHandleEvent] using this
  rw [Nat.mod_eq_of_lt hlt] at h
  exact h

theorem drmHandleEvent_succ_matches (s : GbmEglDrm) (n : Nat) (h : completed_matches_log s) :
    completed_matches_log (drmHandleEvent s (n + 1)) := by
  obtain ⟨t, h1, -, h3, -⟩ := drmHandleEvent_log s (n + 1)
  simp only [completed_matches_log] at h ⊢
  rw [drmHandleEvent_succ_completed, h1, handled_count_append, h3, h]
  omega

/-- What the first part of a swap does: it leaves a context that is not both enabled and
pending, logs only completions and releases, never re-enables flips and keeps the
submission count and the agreement between completion count and log. -/
theorem swap_buffers_settle_spec (s : GbmEglDrm) (env : SwapEnv) :
    ∃ t, (swap_buffers_settle s env).log = s.log ++ t ∧ completion_only t ∧
      ((swap_buffers_settle s env).pageflip_enabled = true → s.pageflip_enabled = true) ∧
      (swap_buffers_settle s env).pageflip_submitted = s.pageflip_submitted ∧
      (completed_matches_log s → completed_matches_log (swap_buffers_settle s env)) := by
  rcases swap_buffers_settle_cases s env with ⟨n, -, h⟩ | ⟨-, -, h⟩ | ⟨-, -, -, n, -, h⟩ |
      ⟨-, -, -, -, -, h⟩ | ⟨-, -, -, -, -, h⟩
  · obtain ⟨t, h1, h2, -, -⟩ := drmHandleEvent_log s (n + 1)
    obtain ⟨-, -, -, f4, -, -, f7, -, -⟩ := drmHandleEvent_frame s (n + 1)
    rw [h]
    exact ⟨t, h1, h2, fun x => f4 ▸ x, f7, drmHandleEvent_succ_matches s n⟩
  · rw [h]
    exact ⟨[], by simp, by simp [completion_only], id, rfl, id⟩
  · obtain ⟨t, h1, h2, -, -⟩ := drmHandleEvent_log s (n + 1)
    obtain ⟨-, -, -, f4, -, -, f7, -, -⟩ := drmHandleEvent_frame s (n + 1)
    rw [h]
    refine ⟨t, h1, h2, fun x => f4 ▸ x, f7, fun hm => ?_⟩
    exact drmHandleEvent_succ_matches s n hm
  · obtain ⟨t, h1, h2, h3, h4, h5, h6⟩ := swap_fallback_spec s
    rw [h]
    refine ⟨t, h1, h2, fun x => by simp [h4] at x, h5, fun hm => ?_⟩
    simp only [completed_matches_log] at hm ⊢
    rw [h6, h1, handled_count_append, h3, hm]; simp
  · obtain ⟨t, h1, h2, h3, -, h4, h5, h6⟩ := wait_reset_spec s
    rw [h]
    refine ⟨t, h1, h2, fun x => by simp [h4] at x, h5, fun hm => ?_⟩
    simp only [completed_matches_log] at hm ⊢
    rw [h6, h1, handled_count_append, h3, hm]; simp

theorem swap_enabled_mono (s : GbmEglDrm) (env : SwapEnv)
    (h : s.pageflip_enabled = false) :
    (drm_gbm_egl_swap_buffers s env).2.pageflip_enabled = false := by
  obtain ⟨t, -, -, h3, -, -⟩ := swap_buffers_settle_spec s env
  obtain ⟨u, -, h2, -⟩ :=
    swap_buffers_present_spec (swap_buffers_settle s env) env (swap_buffers_settle_idle s env)
  unfold drm_gbm_egl_swap_buffers
  rw [h2]
  cases hx : (swap_buffers_settle s env).pageflip_enabled with
  | false => rfl
  | true => rw [h3 hx] at h; cases h

theorem page_flip_handler_enabled (s : GbmEglDrm) :
    (page_flip_handler s).pageflip_enabled = s.pageflip_enabled :=
  (drmHandleEvent_frame s 1).2.2.2.1

theorem run_display_append (s : GbmEglDrm) (a b : List DisplayOp) :
    run_display s (a ++ b) = run_display (run_display s a) b := by
  simp [run_display, List.foldl_append]

theorem run_display_enabled_mono (s : GbmEglDrm) (ops : List DisplayOp)
    (h : s.pageflip_enabled = false) : (run_display s ops).pageflip_enabled = false := by
  induction ops generalizing s with
  | nil => exact h
  | cons op ops ih =>
    simp only [run_display, List.foldl_cons]
    apply ih
    cases op with
    | swap env => exact swap_enabled_mono s env h
    | completion => simp only [DisplayOp.apply]; rw [page_flip_handler_enabled]; exact h

/-- C5: downgrade monotonicity. In a session made of `drm_gbm_egl_swap_buffers` calls and
completion-handler invocations, once `pageflip_enabled` is false after some steps it is
false after any further steps. -/
theorem C5_downgrade_monotone (s : GbmEglDrm) (ops later : List DisplayOp)
    (h : (run_display s ops).pageflip_enabled = false) :
    (run_display s (ops ++ later)).pageflip_enabled = false := by
  rw [run_display_append]
  exact run_display_enabled_mono _ later h

/-- C5 at a concrete session: the third swap times out and disables flips, and two more
steps leave them disabled. -/
theorem C5_downgrade_witness :
    (run_display GbmEglDrm.init
      [DisplayOp.swap (swap_ok [] [] 1), DisplayOp.swap (swap_ok [] [] 2),
       DisplayOp.swap swap_timeout]).pageflip_enabled = false ∧
    (run_display GbmEglDrm.init
      ([DisplayOp.swap (swap_ok [] [] 1), DisplayOp.swap (swap_ok [] [] 2),
        DisplayOp.swap swap_timeout] ++
       [DisplayOp.swap swap_completed, DisplayOp.completion])).pageflip_enabled = false :=
  ⟨by decide,
   C5_downgrade_monotone GbmEglDrm.init
    [DisplayOp.swap (swap_ok [] [] 1), DisplayOp.swap (swap_ok [] [] 2),
     DisplayOp.swap swap_timeout]
    [DisplayOp.swap swap_completed, DisplayOp.completion] (by decide)⟩

/-- The log entries a swap call appends, split into those of its two parts. -/
theorem swap_log_split (s : GbmEglDrm) (env : SwapEnv) :
    ∃ t u, (swap_buffers_settle s env).log = s.log ++ t ∧
      (drm_gbm_egl_swap_buffers s env).2.log = s.log ++ (t ++ u) ∧
      (drm_gbm_egl_swap_buffers s env).2.log.drop s.log.length = t ++ u := by
  obtain ⟨t, h1, -⟩ := swap_buffers_settle_spec s env
  obtain ⟨u, h2, -⟩ :=
    swap_buffers_present_spec (swap_buffers_settle s env) env (swap_buffers_settle_idle s env)
  have e : (drm_gbm_egl_swap_buffers s env).2.log = s.log ++ (t ++ u) := by
    unfold drm_gbm_egl_swap_buffers
    rw [h2, h1, List.append_assoc]
  exact ⟨t, u, h1, e, by rw [e]; simp⟩

/-- C6: an event-requesting page flip issued by `drm_gbm_egl_swap_buffers` is issued while
`pageflip_pending` is false; it records the new buffer in `cur_bo`, and when the kernel
accepts it the call returns true with `pageflip_pending` set and `pageflip_submitted`
incremented by one (as a 64-bit counter), while a rejected flip leaves the context idle
with the count unchanged and makes the call fail. -/
theorem C6_submit_only_from_idle (s : GbmEglDrm) (env : SwapEnv) (bo fb : Nat)
    (ret : FlipRet) (pb : Bool)
    (h : DrmEvent.page_flip bo fb true ret pb ∈
      (drm_gbm_egl_swap_buffers s env).2.log.drop s.log.length) :
    pb = false ∧ (drm_gbm_egl_swap_buffers s env).2.cur_bo = some bo ∧
    (ret = FlipRet.ok → (drm_gbm_egl_swap_buffers s env).1 = true ∧
      (drm_gbm_egl_swap_buffers s env).2.pageflip_pending = true ∧
      (drm_gbm_egl_swap_buffers s env).2.pageflip_submitted =
        (s.pageflip_submitted + 1) % 2 ^ 64) ∧
    (ret ≠ FlipRet.ok → (drm_gbm_egl_swap_buffers s env).1 = false ∧
      (drm_gbm_egl_swap_buffers s env).2.pageflip_pending = false ∧
      (drm_gbm_egl_swap_buffers s env).2.pageflip_submitted = s.pageflip_submitted) := by
  obtain ⟨t, h1, h2, -, h4, -⟩ := swap_buffers_settle_spec s env
  obtain ⟨u, g1, -, -, -, -, g6, -, -⟩ :=
    swap_buffers_present_spec (swap_buffers_settle s env) env (swap_buffers_settle_idle s env)
  have e : (drm_gbm_egl_swap_buffers s env).2.log = s.log ++ (t ++ u) := by
    unfold drm_gbm_egl_swap_buffers
    rw [g1, h1, List.append_assoc]
  rw [e, List.drop_left, List.mem_append] at h
  rcases h with h | h
  · rcases h2 _ h with hh | ⟨b, hh⟩ <;> cases hh
  · have := g6 bo fb ret pb h
    rw [h4] at this
    exact this

/-- C6 at a concrete call: the flip to buffer 3 submitted after the completion of the
flip to buffer 2. -/
theorem C6_submit_witness :
    DrmEvent.page_flip 3 103 true FlipRet.ok false ∈
      (drm_gbm_egl_swap_buffers flip_in_flight swap_completed).2.log.drop
        flip_in_flight.log.length ∧
    (false = false ∧
      (drm_gbm_egl_swap_buffers flip_in_flight swap_completed).2.cur_bo = some 3 ∧
      (FlipRet.ok = FlipRet.ok →
        (drm_gbm_egl_swap_buffers flip_in_flight swap_completed).1 = true ∧
        (drm_gbm_egl_swap_buffers flip_in_flight swap_completed).2.pageflip_pending = true ∧
        (drm_gbm_egl_swap_buffers flip_in_flight swap_completed).2.pageflip_submitted =
          (flip_in_flight.pageflip_submitted + 1) % 2 ^ 64) ∧
      (FlipRet.ok ≠ FlipRet.ok →
        (drm_gbm_egl_swap_buffers flip_in_flight swap_completed).1 = false ∧
        (drm_gbm_egl_swap_buffers flip_in_flight swap_completed).2.pageflip_pending = false ∧
        (drm_gbm_egl_swap_buffers flip_in_flight swap_completed).2.pageflip_submitted =
          flip_in_flight.pageflip_submitted)) :=
  ⟨by decide,
   C6_submit_only_from_idle flip_in_flight swap_completed 3 103 FlipRet.ok false (by decide)⟩

theorem released_before_completion_of_not_mem (b : Nat) (u : List DrmEvent)
    (h : DrmEvent.release_buffer b ∉ u) : released_before_completion b u = false := by
  induction u with
  | nil => rfl
  | cons e u ih =>
    have hu : DrmEvent.release_buffer b ∉ u := fun hm => h (List.mem_cons_of_mem _ hm)
    cases e with
    | flip_handled => rfl
    | release_buffer x =>
      have hx : x ≠ b := by
        rintro rfl
        exact h (List.mem_cons_self _ _)
      simp [released_before_completion, ih hu, hx]
    | lock_front_buffer x => simpa [released_before_completion] using ih hu
    | add_fb x y => simpa [released_before_completion] using ih hu
    | set_crtc x y => simpa [released_before_completion] using ih hu
    | page_flip x y ev r p => simpa [released_before_completion] using ih hu

/-- C7 (amended): in a `drm_gbm_egl_swap_buffers` call that starts with a flip pending on
buffer `b` and leaves `pageflip_enabled` as it was, `b` is not passed to
`gbm_surface_release_buffer` before a completion event has been handled. (The slots and
the newly locked buffer are assumed distinct from the buffer in flight.) -/
theorem C7_in_flight_kept_unless_fallback (s : GbmEglDrm) (env : SwapEnv) (b : Nat)
    (_hc : s.cur_bo = some b) (_hp : s.pageflip_pending = true)
    (h1 : s.prev_bo ≠ some b) (h2 : s.prev_bo2 ≠ some b) (hf : env.front ≠ some b)
    (hkeep : (drm_gbm_egl_swap_buffers s env).2.pageflip_enabled = s.pageflip_enabled) :
    released_before_completion b
      ((drm_gbm_egl_swap_buffers s env).2.log.drop s.log.length) = false := by
  obtain ⟨u, g1, g2, -, -, g5, -, -, -⟩ :=
    swap_buffers_present_spec (swap_buffers_settle s env) env (swap_buffers_settle_idle s env)
  have e : (drm_gbm_egl_swap_buffers s env).2.log = (swap_buffers_settle s env).log ++ u := by
    unfold drm_gbm_egl_swap_buffers
    exact g1
  have en : (drm_gbm_egl_swap_buffers s env).2.pageflip_enabled =
      (swap_buffers_settle s env).pageflip_enabled := by
    unfold drm_gbm_egl_swap_buffers
    exact g2
  rw [en] at hkeep
  rw [e]
  rcases swap_buffers_settle_cases s env with ⟨n, -, h⟩ | ⟨-, -, h⟩ | ⟨-, -, -, n, -, h⟩ |
      ⟨-, he, -, -, -, h⟩ | ⟨-, he, -, -, -, h⟩
  · obtain ⟨t, k1, -, -, k4⟩ := drmHandleEvent_log s (n + 1)
    obtain ⟨t', rfl⟩ := k4 (Nat.succ_pos n)
    rw [h, k1, List.append_assoc, List.drop_left]
    rfl
  · rw [h] at g5 ⊢
    rw [List.drop_left]
    apply released_before_completion_of_not_mem
    intro hm
    rcases g5 b hm with hx | hx | hx
    · exact hf hx
    · exact h1 hx
    · exact h2 hx
  · obtain ⟨t, k1, -, -, k4⟩ := drmHandleEvent_log s (n + 1)
    obtain ⟨t', rfl⟩ := k4 (Nat.succ_pos n)
    rw [h]
    simp only
    rw [k1, List.append_assoc, List.drop_left]
    rfl
  · obtain ⟨-, -, -, -, k4, -⟩ := swap_fallback_spec s
    rw [h, k4, he] at hkeep
    cases hkeep
  · obtain ⟨-, -, -, -, -, k4, -⟩ := wait_reset_spec s
    rw [h, k4, he] at hkeep
    cases hkeep

/-- C7 (amended) at a concrete call: the completion of the flip to buffer 2 is handled
before anything is released. -/
theorem C7_in_flight_witness :
    (flip_in_flight.cur_bo = some 2 ∧ flip_in_flight.pageflip_pending = true ∧
      (drm_gbm_egl_swap_buffers flip_in_flight swap_completed).2.pageflip_enabled =
        flip_in_flight.pageflip_enabled) ∧
    released_before_completion 2
      ((drm_gbm_egl_swap_buffers flip_in_flight swap_completed).2.log.drop
        flip_in_flight.log.length) = false :=
  ⟨by decide,
   C7_in_flight_kept_unless_fallback flip_in_flight swap_completed 2 (by decide) (by decide)
    (by decide) (by decide) (by decide) (by decide)⟩

/-- C7 (counterexample): buffer 2 is in flight, no completion event is handled during the
next swap, and that swap passes buffer 2 to `gbm_surface_release_buffer`. -/
theorem C7_fallback_releases_in_flight :
    flip_in_flight.pageflip_pending = true ∧ flip_in_flight.cur_bo = some 2 ∧
    handled_count (drm_gbm_egl_swap_buffers flip_in_flight swap_timeout).2.log = 0 ∧
    (drm_gbm_egl_swap_buffers flip_in_flight swap_timeout).2.log.drop
        flip_in_flight.log.length =
      [DrmEvent.release_buffer 1, DrmEvent.release_buffer 2, DrmEvent.lock_front_buffer 3,
       DrmEvent.add_fb 3 103, DrmEvent.set_crtc 3 103] ∧
    released_before_completion 2
      ((drm_gbm_egl_swap_buffers flip_in_flight swap_timeout).2.log.drop
        flip_in_flight.log.length) = true := by
  decide

theorem wait_pageflip_loop_idle (s : GbmEglDrm) (r : Int) (l : List SelectResult)
    (h : s.pageflip_pending = false) : wait_pageflip_loop s r l = s := by
  cases l with
  | nil => rfl
  | cons x rest => simp [wait_pageflip_loop, h]

/-- C9 (amended): for a context with `pageflip_enabled` and a pending flip,
`drm_gbm_egl_swap_buffers` leaves `pageflip_enabled` true exactly when the completion is
seen by the drain or by the single bounded wait, whatever the timeout count is: one
timed-out wait clears it. The bound of 10 only governs `wait_pageflip` taken alone, which
clears `pageflip_enabled` exactly when its wait times out and the incremented count
exceeds 10. -/
theorem C9_first_timeout_disables_flips (s : GbmEglDrm) (env : SwapEnv)
    (he : s.pageflip_enabled = true) (hp : s.pageflip_pending = true) :
    (drm_gbm_egl_swap_buffers s env).2.pageflip_enabled =
      !(wait_pageflip_loop (drain_drm_events s env.drain) 16 env.wait1).pageflip_pending ∧
    ∀ sel, (wait_pageflip s 16 sel).pageflip_enabled = false ↔
      ((wait_pageflip_loop s 16 sel).pageflip_pending = true ∧
        (s.pageflip_timeouts + 1) % 2 ^ 32 > 10) := by
  constructor
  · obtain ⟨u, -, g2, -⟩ :=
      swap_buffers_present_spec (swap_buffers_settle s env) env (swap_buffers_settle_idle s env)
    have en : (drm_gbm_egl_swap_buffers s env).2.pageflip_enabled =
        (swap_buffers_settle s env).pageflip_enabled := by
      unfold drm_gbm_egl_swap_buffers
      exact g2
    rw [en]
    rcases swap_buffers_settle_cases s env with ⟨n, hd, h⟩ | ⟨-, hi, -⟩ | ⟨hd, -, -, n, hw, h⟩ |
        ⟨hd, -, -, hw, -, h⟩ | ⟨hd, -, -, hw, -, h⟩
    · have hpn := drmHandleEvent_succ_pending s n
      rw [h, hd, wait_pageflip_loop_idle _ _ _ hpn, hpn, (drmHandleEvent_frame s (n + 1)).2.2.2.1, he]
      rfl
    · simp [he, hp] at hi
    · have hpn := drmHandleEvent_succ_pending s n
      rw [h, hd, hw, hpn]
      simp only
      rw [(drmHandleEvent_frame s (n + 1)).2.2.2.1, he]
      rfl
    · rw [h, hd, hw, hp, (swap_fallback_spec s).choose_spec.2.2.2.1]
      rfl
    · rw [h, hd, hw, hp, (wait_reset_spec s).choose_spec.2.2.2.2.1]
      rfl
  · intro sel
    rcases wait_pageflip_cases s 16 sel with ⟨h0, -⟩ | ⟨-, n, hw, h⟩ | ⟨-, hw, ht, h⟩ |
        ⟨-, hw, ht, h⟩
    · rw [hp] at h0; cases h0
    · have hpn := drmHandleEvent_succ_pending s n
      rw [h, hw, hpn]
      simp only
      rw [(drmHandleEvent_frame s (n + 1)).2.2.2.1, he]
      simp
    · rw [h, hw, hp]
      simp only [he]
      constructor
      · intro hx; cases hx
      · rintro ⟨-, hx⟩; exact absurd hx ht
    · rw [h, hw, hp, (wait_reset_spec s).choose_spec.2.2.2.2.1]
      exact ⟨fun _ => ⟨rfl, ht⟩, fun _ => rfl⟩

/-- C9 (amended) at a concrete call: the timed-out swap. -/
theorem C9_first_timeout_witness :
    (flip_in_flight.pageflip_enabled = true ∧ flip_in_flight.pageflip_pending = true) ∧
    (drm_gbm_egl_swap_buffers flip_in_flight swap_timeout).2.pageflip_enabled =
      !(wait_pageflip_loop (drain_drm_events flip_in_flight swap_timeout.drain) 16
        swap_timeout.wait1).pageflip_pending ∧
    ∀ sel, (wait_pageflip flip_in_flight 16 sel).pageflip_enabled = false ↔
      ((wait_pageflip_loop flip_in_flight 16 sel).pageflip_pending = true ∧
        (flip_in_flight.pageflip_timeouts + 1) % 2 ^ 32 > 10) :=
  ⟨by decide, C9_first_timeout_disables_flips flip_in_flight swap_timeout (by decide) (by decide)⟩

/-- C9 (counterexample): with a timeout count of 0, a single timed-out wait makes
`drm_gbm_egl_swap_buffers` clear `pageflip_enabled`. -/
theorem C9_single_timeout_disables :
    flip_in_flight.pageflip_enabled = true ∧ flip_in_flight.pageflip_pending = true ∧
    flip_in_flight.pageflip_timeouts = 0 ∧
    (wait_pageflip flip_in_flight 16 swap_timeout.wait1).pageflip_timeouts = 1 ∧
    (drm_gbm_egl_swap_buffers flip_in_flight swap_timeout).2.pageflip_enabled = false := by
  decide

theorem swap_buffers_present_submit (s : GbmEglDrm) (env : SwapEnv) (bo fb : Nat)
    (hm : s.modeset_done = true) (he : s.pageflip_enabled = true)
    (hu : s.pageflip_use_event = true) (hp : s.pageflip_pending = false)
    (hfront : env.front = some bo) (hfb : fb_id_for s env bo = some fb) :
    (swap_buffers_present s env).2.log = s.log ++ DrmEvent.lock_front_buffer bo ::
      (fb_log s env bo ++ DrmEvent.page_flip bo fb true env.flip false ::
        (if env.flip = FlipRet.ok then [] else [DrmEvent.release_buffer bo])) ∧
    (swap_buffers_present s env).1 = decide (env.flip = FlipRet.ok) ∧
    (swap_buffers_present s env).2.cur_bo = some bo ∧
    (swap_buffers_present s env).2.pageflip_pending = decide (env.flip = FlipRet.ok) ∧
    (swap_buffers_present s env).2.pageflip_submitted =
      (if env.flip = FlipRet.ok then (s.pageflip_submitted + 1) % 2 ^ 64
        else s.pageflip_submitted) ∧
    (swap_buffers_present s env).2.pageflip_dropped = s.pageflip_dropped ∧
    (swap_buffers_present s env).2.pageflip_completed = s.pageflip_completed ∧
    (swap_buffers_present s env).2.pageflip_enabled = true ∧
    (swap_buffers_present s env).2.prev_bo = s.prev_bo ∧
    (swap_buffers_present s env).2.prev_bo2 = s.prev_bo2 := by
  obtain ⟨surf, p, p2, c, md, pend, en, ue, t, sub, com, dr, fbd, log⟩ := s
  simp only at hm he hu hp
  subst hm he hu hp
  simp only [fb_id_for] at hfb
  simp only [swap_buffers_present, hfront, drm_set_crtc_for_bo, fb_log, submit_event_flip,
    gbm_surface_release_buffer]
  cases hl : List.lookup bo fbd with
  | some f =>
    simp only [hl, Option.some.injEq] at hfb
    subst hfb
    cases env.flip <;> cases env.addfb <;> simp
  | none =>
    simp only [hl] at hfb
    rw [hfb]
    cases env.flip <;> simp

theorem swap_buffers_present_set_crtc (s : GbmEglDrm) (env : SwapEnv) (bo fb : Nat)
    (hs : s.gbm_surf = true) (hm : s.modeset_done = true) (he : s.pageflip_enabled = false)
    (hu : s.pageflip_use_event = true)
    (hfront : env.front = some bo) (hfb : fb_id_for s env bo = some fb)
    (hset : env.setcrtc_ok = true) :
    (swap_buffers_present s env).1 = true ∧
    (swap_buffers_present s env).2.log = s.log ++ DrmEvent.lock_front_buffer bo ::
      (fb_log s env bo ++ DrmEvent.set_crtc bo fb :: slot_releases [s.prev_bo, s.prev_bo2]) ∧
    (swap_buffers_present s env).2.prev_bo = some bo ∧
    (swap_buffers_present s env).2.prev_bo2 = none ∧
    (swap_buffers_present s env).2.cur_bo = s.cur_bo ∧
    (swap_buffers_present s env).2.pageflip_pending = s.pageflip_pending ∧
    (swap_buffers_present s env).2.pageflip_enabled = false ∧
    (swap_buffers_present s env).2.pageflip_submitted = s.pageflip_submitted ∧
    (swap_buffers_present s env).2.pageflip_dropped = s.pageflip_dropped ∧
    (swap_buffers_present s env).2.pageflip_completed = s.pageflip_completed := by
  obtain ⟨surf, p, p2, c, md, pend, en, ue, t, sub, com, dr, fbd, log⟩ := s
  simp only at hs hm he hu
  subst hs hm he hu
  simp only [fb_id_for] at hfb
  simp only [swap_buffers_present, hfront, drm_set_crtc_for_bo, fb_log, hset,
    release_prev_bo, release_prev_bo2, gbm_surface_release_buffer, slot_releases]
  cases hl : List.lookup bo fbd with
  | some f =>
    simp only [hl, Option.some.injEq] at hfb
    subst hfb
    cases p <;> cases p2 <;> cases env.addfb <;> simp
  | none =>
    simp only [hl] at hfb
    rw [hfb]
    cases p <;> cases p2 <;> simp

theorem swap_matches_log (s : GbmEglDrm) (env : SwapEnv) (h : completed_matches_log s) :
    completed_matches_log (drm_gbm_egl_swap_buffers s env).2 := by
  obtain ⟨t, -, -, -, -, h5⟩ := swap_buffers_settle_spec s env
  obtain ⟨u, g1, -, g3, g4, -⟩ :=
    swap_buffers_present_spec (swap_buffers_settle s env) env (swap_buffers_settle_idle s env)
  have := h5 h
  simp only [completed_matches_log, drm_gbm_egl_swap_buffers] at this ⊢
  rw [g3, g1, handled_count_append, g4, this]
  simp

theorem run_swaps_matches_log (s : GbmEglDrm) (envs : List SwapEnv)
    (h : completed_matches_log s) : completed_matches_log (run_swaps s envs) := by
  induction envs generalizing s with
  | nil => exact h
  | cons env envs ih =>
    simp only [run_swaps, List.foldl_cons]
    exact ih _ (swap_matches_log s env h)

theorem swap_buffers_settle_dropped (s : GbmEglDrm) (env : SwapEnv) :
    (swap_buffers_settle s env).pageflip_use_event = s.pageflip_use_event ∧
    ((swap_buffers_settle s env).pageflip_dropped = s.pageflip_dropped ∨
      (swap_buffers_settle s env).pageflip_dropped = 0) := by
  rcases swap_buffers_settle_cases s env with ⟨n, -, h⟩ | ⟨-, -, h⟩ | ⟨-, -, -, n, -, h⟩ |
      ⟨-, -, -, -, -, h⟩ | ⟨-, -, -, -, -, h⟩
  · obtain ⟨-, -, -, -, f5, -, -, f8, -⟩ := drmHandleEvent_frame s (n + 1)
    rw [h]; exact ⟨f5, Or.inl f8⟩
  · rw [h]; exact ⟨rfl, Or.inl rfl⟩
  · obtain ⟨-, -, -, -, f5, -, -, f8, -⟩ := drmHandleEvent_frame s (n + 1)
    rw [h]; exact ⟨f5, Or.inl f8⟩
  · rw [h]
    simp only [swap_fallback, release_cur_bo, release_prev_bo2, release_prev_bo,
      gbm_surface_release_buffer]
    repeat' split
    all_goals exact ⟨rfl, Or.inr rfl⟩
  · rw [h]
    simp only [wait_reset, release_prev_bo, gbm_surface_release_buffer]
    split <;> exact ⟨rfl, Or.inl rfl⟩

theorem run_swaps_never_drops (s : GbmEglDrm) (envs : List SwapEnv)
    (hu : s.pageflip_use_event = true) (hd : s.pageflip_dropped = 0) :
    (run_swaps s envs).pageflip_use_event = true ∧ (run_swaps s envs).pageflip_dropped = 0 := by
  induction envs generalizing s with
  | nil => exact ⟨hu, hd⟩
  | cons env envs ih =>
    simp only [run_swaps, List.foldl_cons]
    obtain ⟨a1, a2⟩ := swap_buffers_settle_dropped s env
    obtain ⟨u, -, -, -, -, -, -, g7, g8⟩ :=
      swap_buffers_present_spec (swap_buffers_settle s env) env (swap_buffers_settle_idle s env)
    rw [a1, hu] at g7
    have g8' := g8 (a1.trans hu)
    apply ih
    · exact g7
    · show (swap_buffers_present (swap_buffers_settle s env) env).2.pageflip_dropped = 0
      rw [g8']
      rcases a2 with a2 | a2
      · rw [a2, hd]
      · exact a2

theorem fb_id_for_congr (s s' : GbmEglDrm) (env : SwapEnv) (bo : Nat)
    (h : s'.fb_data = s.fb_data) :
    fb_id_for s' env bo = fb_id_for s env bo ∧ fb_log s' env bo = fb_log s env bo := by
  simp [fb_id_for, fb_log, h]

theorem wait_pending_unchanged (s : GbmEglDrm) (env : SwapEnv)
    (hw : (wait_pageflip_loop (drain_drm_events s env.drain) 16 env.wait1).pageflip_pending = true) :
    drain_drm_events s env.drain = s ∧ wait_pageflip_loop s 16 env.wait1 = s := by
  have hd : drain_drm_events s env.drain = s := by
    rcases drain_drm_events_cases s env.drain with h | ⟨n, h⟩
    · exact h
    · have hpn := drmHandleEvent_succ_pending s n
      rw [h, wait_pageflip_loop_idle _ _ _ hpn, hpn] at hw
      cases hw
  rw [hd] at hw
  refine ⟨hd, ?_⟩
  rcases wait_pageflip_loop_cases s 16 env.wait1 with h | ⟨n, h⟩
  · exact h
  · rw [h, drmHandleEvent_succ_pending] at hw
    cases hw

/-- C10 (amended): in event-driven mode with a flip pending, (1) a call whose drain and
single bounded wait see no completion does not drop the new frame: it clears
`pageflip_enabled`, resets `pageflip_dropped` to 0, releases the buffers in `prev_bo`,
`prev_bo2` and `cur_bo`, presents the new buffer with the mode-set call, submits
nothing and returns true; (2) a call that sees the completion submits the new flip;
(3) over any sequence of calls from the initial context `pageflip_completed` equals the
number of completion events handled (as a 64-bit counter) and `pageflip_dropped` stays
0; (4) the scenario ends with `pageflip_dropped` 0 and `pageflip_completed` 0. -/
theorem C10_event_path_falls_back_on_timeout (s : GbmEglDrm) (env : SwapEnv) (bo fb : Nat)
    (hs : s.gbm_surf = true) (hm : s.modeset_done = true) (he : s.pageflip_enabled = true)
    (hu : s.pageflip_use_event = true) (hp : s.pageflip_pending = true)
    (hfront : env.front = some bo) (hfb : fb_id_for s env bo = some fb) :
    ((wait_pageflip_loop (drain_drm_events s env.drain) 16 env.wait1).pageflip_pending = true →
      s.pageflip_timeouts < 10 → env.setcrtc_ok = true →
        (drm_gbm_egl_swap_buffers s env).1 = true ∧
        (drm_gbm_egl_swap_buffers s env).2.log =
          s.log ++ (slot_releases [s.prev_bo, s.prev_bo2, s.cur_bo] ++
            DrmEvent.lock_front_buffer bo :: (fb_log s env bo ++ [DrmEvent.set_crtc bo fb])) ∧
        (drm_gbm_egl_swap_buffers s env).2.pageflip_dropped = 0 ∧
        (drm_gbm_egl_swap_buffers s env).2.pageflip_enabled = false ∧
        (drm_gbm_egl_swap_buffers s env).2.pageflip_pending = false ∧
        (drm_gbm_egl_swap_buffers s env).2.pageflip_submitted = s.pageflip_submitted ∧
        (drm_gbm_egl_swap_buffers s env).2.pageflip_completed = s.pageflip_completed ∧
        (drm_gbm_egl_swap_buffers s env).2.prev_bo = some bo ∧
        (drm_gbm_egl_swap_buffers s env).2.prev_bo2 = none ∧
        (drm_gbm_egl_swap_buffers s env).2.cur_bo = none) ∧
    ((wait_pageflip_loop (drain_drm_events s env.drain) 16 env.wait1).pageflip_pending = false →
      DrmEvent.page_flip bo fb true env.flip false ∈
        (drm_gbm_egl_swap_buffers s env).2.log.drop s.log.length ∧
      (drm_gbm_egl_swap_buffers s env).2.pageflip_dropped = s.pageflip_dropped ∧
      (drm_gbm_egl_swap_buffers s env).2.pageflip_enabled = true ∧
      (env.flip = FlipRet.ok →
        (drm_gbm_egl_swap_buffers s env).1 = true ∧
        (drm_gbm_egl_swap_buffers s env).2.pageflip_pending = true ∧
        (drm_gbm_egl_swap_buffers s env).2.cur_bo = some bo ∧
        (drm_gbm_egl_swap_buffers s env).2.pageflip_submitted =
          (s.pageflip_submitted + 1) % 2 ^ 64)) ∧
    (∀ envs, (run_swaps GbmEglDrm.init envs).pageflip_completed =
        handled_count (run_swaps GbmEglDrm.init envs).log % 2 ^ 64 ∧
      (run_swaps GbmEglDrm.init envs).pageflip_dropped = 0) ∧
    (scenario_end.pageflip_dropped = 0 ∧ scenario_end.pageflip_completed = 0) := by
  refine ⟨?_, ?_, ?_, by decide⟩
  · intro hw ht hset
    obtain ⟨hd, hl⟩ := wait_pending_unchanged s env hw
    have hsettle : swap_buffers_settle s env = swap_fallback s := by
      rcases swap_buffers_settle_cases s env with ⟨n, hd', -⟩ | ⟨-, hi, -⟩ |
          ⟨-, -, -, n, hw', -⟩ | ⟨-, -, -, -, -, h⟩ | ⟨-, -, -, -, ht', -⟩
      · have := drmHandleEvent_succ_pending s n
        rw [← hd', hd, hp] at this; cases this
      · simp [he, hp] at hi
      · have := drmHandleEvent_succ_pending s n
        rw [← hw', hl, hp] at this; cases this
      · exact h
      · have : (s.pageflip_timeouts + 1) % 2 ^ 32 = s.pageflip_timeouts + 1 :=
          Nat.mod_eq_of_lt (by omega)
        omega
    have hfe := swap_fallback_eq s hs
    obtain ⟨c1, c2⟩ := fb_id_for_congr s (swap_fallback s) env bo (by rw [hfe])
    have key := swap_buffers_present_set_crtc (swap_fallback s) env bo fb
      (by rw [hfe]; exact hs) (by rw [hfe]; exact hm) (by rw [hfe]) (by rw [hfe]; exact hu)
      hfront (by rw [c1]; exact hfb) hset
    unfold drm_gbm_egl_swap_buffers
    rw [hsettle]
    obtain ⟨k1, k2, k3, k4, k5, k6, k7, k8, k9, k10⟩ := key
    rw [c2] at k2
    refine ⟨k1, ?_, ?_, k7, ?_, ?_, ?_, k3, k4, ?_⟩
    · rw [k2, hfe]
      simp [slot_releases]
    · rw [k9, hfe]
    · rw [k6, hfe]
    · rw [k8, hfe]
    · rw [k10, hfe]
    · rw [k5, hfe]
  · intro hw
    have hs1 : ∃ s1 t, swap_buffers_settle s env = s1 ∧ s1.log = s.log ++ t ∧
        s1.modeset_done = true ∧ s1.pageflip_enabled = true ∧ s1.pageflip_use_event = true ∧
        s1.pageflip_pending = false ∧ s1.fb_data = s.fb_data ∧
        s1.pageflip_submitted = s.pageflip_submitted ∧
        s1.pageflip_dropped = s.pageflip_dropped := by
      rcases swap_buffers_settle_cases s env with ⟨n, -, h⟩ | ⟨-, hi, -⟩ |
          ⟨-, -, -, n, -, h⟩ | ⟨hd, -, -, hl, -, -⟩ | ⟨hd, -, -, hl, -, -⟩
      · obtain ⟨t, k1, -⟩ := drmHandleEvent_log s (n + 1)
        obtain ⟨-, -, f3, f4, f5, -, f7, f8, f9⟩ := drmHandleEvent_frame s (n + 1)
        exact ⟨_, t, h, k1, f3.trans hm, f4.trans he, f5.trans hu,
          drmHandleEvent_succ_pending s n, f9, f7, f8⟩
      · simp [he, hp] at hi
      · obtain ⟨t, k1, -⟩ := drmHandleEvent_log s (n + 1)
        obtain ⟨-, -, f3, f4, f5, -, f7, f8, f9⟩ := drmHandleEvent_frame s (n + 1)
        exact ⟨_, t, h, k1, f3.trans hm, f4.trans he, f5.trans hu,
          drmHandleEvent_succ_pending s n, f9, f7, f8⟩
      · rw [hd, hl, hp] at hw; cases hw
      · rw [hd, hl, hp] at hw; cases hw
    obtain ⟨s1, t, e0, e1, e2, e3, e4, e5, e6, e7, e8⟩ := hs1
    obtain ⟨c1, -⟩ := fb_id_for_congr s s1 env bo e6
    obtain ⟨k1, k2, k3, k4, k5, k6, -, k8, -, -⟩ :=
      swap_buffers_present_submit s1 env bo fb e2 e3 e4 e5 hfront (by rw [c1]; exact hfb)
    unfold drm_gbm_egl_swap_buffers
    rw [e0]
    refine ⟨?_, by rw [k6, e8], k8, fun hok => ⟨?_, ?_, k3, ?_⟩⟩
    · rw [k1, e1, List.append_assoc, List.drop_left]
      simp
    · rw [k2, hok]; rfl
    · rw [k4, hok]; rfl
    · rw [k5, e7, if_pos hok]
  · intro envs
    have h1 := run_swaps_matches_log GbmEglDrm.init envs (by
      simp [completed_matches_log, GbmEglDrm.init, handled_count])
    have h2 := run_swaps_never_drops GbmEglDrm.init envs rfl rfl
    exact ⟨h1, h2.2⟩

/-- C10 (amended) at concrete calls: the timed-out swap and the swap that sees the
completion. -/
theorem C10_event_path_witness :
    (drm_gbm_egl_swap_buffers flip_in_flight swap_timeout).2.pageflip_dropped = 0 ∧
    (drm_gbm_egl_swap_buffers flip_in_flight swap_timeout).2.pageflip_enabled = false ∧
    DrmEvent.page_flip 3 103 true swap_completed.flip false ∈
      (drm_gbm_egl_swap_buffers flip_in_flight swap_completed).2.log.drop
        flip_in_flight.log.length :=
  ⟨((C10_event_path_falls_back_on_timeout flip_in_flight swap_timeout 3 103 (by decide)
      (by decide) (by decide) (by decide) (by decide) rfl (by decide)).1
      (by decide) (by decide) rfl).2.2.1,
   ((C10_event_path_falls_back_on_timeout flip_in_flight swap_timeout 3 103 (by decide)
      (by decide) (by decide) (by decide) (by decide) rfl (by decide)).1
      (by decide) (by decide) rfl).2.2.2.1,
   ((C10_event_path_falls_back_on_timeout flip_in_flight swap_completed 3 103 (by decide)
      (by decide) (by decide) (by decide) (by decide) rfl (by decide)).2.1 (by decide)).1⟩

/-- C10 (counterexample): the swap that finds the flip to buffer 2 pending and times out
returns true without releasing the new buffer 3 and without incrementing
`pageflip_dropped`, and the scenario does not end with 2 dropped and 3 completed. -/
theorem C10_timeout_does_not_drop :
    (flip_in_flight.modeset_done = true ∧ flip_in_flight.pageflip_enabled = true ∧
      flip_in_flight.pageflip_use_event = true ∧ flip_in_flight.pageflip_pending = true) ∧
    (drm_gbm_egl_swap_buffers flip_in_flight swap_timeout).1 = true ∧
    DrmEvent.release_buffer 3 ∉ (drm_gbm_egl_swap_buffers flip_in_flight swap_timeout).2.log ∧
    DrmEvent.set_crtc 3 103 ∈ (drm_gbm_egl_swap_buffers flip_in_flight swap_timeout).2.log ∧
    (drm_gbm_egl_swap_buffers flip_in_flight swap_timeout).2.pageflip_dropped ≠
      flip_in_flight.pageflip_dropped + 1 ∧
    ¬ (scenario_end.pageflip_dropped = 2 ∧ scenario_end.pageflip_completed = 3) := by
  decide

/-- C1 (failing run): four iterations of the zero-copy loop in which every swap and every
release succeeds. Index 1 is stored in `pending_v4l2_index` by the second iteration and
overwritten by the third, so over the whole run, shutdown releases included, buffer 1 is
dequeued and never passed to `release_frame`. -/
theorem C1_pending_index_overwritten :
    (main_loop leak_entry (leak_run.take 2)).pending_v4l2_index = 1 ∧
    (main_loop leak_entry (leak_run.take 2)).displayed_v4l2_index = 0 ∧
    (main_loop leak_entry (leak_run.take 3)).pending_v4l2_index = 2 ∧
    (main_loop leak_entry (leak_run.take 3)).displayed_v4l2_index = 0 ∧
    (main_loop leak_entry (leak_run.take 3)).dev.log =
      [Ioctl.dqbuf 0, Ioctl.dqbuf 1, Ioctl.dqbuf 2] ∧
    (main_run leak_entry leak_run).dev.log =
      [Ioctl.dqbuf 0, Ioctl.dqbuf 1, Ioctl.dqbuf 2, Ioctl.qbuf 0 true, Ioctl.dqbuf 3,
       Ioctl.qbuf 2 true, Ioctl.qbuf 3 true] ∧
    1 ∈ dequeued (main_run leak_entry leak_run).dev.log ∧
    1 ∉ requeued (main_run leak_entry leak_run).dev.log := by
  decide

/-- C2: `release_frame` on a handle with `needs_release` clear returns true and changes
neither the handle nor the device; on a handle with `needs_release` set it issues exactly
one re-queue, of `frame.index`, and returns whether the kernel accepted it: on success
the handle comes back with `needs_release` cleared, so that a second release is a no-op,
and on failure the handle is left as it was. -/
theorem C2_release_frame_idempotent (cap : V4L2Capture) (dev : V4L2Dev) (frame : V4L2Frame) :
    (frame.needs_release = false → cap.release_frame dev frame = (true, frame, dev)) ∧
    (frame.needs_release = true →
      (cap.release_frame dev frame).2.2.log =
        dev.log ++ [Ioctl.qbuf frame.index (cap.release_frame dev frame).1] ∧
      ((cap.release_frame dev frame).1 = true →
        (cap.release_frame dev frame).2.1 = { frame with needs_release := false } ∧
        cap.release_frame (cap.release_frame dev frame).2.2 (cap.release_frame dev frame).2.1 =
          (true, (cap.release_frame dev frame).2.1, (cap.release_frame dev frame).2.2)) ∧
      ((cap.release_frame dev frame).1 = false →
        (cap.release_frame dev frame).2.1 = frame)) := by
  constructor
  · intro h
    simp [V4L2Capture.release_frame, h]
  · intro h
    have hl := VIDIOC_QBUF_log dev frame.index
    simp only [V4L2Capture.release_frame, h, Bool.not_true, Bool.false_eq_true, if_false]
    cases hq : VIDIOC_QBUF dev frame.index with
    | mk ok d =>
      rw [hq] at hl
      cases ok <;> simp_all

/-- C2 at concrete handles: a handle without ownership, an accepted release and a
rejected one. -/
theorem C2_release_frame_witness :
    demo_cap.release_frame demo_dev V4L2Frame.init = (true, V4L2Frame.init, demo_dev) ∧
    (demo_cap.release_frame demo_dev demo_frame).2.2.log = [Ioctl.qbuf 2 true] ∧
    (demo_cap.release_frame demo_dev demo_frame).2.1.needs_release = false ∧
    (demo_cap.release_frame demo_dev_busy demo_frame).1 = false ∧
    (demo_cap.release_frame demo_dev_busy demo_frame).2.1 = demo_frame :=
  ⟨(C2_release_frame_idempotent demo_cap demo_dev V4L2Frame.init).1 rfl,
   ((C2_release_frame_idempotent demo_cap demo_dev demo_frame).2 rfl).1,
   by rw [(((C2_release_frame_idempotent demo_cap demo_dev demo_frame).2 rfl).2.1 rfl).1],
   rfl,
   ((C2_release_frame_idempotent demo_cap demo_dev_busy demo_frame).2 rfl).2.2 rfl⟩

/-- C8: on a context with a surface, `page_flip_handler` clears `pageflip_pending`,
increments `pageflip_completed` by one (as a 64-bit counter: exactly one below the
wrap), releases the buffer held in `prev_bo` if there is one, moves `cur_bo` into
`prev_bo` and clears `cur_bo`; `prev_bo2`, `pageflip_enabled`, `pageflip_submitted` and
`pageflip_dropped` are unchanged. -/
theorem C8_complete_transition (s : GbmEglDrm) (hs : s.gbm_surf = true) :
    (page_flip_handler s).pageflip_pending = false ∧
    (page_flip_handler s).pageflip_completed = (s.pageflip_completed + 1) % 2 ^ 64 ∧
    (s.pageflip_completed + 1 < 2 ^ 64 →
      (page_flip_handler s).pageflip_completed = s.pageflip_completed + 1) ∧
    (page_flip_handler s).log = s.log ++ DrmEvent.flip_handled ::
      (match s.prev_bo with
       | some p => [DrmEvent.release_buffer p]
       | none => []) ∧
    (page_flip_handler s).prev_bo = s.cur_bo ∧
    (page_flip_handler s).cur_bo = none ∧
    (page_flip_handler s).prev_bo2 = s.prev_bo2 ∧
    (page_flip_handler s).pageflip_enabled = s.pageflip_enabled ∧
    (page_flip_handler s).pageflip_submitted = s.pageflip_submitted ∧
    (page_flip_handler s).pageflip_dropped = s.pageflip_dropped := by
  cases hp : s.prev_bo <;>
    simp [page_flip_handler, release_prev_bo, gbm_surface_release_buffer, hs, hp]

/-- C8 at a concrete context: the completion of the flip to buffer 2. -/
theorem C8_complete_witness :
    flip_in_flight.gbm_surf = true ∧
    (page_flip_handler flip_in_flight).log =
      flip_in_flight.log ++ [DrmEvent.flip_handled, DrmEvent.release_buffer 1] ∧
    (page_flip_handler flip_in_flight).prev_bo = some 2 ∧
    (page_flip_handler flip_in_flight).pageflip_completed = 1 :=
  ⟨by decide,
   by rw [(C8_complete_transition flip_in_flight (by decide)).2.2.2.1]; decide,
   by rw [(C8_complete_transition flip_in_flight (by decide)).2.2.2.2.1]; decide,
   by rw [(C8_complete_transition flip_in_flight (by decide)).2.1]; decide⟩

/-! ## The presentation paths of a swap -/

theorem swap_buffers_settle_not_pending (s : GbmEglDrm) (env : SwapEnv)
    (hp : s.pageflip_pending = false) : swap_buffers_settle s env = s := by
  have hd : drain_drm_events s env.drain = s := by
    cases env.drain with
    | nil => rfl
    | cons r rest => simp [drain_drm_events, hp]
  simp [swap_buffers_settle, hd, hp]

/-- C12 (counterexample): with the mode set, `pageflip_enabled` false and
`pageflip_use_event` false, a successful swap does not use the mode-set call: it submits
a no-event page flip and counts it. -/
theorem C12_noevent_checked_first :
    (anchored_off_noevent.modeset_done = true ∧ anchored_off_noevent.pageflip_enabled = false ∧
      anchored_off_noevent.pageflip_use_event = false) ∧
    (drm_gbm_egl_swap_buffers anchored_off_noevent (swap_ok [] [] 2)).1 = true ∧
    (drm_gbm_egl_swap_buffers anchored_off_noevent (swap_ok [] [] 2)).2.log.drop
        anchored_off_noevent.log.length =
      [DrmEvent.lock_front_buffer 2, DrmEvent.add_fb 2 102,
       DrmEvent.page_flip 2 102 false FlipRet.ok false] ∧
    (drm_gbm_egl_swap_buffers anchored_off_noevent (swap_ok [] [] 2)).2.pageflip_submitted =
      anchored_off_noevent.pageflip_submitted + 1 ∧
    (drm_gbm_egl_swap_buffers anchored_off_noevent (swap_ok [] [] 2)).2.prev_bo2 = some 1 := by
  decide

theorem swap_buffers_present_noevent (s : GbmEglDrm) (env : SwapEnv) (bo fb : Nat)
    (hs : s.gbm_surf = true) (hm : s.modeset_done = true) (hu : s.pageflip_use_event = false)
    (hfront : env.front = some bo) (hfb : fb_id_for s env bo = some fb) :
    (env.flip = FlipRet.ebusy →
      swap_buffers_present s env =
        (true, { s with
          fb_data := if s.fb_data.lookup bo = none then (bo, fb) :: s.fb_data else s.fb_data,
          log := s.log ++ DrmEvent.lock_front_buffer bo :: (fb_log s env bo ++
            [DrmEvent.page_flip bo fb false FlipRet.ebusy s.pageflip_pending,
             DrmEvent.release_buffer bo]),
          pageflip_dropped := (s.pageflip_dropped + 1) % 2 ^ 64 })) ∧
    (env.flip = FlipRet.failed →
      swap_buffers_present s env =
        (false, { s with
          fb_data := if s.fb_data.lookup bo = none then (bo, fb) :: s.fb_data else s.fb_data,
          log := s.log ++ DrmEvent.lock_front_buffer bo :: (fb_log s env bo ++
            [DrmEvent.page_flip bo fb false FlipRet.failed s.pageflip_pending,
             DrmEvent.release_buffer bo]) })) ∧
    (env.flip = FlipRet.ok →
      swap_buffers_present s env =
        (true, { s with
          fb_data := if s.fb_data.lookup bo = none then (bo, fb) :: s.fb_data else s.fb_data,
          log := s.log ++ DrmEvent.lock_front_buffer bo :: (fb_log s env bo ++
            DrmEvent.page_flip bo fb false FlipRet.ok s.pageflip_pending ::
              slot_releases [s.prev_bo2]),
          pageflip_submitted := (s.pageflip_submitted + 1) % 2 ^ 64,
          prev_bo2 := s.prev_bo, prev_bo := some bo, cur_bo := none,
          pageflip_pending := false })) := by
  obtain ⟨surf, p, p2, c, md, pend, en, ue, t, sub, com, dr, fbd, log⟩ := s
  simp only at hs hm hu
  subst hs hm hu
  simp only [fb_id_for] at hfb
  simp only [swap_buffers_present, hfront, drm_set_crtc_for_bo, fb_log,
    release_prev_bo2, gbm_surface_release_buffer, slot_releases]
  cases hl : List.lookup bo fbd with
  | some f =>
    simp only [hl, Option.some.injEq] at hfb
    subst hfb
    refine ⟨?_, ?_, ?_⟩ <;> intro hflip <;> cases p2 <;> cases env.addfb <;> simp [hflip]
  | none =>
    simp only [hl] at hfb
    rw [hfb]
    refine ⟨?_, ?_, ?_⟩ <;> intro hflip <;> cases p2 <;> simp [hflip]

theorem release_prev_bo_eq (s : GbmEglDrm) (hs : s.gbm_surf = true) :
    release_prev_bo s = { s with prev_bo := none, log := s.log ++ slot_releases [s.prev_bo] } := by
  obtain ⟨surf, p, p2, c, md, pend, en, ue, t, sub, com, dr, fbd, log⟩ := s
  simp only at hs
  subst hs
  cases p <;> simp [release_prev_bo, gbm_surface_release_buffer, slot_releases]

theorem release_prev_bo2_eq (s : GbmEglDrm) (hs : s.gbm_surf = true) :
    release_prev_bo2 s =
      { s with prev_bo2 := none, log := s.log ++ slot_releases [s.prev_bo2] } := by
  obtain ⟨surf, p, p2, c, md, pend, en, ue, t, sub, com, dr, fbd, log⟩ := s
  simp only at hs
  subst hs
  cases p2 <;> simp [release_prev_bo2, gbm_surface_release_buffer, slot_releases]

/-- The outcomes of the presenting part of a swap on a context with a surface that is not
both enabled and pending, one for each path through drm_gbm_egl.cpp:597-706. -/
theorem swap_buffers_present_cases (s : GbmEglDrm) (env : SwapEnv)
    (hidle : (s.pageflip_enabled && s.pageflip_pending) = false) (hs : s.gbm_surf = true) :
    (env.front = none ∧ swap_buffers_present s env = (false, s)) ∨
    ∃ bo okr fbr md fbd u,
      env.front = some bo ∧
      drm_set_crtc_for_bo { s with log := s.log ++ [DrmEvent.lock_front_buffer bo] } bo 0
        env.addfb env.setcrtc_ok = (okr, fbr, after_setup s bo md fbd u) ∧
      setup_only bo u ∧ (s.modeset_done = true → md = true) ∧ (okr = true → md = true) ∧
      ((okr = false ∧ swap_buffers_present s env =
          (false, { after_setup s bo md fbd u with
            log := (after_setup s bo md fbd u).log ++ [DrmEvent.release_buffer bo] })) ∨
       (okr = true ∧ s.modeset_done = false ∧ swap_buffers_present s env =
          (true, { after_setup s bo md fbd u with
            log := (after_setup s bo md fbd u).log ++ slot_releases [s.prev_bo],
            prev_bo := some bo })) ∨
       (okr = true ∧ s.modeset_done = true ∧ s.pageflip_use_event = false ∧
          env.flip = FlipRet.ebusy ∧ swap_buffers_present s env =
          (true, { after_setup s bo md fbd u with
            log := (after_setup s bo md fbd u).log ++
              [DrmEvent.page_flip bo fbr false FlipRet.ebusy s.pageflip_pending,
               DrmEvent.release_buffer bo],
            pageflip_dropped := (s.pageflip_dropped + 1) % 2 ^ 64 })) ∨
       (okr = true ∧ s.modeset_done = true ∧ s.pageflip_use_event = false ∧
          env.flip = FlipRet.failed ∧ swap_buffers_present s env =
          (false, { after_setup s bo md fbd u with
            log := (after_setup s bo md fbd u).log ++
              [DrmEvent.page_flip bo fbr false FlipRet.failed s.pageflip_pending,
               DrmEvent.release_buffer bo] })) ∨
       (okr = true ∧ s.modeset_done = true ∧ s.pageflip_use_event = false ∧
          env.flip = FlipRet.ok ∧ swap_buffers_present s env =
          (true, { after_setup s bo md fbd u with
            log := (after_setup s bo md fbd u).log ++
              DrmEvent.page_flip bo fbr false FlipRet.ok s.pageflip_pending ::
                slot_releases [s.prev_bo2],
            pageflip_submitted := (s.pageflip_submitted + 1) % 2 ^ 64,
            prev_bo2 := s.prev_bo, prev_bo := some bo, cur_bo := none,
            pageflip_pending := false })) ∨
       (okr = true ∧ s.modeset_done = true ∧ s.pageflip_use_event = true ∧
          s.pageflip_enabled = false ∧ env.setcrtc_ok = false ∧ swap_buffers_present s env =
          (false, { after_setup s bo md fbd u with
            log := (after_setup s bo md fbd u).log ++ [DrmEvent.release_buffer bo] })) ∨
       (okr = true ∧ s.modeset_done = true ∧ s.pageflip_use_event = true ∧
          s.pageflip_enabled = false ∧ env.setcrtc_ok = true ∧ swap_buffers_present s env =
          (true, { after_setup s bo md fbd u with
            log := (after_setup s bo md fbd u).log ++
              DrmEvent.set_crtc bo fbr :: slot_releases [s.prev_bo, s.prev_bo2],
            prev_bo := some bo, prev_bo2 := none })) ∨
       (okr = true ∧ s.modeset_done = true ∧ s.pageflip_use_event = true ∧
          s.pageflip_enabled = true ∧ s.pageflip_pending = false ∧ env.flip ≠ FlipRet.ok ∧
          swap_buffers_present s env =
          (false, { after_setup s bo md fbd u with
            log := (after_setup s bo md fbd u).log ++
              [DrmEvent.page_flip bo fbr true env.flip false, DrmEvent.release_buffer bo],
            cur_bo := some bo, pageflip_pending := false })) ∨
       (okr = true ∧ s.modeset_done = true ∧ s.pageflip_use_event = true ∧
          s.pageflip_enabled = true ∧ s.pageflip_pending = false ∧ env.flip = FlipRet.ok ∧
          swap_buffers_present s env =
          (true, { after_setup s bo md fbd u with
            log := (after_setup s bo md fbd u).log ++
              [DrmEvent.page_flip bo fbr true FlipRet.ok false],
            cur_bo := some bo, pageflip_pending := true,
            pageflip_submitted := (s.pageflip_submitted + 1) % 2 ^ 64 }))) := by
  cases hfront : env.front with
  | none => exact Or.inl ⟨rfl, by simp [swap_buffers_present, hfront]⟩
  | some bo =>
    right
    obtain ⟨okr, fbr, md, fbd, u, hspec, hu, hmd1, hmd2⟩ := drm_set_crtc_for_bo_spec
      { s with log := s.log ++ [DrmEvent.lock_front_buffer bo] } bo 0 env.addfb env.setcrtc_ok
    have hspec' : drm_set_crtc_for_bo { s with log := s.log ++ [DrmEvent.lock_front_buffer bo] }
        bo 0 env.addfb env.setcrtc_ok = (okr, fbr, after_setup s bo md fbd u) := by
      rw [hspec]; simp [after_setup]
    refine ⟨bo, okr, fbr, md, fbd, u, rfl, hspec', hu, hmd1, hmd2, ?_⟩
    cases okr with
    | false =>
      left
      refine ⟨rfl, ?_⟩
      simp only [swap_buffers_present, hfront, hspec', gbm_surface_release_buffer]
    | true =>
      have hmd : md = true := hmd2 rfl
      subst hmd
      right
      rcases Bool.eq_false_or_eq_true s.modeset_done with hm | hm
      · right
        rcases Bool.eq_false_or_eq_true s.pageflip_use_event with hue | hue
        · right; right; right
          rcases Bool.eq_false_or_eq_true s.pageflip_enabled with hen | hen
          · right; right
            have hpf : s.pageflip_pending = false := by simpa [hen] using hidle
            by_cases hfl : env.flip = FlipRet.ok
            · right
              refine ⟨rfl, hm, hue, hen, hpf, hfl, ?_⟩
              simp only [swap_buffers_present, hfront, hspec']
              simp [hm, hue, hen, hpf, hfl, after_setup,
                submit_event_flip]
            · left
              refine ⟨rfl, hm, hue, hen, hpf, hfl, ?_⟩
              simp only [swap_buffers_present, hfront, hspec']
              simp [hm, hue, hen, hpf, hfl, after_setup,
                submit_event_flip, gbm_surface_release_buffer]
          · rcases Bool.eq_false_or_eq_true env.setcrtc_ok with hset | hset
            · right; left
              refine ⟨rfl, hm, hue, hen, hset, ?_⟩
              simp only [swap_buffers_present, hfront, hspec']
              simp [hm, hue, hen, hset, after_setup,
                release_prev_bo2_eq, release_prev_bo_eq, hs, slot_releases]
              rcases Option.eq_none_or_eq_some s.prev_bo with hpb | ⟨p, hpb⟩ <;>
                rcases Option.eq_none_or_eq_some s.prev_bo2 with hpb2 | ⟨p2, hpb2⟩ <;>
                simp [hpb, hpb2]
            · left
              refine ⟨rfl, hm, hue, hen, hset, ?_⟩
              simp only [swap_buffers_present, hfront, hspec']
              simp [hm, hue, hen, hset, after_setup,
                gbm_surface_release_buffer]
        · by_cases hfl : env.flip = FlipRet.ebusy
          · left
            refine ⟨rfl, hm, hue, hfl, ?_⟩
            simp only [swap_buffers_present, hfront, hspec']
            simp [hm, hue, hfl, after_setup,
              gbm_surface_release_buffer]
          · right
            by_cases hfl2 : env.flip = FlipRet.failed
            · left
              refine ⟨rfl, hm, hue, hfl2, ?_⟩
              simp only [swap_buffers_present, hfront, hspec']
              simp [hm, hue, hfl2, after_setup,
                gbm_surface_release_buffer]
            · right; left
              have hfl3 : env.flip = FlipRet.ok := by
                cases hx : env.flip
                · rfl
                · exact absurd hx hfl
                · exact absurd hx hfl2
              refine ⟨rfl, hm, hue, hfl3, ?_⟩
              simp only [swap_buffers_present, hfront, hspec']
              simp [hm, hue, hfl3, after_setup,
                release_prev_bo2_eq, hs]
      · left
        refine ⟨rfl, hm, ?_⟩
        simp only [swap_buffers_present, hfront, hspec']
        rcases Option.eq_none_or_eq_some s.prev_bo with hpb | ⟨p, hpb⟩ <;>
          simp [after_setup, hm, hpb, gbm_surface_release_buffer, slot_releases]

/-! ## Invariants of display sessions -/

theorem page_flip_handler_eq (s : GbmEglDrm) (hs : s.gbm_surf = true) :
    page_flip_handler s =
      { s with log := s.log ++ DrmEvent.flip_handled :: slot_releases [s.prev_bo],
               pageflip_pending := false,
               pageflip_completed := (s.pageflip_completed + 1) % 2 ^ 64,
               prev_bo := s.cur_bo, cur_bo := none } := by
  obtain ⟨surf, p, p2, c, md, pend, en, ue, t, sub, com, dr, fbd, log⟩ := s
  simp only at hs
  subst hs
  cases p <;> simp [page_flip_handler, release_prev_bo, gbm_surface_release_buffer, slot_releases]

theorem wait_reset_eq (s : GbmEglDrm) (hs : s.gbm_surf = true) :
    wait_reset s =
      { s with pageflip_pending := false, pageflip_timeouts := 0, pageflip_enabled := false,
               prev_bo := none, log := s.log ++ slot_releases [s.prev_bo] } := by
  obtain ⟨surf, p, p2, c, md, pend, en, ue, t, sub, com, dr, fbd, log⟩ := s
  simp only at hs
  subst hs
  cases p <;> simp [wait_reset, release_prev_bo, gbm_surface_release_buffer, slot_releases]

theorem drmHandleEvent_preserves (P : GbmEglDrm → Prop)
    (hh : ∀ s, P s → P (page_flip_handler s)) (n : Nat) (s : GbmEglDrm) (h : P s) :
    P (drmHandleEvent s n) := by
  induction n generalizing s with
  | zero => exact h
  | succ n ih => exact ih _ (hh s h)

/-- A property of the context that the completion handler, the timeout bookkeeping, the
two downgrades and the presenting part of a swap preserve holds throughout every display
session that starts in a state where it holds. -/
theorem run_display_preserves (P : GbmEglDrm → Prop)
    (hh : ∀ s, P s → P (page_flip_handler s))
    (ht : ∀ s t, P s → P { s with pageflip_timeouts := t })
    (hreset : ∀ s, P s → s.pageflip_pending = true → P (wait_reset s))
    (hfall : ∀ s, P s → s.pageflip_pending = true → P (swap_fallback s))
    (hpres : ∀ s env, P s → (s.pageflip_enabled && s.pageflip_pending) = false →
      P (swap_buffers_present s env).2)
    (s : GbmEglDrm) (ops : List DisplayOp) (h : P s) : P (run_display s ops) := by
  induction ops generalizing s with
  | nil => exact h
  | cons op ops ih =>
    simp only [run_display, List.foldl_cons]
    apply ih
    cases op with
    | completion => exact hh s h
    | swap env =>
      simp only [DisplayOp.apply, drm_gbm_egl_swap_buffers]
      apply hpres _ _ _ (swap_buffers_settle_idle s env)
      rcases swap_buffers_settle_cases s env with ⟨n, -, e⟩ | ⟨-, -, e⟩ | ⟨-, -, -, n, -, e⟩ |
          ⟨-, -, hp, -, -, e⟩ | ⟨-, -, hp, -, -, e⟩
      · rw [e]; exact drmHandleEvent_preserves P hh _ s h
      · rw [e]; exact h
      · rw [e]; exact ht _ 0 (drmHandleEvent_preserves P hh _ s h)
      · rw [e]; exact hfall s h hp
      · rw [e]; exact hreset s h hp

theorem pending_inv_run (s : GbmEglDrm) (ops : List DisplayOp) (h : pending_inv s) :
    pending_inv (run_display s ops) := by
  refine run_display_preserves pending_inv ?_ ?_ ?_ ?_ ?_ s ops h
  · intro s h
    rw [page_flip_handler_eq s h.1]
    exact ⟨h.1, fun hp => by cases hp⟩
  · intro s t h
    exact h
  · intro s h _
    rw [wait_reset_eq s h.1]
    exact ⟨h.1, fun hp => by cases hp⟩
  · intro s h _
    rw [swap_fallback_eq s h.1]
    exact ⟨h.1, fun hp => by cases hp⟩
  · intro s env h hidle
    obtain ⟨hs, hc⟩ := h
    rcases swap_buffers_present_cases s env hidle hs with ⟨-, e⟩ |
        ⟨bo, okr, fbr, md, fbd, u, -, -, -, hmd1, hmd2, e⟩
    · rw [e]; exact ⟨hs, hc⟩
    · rcases e with ⟨-, e⟩ | ⟨ho, -, e⟩ | ⟨ho, -, -, -, e⟩ | ⟨ho, -, -, -, e⟩ |
          ⟨ho, -, -, -, e⟩ | ⟨ho, -, -, -, -, e⟩ | ⟨ho, -, -, -, -, e⟩ |
          ⟨ho, -, -, -, -, -, e⟩ | ⟨ho, -, hue, hen, -, -, e⟩
      all_goals rw [e]
      all_goals refine ⟨hs, ?_⟩
      all_goals simp only [after_setup]
      all_goals try (intro hp; cases hp)
      all_goals try exact fun hp => ⟨hmd1 (hc hp).1, (hc hp).2⟩
      · exact ⟨hmd2 ho, hen, hue⟩

/-- In every state of a display session a flip is pending only after the mode was set,
while flips are enabled and completion events are in use. -/
theorem pending_needs_event_mode (enabled use_event : Bool) (ops : List DisplayOp)
    (hp : (run_display (GbmEglDrm.start enabled use_event) ops).pageflip_pending = true) :
    (run_display (GbmEglDrm.start enabled use_event) ops).modeset_done = true ∧
    (run_display (GbmEglDrm.start enabled use_event) ops).pageflip_enabled = true ∧
    (run_display (GbmEglDrm.start enabled use_event) ops).pageflip_use_event = true :=
  (pending_inv_run (GbmEglDrm.start enabled use_event) ops
    ⟨rfl, fun h => by cases h⟩).2 hp

theorem not_pending_of_eq_false (enabled use_event : Bool) (ops : List DisplayOp)
    (h : (run_display (GbmEglDrm.start enabled use_event) ops).modeset_done = false ∨
      (run_display (GbmEglDrm.start enabled use_event) ops).pageflip_enabled = false ∨
      (run_display (GbmEglDrm.start enabled use_event) ops).pageflip_use_event = false) :
    (run_display (GbmEglDrm.start enabled use_event) ops).pageflip_pending = false := by
  cases hp : (run_display (GbmEglDrm.start enabled use_event) ops).pageflip_pending with
  | false => rfl
  | true =>
    obtain ⟨h1, h2, h3⟩ := pending_needs_event_mode enabled use_event ops hp
    rcases h with h | h | h
    · rw [h1] at h; cases h
    · rw [h2] at h; cases h
    · rw [h3] at h; cases h

theorem event_mode_inv_run (s : GbmEglDrm) (ops : List DisplayOp) (h : event_mode_inv s) :
    event_mode_inv (run_display s ops) := by
  refine run_display_preserves event_mode_inv ?_ ?_ ?_ ?_ ?_ s ops h
  · intro s h
    rw [page_flip_handler_eq s h.1]
    exact h
  · intro s t h
    exact h
  · intro s h _
    rw [wait_reset_eq s h.1]
    exact h
  · intro s h _
    rw [swap_fallback_eq s h.1]
    exact ⟨h.1, h.2.1, rfl⟩
  · intro s env h hidle
    obtain ⟨hs, hue, hp2⟩ := h
    rcases swap_buffers_present_cases s env hidle hs with ⟨-, e⟩ |
        ⟨bo, okr, fbr, md, fbd, u, -, -, -, -, -, e⟩
    · rw [e]; exact ⟨hs, hue, hp2⟩
    · rcases e with ⟨-, e⟩ | ⟨-, -, e⟩ | ⟨-, -, hu, -, e⟩ | ⟨-, -, hu, -, e⟩ |
          ⟨-, -, hu, -, e⟩ | ⟨-, -, -, -, -, e⟩ | ⟨-, -, -, -, -, e⟩ | ⟨-, -, -, -, -, -, e⟩ |
          ⟨-, -, -, -, -, -, e⟩
      all_goals first
        | (rw [hue] at hu; cases hu)
        | (rw [e]; exact ⟨hs, hue, hp2⟩)
        | (rw [e]; exact ⟨hs, hue, rfl⟩)

/-- C11: on a context that has not set the mode yet (and therefore has no flip pending),
when the front buffer is locked and its framebuffer is available, a successful mode-set
makes `drm_gbm_egl_swap_buffers` return true with `modeset_done` set, the buffer stored
in `prev_bo` after the release of the buffer held there, and no page flip issued
(`pageflip_submitted`, `pageflip_pending` and the other slots and flags unchanged); a
failed mode-set makes it release the buffer and return false with `modeset_done` still
false. Neither case looks at `pageflip_enabled` or `pageflip_use_event`. In every state of
a display session no flip is pending while the mode is not set. -/
theorem C11_first_frame_anchor (s : GbmEglDrm) (env : SwapEnv) (bo fb : Nat)
    (hm : s.modeset_done = false) (hp : s.pageflip_pending = false)
    (hfront : env.front = some bo) (hfb : fb_id_for s env bo = some fb) :
    ((env.setcrtc_ok = true →
       (drm_gbm_egl_swap_buffers s env).1 = true ∧
       (drm_gbm_egl_swap_buffers s env).2.log = s.log ++ DrmEvent.lock_front_buffer bo ::
         (fb_log s env bo ++ DrmEvent.set_crtc bo fb :: slot_releases [s.prev_bo]) ∧
       (drm_gbm_egl_swap_buffers s env).2.modeset_done = true ∧
       (drm_gbm_egl_swap_buffers s env).2.prev_bo = some bo ∧
       (drm_gbm_egl_swap_buffers s env).2.prev_bo2 = s.prev_bo2 ∧
       (drm_gbm_egl_swap_buffers s env).2.cur_bo = s.cur_bo ∧
       (drm_gbm_egl_swap_buffers s env).2.pageflip_pending = s.pageflip_pending ∧
       (drm_gbm_egl_swap_buffers s env).2.pageflip_submitted = s.pageflip_submitted ∧
       (drm_gbm_egl_swap_buffers s env).2.pageflip_dropped = s.pageflip_dropped ∧
       (drm_gbm_egl_swap_buffers s env).2.pageflip_enabled = s.pageflip_enabled ∧
       (drm_gbm_egl_swap_buffers s env).2.pageflip_use_event = s.pageflip_use_event) ∧
     (env.setcrtc_ok = false →
       (drm_gbm_egl_swap_buffers s env).1 = false ∧
       (drm_gbm_egl_swap_buffers s env).2.log = s.log ++ DrmEvent.lock_front_buffer bo ::
         (fb_log s env bo ++ [DrmEvent.release_buffer bo]) ∧
       (drm_gbm_egl_swap_buffers s env).2.modeset_done = false ∧
       (drm_gbm_egl_swap_buffers s env).2.prev_bo = s.prev_bo ∧
       (drm_gbm_egl_swap_buffers s env).2.prev_bo2 = s.prev_bo2 ∧
       (drm_gbm_egl_swap_buffers s env).2.cur_bo = s.cur_bo ∧
       (drm_gbm_egl_swap_buffers s env).2.pageflip_pending = s.pageflip_pending ∧
       (drm_gbm_egl_swap_buffers s env).2.pageflip_submitted = s.pageflip_submitted)) ∧
    ∀ (enabled use_event : Bool) (ops : List DisplayOp),
      (run_display (GbmEglDrm.start enabled use_event) ops).modeset_done = false →
      (run_display (GbmEglDrm.start enabled use_event) ops).pageflip_pending = false := by
  refine ⟨?_, fun enabled use_event ops h =>
    not_pending_of_eq_false enabled use_event ops (Or.inl h)⟩
  unfold drm_gbm_egl_swap_buffers
  rw [swap_buffers_settle_not_pending s env hp]
  obtain ⟨surf, p, p2, c, md, pend, en, ue, t, sub, com, dr, fbd, log⟩ := s
  simp only at hm hp
  subst hm hp
  simp only [fb_id_for] at hfb
  simp only [swap_buffers_present, hfront, drm_set_crtc_for_bo, fb_log,
    gbm_surface_release_buffer, slot_releases]
  cases hl : List.lookup bo fbd with
  | some f =>
    simp only [hl, Option.some.injEq] at hfb
    subst hfb
    constructor <;> intro hset <;> cases p <;> cases env.addfb <;> simp [hset]
  | none =>
    simp only [hl] at hfb
    rw [hfb]
    constructor <;> intro hset <;> cases p <;> simp [hset]

/-- C12 (amended): on a context with a surface, the mode set, no flip pending,
`pageflip_enabled` false and `pageflip_use_event` true, every successful
`drm_gbm_egl_swap_buffers` call presents the locked buffer with the direct mode-set call
and issues no page flip: it logs the lock, the registration if the buffer has no cached
framebuffer, the mode-set and the releases of the buffers held in `prev_bo` and
`prev_bo2`, keeps the new buffer in `prev_bo` and leaves `pageflip_submitted` unchanged.
In every state of a display session no flip is pending while flips are disabled. -/
theorem C12_disabled_flips_use_mode_set (s : GbmEglDrm) (env : SwapEnv)
    (hs : s.gbm_surf = true) (hm : s.modeset_done = true) (he : s.pageflip_enabled = false)
    (hu : s.pageflip_use_event = true) (hp : s.pageflip_pending = false)
    (hret : (drm_gbm_egl_swap_buffers s env).1 = true) :
    (∃ bo fb, env.front = some bo ∧ fb_id_for s env bo = some fb ∧
       (drm_gbm_egl_swap_buffers s env).2.log = s.log ++ DrmEvent.lock_front_buffer bo ::
         (fb_log s env bo ++ DrmEvent.set_crtc bo fb :: slot_releases [s.prev_bo, s.prev_bo2]) ∧
       (drm_gbm_egl_swap_buffers s env).2.prev_bo = some bo ∧
       (drm_gbm_egl_swap_buffers s env).2.prev_bo2 = none ∧
       (drm_gbm_egl_swap_buffers s env).2.pageflip_submitted = s.pageflip_submitted ∧
       (drm_gbm_egl_swap_buffers s env).2.pageflip_enabled = false) ∧
    ∀ (enabled use_event : Bool) (ops : List DisplayOp),
      (run_display (GbmEglDrm.start enabled use_event) ops).pageflip_enabled = false →
      (run_display (GbmEglDrm.start enabled use_event) ops).pageflip_pending = false := by
  refine ⟨?_, fun enabled use_event ops h =>
    not_pending_of_eq_false enabled use_event ops (Or.inr (Or.inl h))⟩
  unfold drm_gbm_egl_swap_buffers at hret ⊢
  rw [swap_buffers_settle_not_pending s env hp] at hret ⊢
  cases hfront : env.front with
  | none => simp [swap_buffers_present, hfront] at hret
  | some bo =>
    cases hfb : fb_id_for s env bo with
    | none =>
      exfalso
      simp only [fb_id_for] at hfb
      cases hl : List.lookup bo s.fb_data with
      | some f => simp [hl] at hfb
      | none =>
        simp only [hl] at hfb
        simp [swap_buffers_present, hfront, drm_set_crtc_for_bo, hl, hfb] at hret
    | some fb =>
      cases hset : env.setcrtc_ok with
      | false =>
        exfalso
        obtain ⟨surf, p, p2, c, md, pend, en, ue, t, sub, com, dr, fbd, log⟩ := s
        simp only at hs hm he hu hp
        subst hs hm he hu hp
        simp only [fb_id_for] at hfb
        cases hl : List.lookup bo fbd with
        | some f =>
          simp [swap_buffers_present, hfront, drm_set_crtc_for_bo, hl, hset] at hret
        | none =>
          simp only [hl] at hfb
          simp [swap_buffers_present, hfront, drm_set_crtc_for_bo, hl, hfb, hset] at hret
      | true =>
        obtain ⟨k1, k2, k3, k4, -, -, k7, k8, -, -⟩ :=
          swap_buffers_present_set_crtc s env bo fb hs hm he hu hfront hfb hset
        exact ⟨bo, fb, rfl, hfb, k2, k3, k4, k8, k7⟩

/-- C13: in the no-event path (surface present, mode set, `pageflip_use_event` false, no
flip pending), when the kernel answers EBUSY `drm_gbm_egl_swap_buffers` releases the new
buffer, increments `pageflip_dropped` by one (as a 64-bit counter) and returns true with
the three slots, `pageflip_submitted` and `pageflip_enabled` unchanged; for any other
error it releases the new buffer and returns false with every counter unchanged. In every
state of a display session no flip is pending while completion events are not in use. -/
theorem C13_noevent_busy_drops_frame (s : GbmEglDrm) (env : SwapEnv) (bo fb : Nat)
    (hs : s.gbm_surf = true) (hm : s.modeset_done = true) (hu : s.pageflip_use_event = false)
    (hp : s.pageflip_pending = false)
    (hfront : env.front = some bo) (hfb : fb_id_for s env bo = some fb) :
    ((env.flip = FlipRet.ebusy →
       (drm_gbm_egl_swap_buffers s env).1 = true ∧
       (drm_gbm_egl_swap_buffers s env).2.log = s.log ++ DrmEvent.lock_front_buffer bo ::
         (fb_log s env bo ++ [DrmEvent.page_flip bo fb false FlipRet.ebusy false,
           DrmEvent.release_buffer bo]) ∧
       (drm_gbm_egl_swap_buffers s env).2.pageflip_dropped = (s.pageflip_dropped + 1) % 2 ^ 64 ∧
       (s.pageflip_dropped + 1 < 2 ^ 64 →
         (drm_gbm_egl_swap_buffers s env).2.pageflip_dropped = s.pageflip_dropped + 1) ∧
       (drm_gbm_egl_swap_buffers s env).2.prev_bo = s.prev_bo ∧
       (drm_gbm_egl_swap_buffers s env).2.prev_bo2 = s.prev_bo2 ∧
       (drm_gbm_egl_swap_buffers s env).2.cur_bo = s.cur_bo ∧
       (drm_gbm_egl_swap_buffers s env).2.pageflip_submitted = s.pageflip_submitted ∧
       (drm_gbm_egl_swap_buffers s env).2.pageflip_enabled = s.pageflip_enabled) ∧
     (env.flip = FlipRet.failed →
       (drm_gbm_egl_swap_buffers s env).1 = false ∧
       (drm_gbm_egl_swap_buffers s env).2.log = s.log ++ DrmEvent.lock_front_buffer bo ::
         (fb_log s env bo ++ [DrmEvent.page_flip bo fb false FlipRet.failed false,
           DrmEvent.release_buffer bo]) ∧
       (drm_gbm_egl_swap_buffers s env).2.pageflip_dropped = s.pageflip_dropped ∧
       (drm_gbm_egl_swap_buffers s env).2.pageflip_submitted = s.pageflip_submitted ∧
       (drm_gbm_egl_swap_buffers s env).2.pageflip_completed = s.pageflip_completed ∧
       (drm_gbm_egl_swap_buffers s env).2.pageflip_timeouts = s.pageflip_timeouts)) ∧
    ∀ (enabled use_event : Bool) (ops : List DisplayOp),
      (run_display (GbmEglDrm.start enabled use_event) ops).pageflip_use_event = false →
      (run_display (GbmEglDrm.start enabled use_event) ops).pageflip_pending = false := by
  refine ⟨?_, fun enabled use_event ops h =>
    not_pending_of_eq_false enabled use_event ops (Or.inr (Or.inr h))⟩
  obtain ⟨k1, k2, -⟩ := swap_buffers_present_noevent s env bo fb hs hm hu hfront hfb
  unfold drm_gbm_egl_swap_buffers
  rw [swap_buffers_settle_not_pending s env hp]
  constructor
  · intro hflip
    rw [k1 hflip, hp]
    refine ⟨rfl, rfl, rfl, fun h => Nat.mod_eq_of_lt h, rfl, rfl, rfl, rfl, rfl⟩
  · intro hflip
    rw [k2 hflip, hp]
    exact ⟨rfl, rfl, rfl, rfl, rfl, rfl⟩

/-- C11 at concrete calls: the first swap of a session, with the mode-set succeeding and
failing. -/
theorem C11_first_frame_witness :
    (drm_gbm_egl_swap_buffers GbmEglDrm.init (swap_ok [] [] 1)).1 = true ∧
    (drm_gbm_egl_swap_buffers GbmEglDrm.init (swap_ok [] [] 1)).2.modeset_done = true ∧
    (drm_gbm_egl_swap_buffers GbmEglDrm.init
      { swap_ok [] [] 1 with setcrtc_ok := false }).1 = false ∧
    (drm_gbm_egl_swap_buffers GbmEglDrm.init
      { swap_ok [] [] 1 with setcrtc_ok := false }).2.modeset_done = false :=
  ⟨((C11_first_frame_anchor GbmEglDrm.init (swap_ok [] [] 1) 1 101 rfl rfl rfl
      (by decide)).1.1 rfl).1,
   ((C11_first_frame_anchor GbmEglDrm.init (swap_ok [] [] 1) 1 101 rfl rfl rfl
      (by decide)).1.1 rfl).2.2.1,
   ((C11_first_frame_anchor GbmEglDrm.init { swap_ok [] [] 1 with setcrtc_ok := false } 1 101
      rfl rfl rfl (by decide)).1.2 rfl).1,
   ((C11_first_frame_anchor GbmEglDrm.init { swap_ok [] [] 1 with setcrtc_ok := false } 1 101
      rfl rfl rfl (by decide)).1.2 rfl).2.2.1⟩

/-- C12 (amended) at a concrete call: a swap of buffer 2 with flips disabled. -/
theorem C12_disabled_flips_witness :
    (drm_gbm_egl_swap_buffers anchored_off (swap_ok [] [] 2)).1 = true ∧
    ∃ bo fb, (swap_ok [] [] 2).front = some bo ∧
      fb_id_for anchored_off (swap_ok [] [] 2) bo = some fb ∧
      (drm_gbm_egl_swap_buffers anchored_off (swap_ok [] [] 2)).2.log =
        anchored_off.log ++ DrmEvent.lock_front_buffer bo ::
          (fb_log anchored_off (swap_ok [] [] 2) bo ++ DrmEvent.set_crtc bo fb ::
            slot_releases [anchored_off.prev_bo, anchored_off.prev_bo2]) ∧
      (drm_gbm_egl_swap_buffers anchored_off (swap_ok [] [] 2)).2.prev_bo = some bo ∧
      (drm_gbm_egl_swap_buffers anchored_off (swap_ok [] [] 2)).2.prev_bo2 = none ∧
      (drm_gbm_egl_swap_buffers anchored_off (swap_ok [] [] 2)).2.pageflip_submitted =
        anchored_off.pageflip_submitted ∧
      (drm_gbm_egl_swap_buffers anchored_off (swap_ok [] [] 2)).2.pageflip_enabled = false :=
  ⟨by decide,
   (C12_disabled_flips_use_mode_set anchored_off (swap_ok [] [] 2) (by decide) (by decide)
    (by decide) (by decide) (by decide) (by decide)).1⟩

/-- C13 at concrete calls: a busy and a failed no-event flip of buffer 3. -/
theorem C13_noevent_busy_witness :
    (drm_gbm_egl_swap_buffers noevent_flipped
      { swap_ok [] [] 3 with flip := FlipRet.ebusy }).1 = true ∧
    (drm_gbm_egl_swap_buffers noevent_flipped
      { swap_ok [] [] 3 with flip := FlipRet.ebusy }).2.pageflip_dropped =
        (noevent_flipped.pageflip_dropped + 1) % 2 ^ 64 ∧
    (drm_gbm_egl_swap_buffers noevent_flipped
      { swap_ok [] [] 3 with flip := FlipRet.failed }).1 = false :=
  ⟨((C13_noevent_busy_drops_frame noevent_flipped { swap_ok [] [] 3 with flip := FlipRet.ebusy }
      3 103 (by decide) (by decide) (by decide) (by decide) rfl (by decide)).1.1 rfl).1,
   ((C13_noevent_busy_drops_frame noevent_flipped { swap_ok [] [] 3 with flip := FlipRet.ebusy }
      3 103 (by decide) (by decide) (by decide) (by decide) rfl (by decide)).1.1 rfl).2.2.1,
   ((C13_noevent_busy_drops_frame noevent_flipped { swap_ok [] [] 3 with flip := FlipRet.failed }
      3 103 (by decide) (by decide) (by decide) (by decide) rfl (by decide)).1.2 rfl).1⟩

/-- C14: an accepted no-event flip releases only the old `prev_bo2`, moves the old
`prev_bo` into `prev_bo2`, stores the new buffer in `prev_bo`, leaves `cur_bo` null and
`pageflip_pending` false and adds one to `pageflip_submitted`, so two previous buffers are
retained; in every state of an event-driven session `prev_bo2` is null, so one previous
buffer is retained. In every state of a display session no flip is pending while
completion events are not in use. -/
theorem C14_retention_asymmetry (s : GbmEglDrm) (env : SwapEnv) (bo fb : Nat)
    (hs : s.gbm_surf = true) (hm : s.modeset_done = true)
    (hu : s.pageflip_use_event = false) (hp : s.pageflip_pending = false)
    (hfront : env.front = some bo) (hfb : fb_id_for s env bo = some fb)
    (hflip : env.flip = FlipRet.ok) :
    drm_gbm_egl_swap_buffers s env =
      (true, { s with
        fb_data := if s.fb_data.lookup bo = none then (bo, fb) :: s.fb_data else s.fb_data,
        log := s.log ++ DrmEvent.lock_front_buffer bo ::
          (fb_log s env bo ++ DrmEvent.page_flip bo fb false FlipRet.ok false ::
            slot_releases [s.prev_bo2]),
        pageflip_submitted := (s.pageflip_submitted + 1) % 2 ^ 64,
        prev_bo2 := s.prev_bo, prev_bo := some bo, cur_bo := none,
        pageflip_pending := false }) ∧
    (∀ (enabled : Bool) (ops : List DisplayOp),
      (run_display (GbmEglDrm.start enabled true) ops).prev_bo2 = none) ∧
    ∀ (enabled use_event : Bool) (ops : List DisplayOp),
      (run_display (GbmEglDrm.start enabled use_event) ops).pageflip_use_event = false →
      (run_display (GbmEglDrm.start enabled use_event) ops).pageflip_pending = false := by
  refine ⟨?_, fun enabled ops => ?_, fun enabled use_event ops h =>
    not_pending_of_eq_false enabled use_event ops (Or.inr (Or.inr h))⟩
  · have h := (swap_buffers_present_noevent s env bo fb hs hm hu hfront hfb).2.2 hflip
    rw [drm_gbm_egl_swap_buffers, swap_buffers_settle_not_pending s env hp, h, hp]
  · exact (event_mode_inv_run (GbmEglDrm.start enabled true) ops ⟨rfl, rfl, rfl⟩).2.2

/-- C14 at a concrete call: an accepted no-event flip of buffer 3 after the anchoring
mode-set of buffer 1 and a flip to buffer 2. -/
theorem C14_retention_witness :
    drm_gbm_egl_swap_buffers noevent_flipped (swap_ok [] [] 3) =
      (true, { noevent_flipped with
        fb_data := if noevent_flipped.fb_data.lookup 3 = none then
          (3, 103) :: noevent_flipped.fb_data else noevent_flipped.fb_data,
        log := noevent_flipped.log ++ DrmEvent.lock_front_buffer 3 ::
          (fb_log noevent_flipped (swap_ok [] [] 3) 3 ++
            DrmEvent.page_flip 3 103 false FlipRet.ok false ::
              slot_releases [noevent_flipped.prev_bo2]),
        pageflip_submitted := (noevent_flipped.pageflip_submitted + 1) % 2 ^ 64,
        prev_bo2 := noevent_flipped.prev_bo, prev_bo := some 3, cur_bo := none,
        pageflip_pending := false }) ∧
    (∀ (enabled : Bool) (ops : List DisplayOp),
      (run_display (GbmEglDrm.start enabled true) ops).prev_bo2 = none) ∧
    ∀ (enabled use_event : Bool) (ops : List DisplayOp),
      (run_display (GbmEglDrm.start enabled use_event) ops).pageflip_use_event = false →
      (run_display (GbmEglDrm.start enabled use_event) ops).pageflip_pending = false :=
  C14_retention_asymmetry noevent_flipped (swap_ok [] [] 3) 3 103 (by decide) (by decide)
    (by decide) (by decide) (by decide) (by decide) (by decide)

theorem event_flips_append (a b : List DrmEvent) :
    event_flips (a ++ b) = event_flips a ++ event_flips b := by
  simp [event_flips]

theorem event_flips_setup (bo : Nat) (u : List DrmEvent) (h : setup_only bo u) :
    event_flips u = [] := by
  simp only [event_flips, List.filterMap_eq_nil_iff]
  intro e he
  rcases h e he with ⟨f, hf⟩ | ⟨f, hf⟩ <;> subst hf <;> rfl

theorem event_flips_slot_releases (l : List (Option Nat)) :
    event_flips (slot_releases l) = [] := by
  simp only [event_flips, slot_releases, List.filterMap_map]
  apply List.filterMap_eq_nil_iff.2
  intro a _
  rfl

theorem event_flips_cons (e : DrmEvent) (l : List DrmEvent) :
    event_flips (e :: l) = (event_flip_of e).toList ++ event_flips l := by
  cases h : event_flip_of e <;> simp [event_flips, List.filterMap_cons, h]

theorem event_flips_nil : event_flips [] = [] := rfl

theorem last_event_flip_quiet (a b : List DrmEvent) (h : event_flips b = []) :
    last_event_flip (a ++ b) = last_event_flip a := by
  simp [last_event_flip, event_flips_append, h]

theorem in_flight_inv_run (s : GbmEglDrm) (ops : List DisplayOp) (h : in_flight_inv s) :
    in_flight_inv (run_display s ops) := by
  refine run_display_preserves in_flight_inv ?_ ?_ ?_ ?_ ?_ s ops h
  · intro s h
    rw [page_flip_handler_eq s h.1]
    exact ⟨h.1, by simp⟩
  · intro s t h
    exact h
  · intro s h _
    rw [wait_reset_eq s h.1]
    exact ⟨h.1, by simp⟩
  · intro s h _
    rw [swap_fallback_eq s h.1]
    exact ⟨h.1, by simp⟩
  · intro s env h hidle
    obtain ⟨hs, hfl⟩ := h
    rcases swap_buffers_present_cases s env hidle hs with ⟨-, e⟩ |
        ⟨bo, okr, fbr, md, fbd, u, -, -, hu, -, -, e⟩
    · rw [e]; exact ⟨hs, hfl⟩
    · have hq := event_flips_setup bo u hu
      rcases e with ⟨-, e⟩ | ⟨-, -, e⟩ | ⟨-, -, -, -, e⟩ | ⟨-, -, -, -, e⟩ |
          ⟨-, -, -, -, e⟩ | ⟨-, -, -, -, -, e⟩ | ⟨-, -, -, -, -, e⟩ | ⟨-, -, -, -, -, -, e⟩ |
          ⟨-, -, -, -, -, -, e⟩
      all_goals rw [e]
      all_goals refine ⟨hs, ?_⟩
      all_goals simp only [after_setup]
      all_goals try (intro hp; cases hp)
      all_goals try
        (intro hp
         obtain ⟨b, hb, hl⟩ := hfl hp
         refine ⟨b, hb, ?_⟩
         rw [← hl, List.append_assoc]
         apply last_event_flip_quiet
         simp [event_flips_append, event_flips_cons, event_flips_nil, hq,
           event_flips_slot_releases, event_flip_of])
      · refine ⟨bo, rfl, ?_⟩
        simp [last_event_flip, event_flips_append, event_flips_cons, event_flips_nil, hq,
          event_flip_of]

/-- C15: in every state reachable from the initial context through swaps and
completion-handler invocations, a pending flip means that `cur_bo` is non-null and holds
the buffer of the most recent event-requesting flip submission, which was accepted. -/
theorem C15_pending_has_one_in_flight (enabled use_event : Bool) (ops : List DisplayOp)
    (hp : (run_display (GbmEglDrm.start enabled use_event) ops).pageflip_pending = true) :
    ∃ bo, (run_display (GbmEglDrm.start enabled use_event) ops).cur_bo = some bo ∧
      last_event_flip (run_display (GbmEglDrm.start enabled use_event) ops).log =
        some (bo, FlipRet.ok) :=
  (in_flight_inv_run (GbmEglDrm.start enabled use_event) ops
    ⟨rfl, fun h => by cases h⟩).2 hp

/-- C15 at a concrete session: an anchoring swap followed by an accepted flip, which is
pending at the end. -/
theorem C15_pending_witness :
    (run_display (GbmEglDrm.start true true) flip_session).pageflip_pending = true ∧
    ∃ bo, (run_display (GbmEglDrm.start true true) flip_session).cur_bo = some bo ∧
      last_event_flip (run_display (GbmEglDrm.start true true) flip_session).log =
        some (bo, FlipRet.ok) :=
  ⟨by decide, C15_pending_has_one_in_flight true true flip_session (by decide)⟩

theorem locked_buffers_append (a b : List DrmEvent) :
    locked_buffers (a ++ b) = b.foldl lock_step (locked_buffers a) := by
  simp [locked_buffers]

theorem foldl_lock_step_setup (bo : Nat) (u : List DrmEvent) (h : setup_only bo u)
    (l : List Nat) : u.foldl lock_step l = l := by
  induction u generalizing l with
  | nil => rfl
  | cons e u ih =>
    have he : lock_step l e = l := by
      rcases h e (List.mem_cons_self _ _) with ⟨f, hf⟩ | ⟨f, hf⟩ <;> subst hf <;> rfl
    rw [List.foldl_cons, he]
    exact ih (fun x hx => h x (List.mem_cons_of_mem _ hx)) l

theorem foldl_lock_step_releases (slots : List (Option Nat)) (l : List Nat) :
    (slot_releases slots).foldl lock_step l = slots.foldl release_slot l := by
  induction slots generalizing l with
  | nil => rfl
  | cons o slots ih =>
    cases o with
    | none => simpa [slot_releases, release_slot] using ih l
    | some b => simpa [slot_releases, release_slot, lock_step] using ih (l.erase b)

theorem slot_count_none (b : Nat) : slot_count b none = 0 := rfl

theorem count_release_slot (b : Nat) (l : List Nat) (o : Option Nat) :
    (release_slot l o).count b = l.count b - slot_count b o := by
  cases o with
  | none => simp [release_slot, slot_count]
  | some p =>
    by_cases hpb : p = b
    · subst hpb
      simp [release_slot, slot_count, List.count_erase_self]
    · have hne : ¬ b = p := fun h => hpb h.symm
      simp [release_slot, slot_count, List.count_erase_of_ne hne, hpb]

theorem count_erase_slot (b p : Nat) (l : List Nat) :
    (l.erase p).count b = l.count b - slot_count b (some p) :=
  count_release_slot b l (some p)

theorem count_lock (b bo : Nat) (l : List Nat) :
    (bo :: l).count b = l.count b + slot_count b (some bo) := by
  by_cases h : bo = b
  · subst h; simp [slot_count]
  · simp [slot_count, List.count_cons, h]

theorem held_inv_run (s : GbmEglDrm) (ops : List DisplayOp) (h : held_inv s) :
    held_inv (run_display s ops) := by
  refine run_display_preserves held_inv ?_ ?_ ?_ ?_ ?_ s ops h
  · intro s h
    obtain ⟨hs, hne, hc⟩ := h
    rw [page_flip_handler_eq s hs]
    refine ⟨hs, fun _ => ⟨rfl, rfl⟩, fun b => ?_⟩
    have hb := hc b
    rcases Bool.eq_false_or_eq_true s.pageflip_pending with hp | hp <;>
      rcases Bool.eq_false_or_eq_true s.pageflip_enabled with hen | hen <;>
      simp only [hp, hen, locked_buffers_append, List.foldl_cons, List.foldl_nil, lock_step,
        foldl_lock_step_releases, count_release_slot, slot_count_none, Bool.or_true,
        Bool.or_false, Bool.not_true, Bool.not_false, Bool.true_or, Bool.false_or, if_true,
        if_false, Bool.false_eq_true] at hb ⊢ <;>
      omega
  · intro s t h
    exact h
  · intro s h hp
    obtain ⟨hs, hne, hc⟩ := h
    rw [wait_reset_eq s hs]
    refine ⟨hs, fun hu => ?_, fun b => ?_⟩
    · have := (hne hu).2
      rw [hp] at this
      cases this
    · have hb := hc b
      simp only [hp, locked_buffers_append, List.foldl_cons, List.foldl_nil, lock_step,
        foldl_lock_step_releases, count_release_slot, slot_count_none, Bool.or_true,
        Bool.or_false, Bool.not_true, Bool.not_false, Bool.true_or, Bool.false_or, if_true,
        if_false, Bool.false_eq_true] at hb ⊢
      omega
  · intro s h hp
    obtain ⟨hs, hne, hc⟩ := h
    rw [swap_fallback_eq s hs]
    refine ⟨hs, fun _ => ⟨rfl, rfl⟩, fun b => ?_⟩
    have hb := hc b
    simp only [hp, locked_buffers_append, List.foldl_cons, List.foldl_nil, lock_step,
      foldl_lock_step_releases, count_release_slot, slot_count_none, Bool.or_true,
      Bool.or_false, Bool.not_true, Bool.not_false, Bool.true_or, Bool.false_or, if_true,
      if_false, Bool.false_eq_true] at hb ⊢
    omega
  · intro s env h hidle
    obtain ⟨hs, hne, hc⟩ := h
    rcases swap_buffers_present_cases s env hidle hs with ⟨-, e⟩ |
        ⟨bo, okr, fbr, md, fbd, u, -, -, hu, -, -, e⟩
    · rw [e]; exact ⟨hs, hne, hc⟩
    · have hq := foldl_lock_step_setup bo u hu
      rcases e with ⟨-, e⟩ | ⟨-, -, e⟩ | ⟨-, -, hue, -, e⟩ | ⟨-, -, hue, -, e⟩ |
          ⟨-, -, hue, -, e⟩ | ⟨-, -, hue, hen, -, e⟩ | ⟨-, -, hue, hen, -, e⟩ |
          ⟨-, -, hue, hen, hp, -, e⟩ | ⟨-, -, hue, hen, hp, -, e⟩
      all_goals rw [e]
      all_goals refine ⟨hs, ?_, fun b => ?_⟩
      all_goals try exact hne
      all_goals try exact fun _ => ⟨rfl, rfl⟩
      all_goals try (intro hx; simp only [after_setup] at hx; rw [hue] at hx; cases hx)
      all_goals have hb := hc b
      all_goals simp only [after_setup]
      all_goals try simp only [hen, hp] at hb ⊢
      all_goals try
        (have hcn := (hne hue).1
         have hpn := (hne hue).2
         simp only [hcn, hpn] at hb ⊢)
      all_goals
        rcases Bool.eq_false_or_eq_true s.pageflip_pending with hp' | hp' <;>
        rcases Bool.eq_false_or_eq_true s.pageflip_enabled with hen' | hen' <;>
        simp only [hp', hen', locked_buffers_append, List.foldl_cons, List.foldl_nil, lock_step,
          List.foldl_append, hq,
          foldl_lock_step_releases, count_release_slot, count_erase_slot, count_lock,
          slot_count_none, Bool.or_true,
          Bool.or_false, Bool.not_true, Bool.not_false, Bool.true_or, Bool.false_or, if_true,
          if_false, Bool.false_eq_true] at hb ⊢ <;>
        omega

theorem slot_count_le (b : Nat) (s : GbmEglDrm) :
    (if s.pageflip_pending || !s.pageflip_enabled then slot_count b s.cur_bo else 0) +
      slot_count b s.prev_bo + slot_count b s.prev_bo2 ≤ (slot_buffers s).count b := by
  have h : ∀ (o : Option Nat) (l : List (Option Nat)),
      ((o :: l).filterMap id).count b = slot_count b o + (l.filterMap id).count b := by
    intro o l
    cases o with
    | none => simp [slot_count]
    | some p =>
      by_cases hp : p = b
      · subst hp; simp [slot_count, Nat.add_comm]
      · simp [slot_count, List.count_cons, hp]
  rw [slot_buffers, h, h, h]
  split
  all_goals simp
  all_goals omega

theorem length_le_of_count_le (l m : List Nat) (h : ∀ b, l.count b ≤ m.count b) :
    l.length ≤ m.length :=
  (List.subperm_ext_iff.2 fun x _ => h x).length_le

theorem slot_buffers_length (s : GbmEglDrm) : (slot_buffers s).length ≤ 3 := by
  simpa [slot_buffers] using List.length_filterMap_le id [s.cur_bo, s.prev_bo, s.prev_bo2]

/-- C16: in every state reachable through swaps and completion-handler invocations,
every outstanding lock of a buffer object is accounted for by one of the slots `cur_bo`,
`prev_bo`, `prev_bo2`, so at most three buffer objects are locked and not released. -/
theorem C16_locked_buffers_held_in_slots (enabled use_event : Bool) (ops : List DisplayOp) :
    (∀ b, (locked_buffers (run_display (GbmEglDrm.start enabled use_event) ops).log).count b ≤
      (slot_buffers (run_display (GbmEglDrm.start enabled use_event) ops)).count b) ∧
    (locked_buffers (run_display (GbmEglDrm.start enabled use_event) ops).log).length ≤ 3 := by
  have hinv : held_inv (run_display (GbmEglDrm.start enabled use_event) ops) :=
    held_inv_run _ ops ⟨rfl, fun _ => ⟨rfl, rfl⟩, fun b => by simp [GbmEglDrm.start,
      GbmEglDrm.init, locked_buffers]⟩
  have hc : ∀ b,
      (locked_buffers (run_display (GbmEglDrm.start enabled use_event) ops).log).count b ≤
      (slot_buffers (run_display (GbmEglDrm.start enabled use_event) ops)).count b :=
    fun b => le_trans (hinv.2.2 b) (slot_count_le b _)
  exact ⟨hc, le_trans (length_le_of_count_le _ _ hc) (slot_buffers_length _)⟩

theorem registrations_append (b : Nat) (l m : List DrmEvent) :
    registrations b (l ++ m) = registrations b l ++ registrations b m := by
  simp [registrations]

theorem registrations_cons (b : Nat) (e : DrmEvent) (l : List DrmEvent) :
    registrations b (e :: l) = (registration_of b e).toList ++ registrations b l := by
  cases h : registration_of b e <;> simp [registrations, List.filterMap_cons, h]

theorem registrations_nil (b : Nat) : registrations b [] = [] := rfl

theorem registrations_slot_releases (b : Nat) (l : List (Option Nat)) :
    registrations b (slot_releases l) = [] := by
  simp only [registrations, slot_releases, List.filterMap_map]
  apply List.filterMap_eq_nil_iff.2
  intro a _
  rfl

theorem drm_set_crtc_for_bo_registrations (ctx : GbmEglDrm) (bo fb0 : Nat)
    (addfb : Option Nat) (ok : Bool)
    (h : ∀ b, registrations b ctx.log = (ctx.fb_data.lookup b).toList) (b : Nat) :
    registrations b (drm_set_crtc_for_bo ctx bo fb0 addfb ok).2.2.log =
      ((drm_set_crtc_for_bo ctx bo fb0 addfb ok).2.2.fb_data.lookup b).toList := by
  have hb := h b
  simp only [drm_set_crtc_for_bo]
  cases hl : ctx.fb_data.lookup bo with
  | some fb =>
    rcases Bool.eq_false_or_eq_true ctx.modeset_done with hm | hm <;> cases ok <;>
      simp [hm, hb, registrations_append, registrations_cons, registrations_nil,
        registration_of]
  | none =>
    cases addfb with
    | none => simpa using hb
    | some fb =>
      have hbo := h bo
      rw [hl] at hbo
      by_cases hbb : b = bo
      · subst hbb
        rcases Bool.eq_false_or_eq_true ctx.modeset_done with hm | hm <;> cases ok <;>
          simp [hm, hbo, registrations_append, registrations_cons, registrations_nil,
            registration_of, List.lookup_cons]
      · have hbb' : ¬ bo = b := fun h => hbb h.symm
        have hbeq : (b == bo) = false := by simpa using hbb
        rcases Bool.eq_false_or_eq_true ctx.modeset_done with hm | hm <;> cases ok <;>
          simp [hm, hb, registrations_append, registrations_cons, registrations_nil,
            registration_of, List.lookup_cons, hbb, hbb', hbeq]

theorem drm_set_crtc_for_bo_lookup (ctx : GbmEglDrm) (bo fb0 : Nat)
    (addfb : Option Nat) (ok : Bool) (b fb : Nat) (h : ctx.fb_data.lookup b = some fb) :
    (drm_set_crtc_for_bo ctx bo fb0 addfb ok).2.2.fb_data.lookup b = some fb := by
  simp only [drm_set_crtc_for_bo]
  cases hl : ctx.fb_data.lookup bo with
  | some f =>
    rcases Bool.eq_false_or_eq_true ctx.modeset_done with hm | hm <;> cases ok <;> simp [hm, h]
  | none =>
    cases addfb with
    | none => simpa using h
    | some f =>
      have hbb : ¬ b = bo := by
        intro hbb
        rw [hbb, hl] at h
        cases h
      have hbeq : (b == bo) = false := by simpa using hbb
      rcases Bool.eq_false_or_eq_true ctx.modeset_done with hm | hm <;> cases ok <;>
        simp [hm, h, List.lookup_cons, hbeq]

theorem fb_cache_inv_run (s : GbmEglDrm) (ops : List DisplayOp) (h : fb_cache_inv s) :
    fb_cache_inv (run_display s ops) := by
  refine run_display_preserves fb_cache_inv ?_ ?_ ?_ ?_ ?_ s ops h
  · intro s h
    rw [page_flip_handler_eq s h.1]
    refine ⟨h.1, fun b => ?_⟩
    simpa [registrations_append, registrations_cons, registrations_slot_releases,
      registration_of] using h.2 b
  · intro s t h
    exact h
  · intro s h _
    rw [wait_reset_eq s h.1]
    refine ⟨h.1, fun b => ?_⟩
    simpa [registrations_append, registrations_slot_releases] using h.2 b
  · intro s h _
    rw [swap_fallback_eq s h.1]
    refine ⟨h.1, fun b => ?_⟩
    simpa [registrations_append, registrations_slot_releases] using h.2 b
  · intro s env h hidle
    obtain ⟨hs, hc⟩ := h
    rcases swap_buffers_present_cases s env hidle hs with ⟨-, e⟩ |
        ⟨bo, okr, fbr, md, fbd, u, -, hspec, -, -, -, e⟩
    · rw [e]; exact ⟨hs, hc⟩
    · have hA : ∀ b, registrations b (s.log ++ DrmEvent.lock_front_buffer bo :: u) =
          (fbd.lookup b).toList := by
        intro b
        have := drm_set_crtc_for_bo_registrations
          { s with log := s.log ++ [DrmEvent.lock_front_buffer bo] } bo 0 env.addfb
          env.setcrtc_ok (fun b => by
            simpa [registrations_append, registrations_cons, registrations_nil,
              registration_of] using hc b) b
        rw [hspec] at this
        simpa [after_setup] using this
      rcases e with ⟨-, e⟩ | ⟨-, -, e⟩ | ⟨-, -, -, -, e⟩ | ⟨-, -, -, -, e⟩ |
          ⟨-, -, -, -, e⟩ | ⟨-, -, -, -, -, e⟩ | ⟨-, -, -, -, -, e⟩ | ⟨-, -, -, -, -, -, e⟩ |
          ⟨-, -, -, -, -, -, e⟩
      all_goals rw [e]
      all_goals refine ⟨hs, fun b => ?_⟩
      all_goals simp only [after_setup]
      all_goals rw [registrations_append, hA b]
      all_goals simp [registrations_cons, registrations_nil, registrations_slot_releases,
        registration_of]

theorem fb_lookup_run (s : GbmEglDrm) (ops : List DisplayOp) (b fb : Nat)
    (hs : s.gbm_surf = true) (h : s.fb_data.lookup b = some fb) :
    (run_display s ops).fb_data.lookup b = some fb := by
  refine (run_display_preserves
    (fun s => s.gbm_surf = true ∧ s.fb_data.lookup b = some fb) ?_ ?_ ?_ ?_ ?_ s ops ⟨hs, h⟩).2
  · intro s h
    rw [page_flip_handler_eq s h.1]
    exact h
  · intro s t h
    exact h
  · intro s h _
    rw [wait_reset_eq s h.1]
    exact h
  · intro s h _
    rw [swap_fallback_eq s h.1]
    exact h
  · intro s env h hidle
    obtain ⟨hs, hc⟩ := h
    rcases swap_buffers_present_cases s env hidle hs with ⟨-, e⟩ |
        ⟨bo, okr, fbr, md, fbd, u, -, hspec, -, -, -, e⟩
    · rw [e]; exact ⟨hs, hc⟩
    · have hA : fbd.lookup b = some fb := by
        have := drm_set_crtc_for_bo_lookup
          { s with log := s.log ++ [DrmEvent.lock_front_buffer bo] } bo 0 env.addfb
          env.setcrtc_ok b fb hc
        rw [hspec] at this
        simpa [after_setup] using this
      rcases e with ⟨-, e⟩ | ⟨-, -, e⟩ | ⟨-, -, -, -, e⟩ | ⟨-, -, -, -, e⟩ |
          ⟨-, -, -, -, e⟩ | ⟨-, -, -, -, -, e⟩ | ⟨-, -, -, -, -, e⟩ | ⟨-, -, -, -, -, -, e⟩ |
          ⟨-, -, -, -, -, -, e⟩
      all_goals rw [e]
      all_goals exact ⟨hs, hA⟩

/-- C17: `drm_set_crtc_for_bo` returns the cached framebuffer id of a buffer object
that has a record, without registering anything; it registers a framebuffer for an object
without a record and stores the new id in the record; when the registration fails it
returns false and attaches no record. Throughout a display session the registrations of
the log are the cached records, so each object is registered at most once, and a cached
record is kept by all later steps. -/
theorem C17_framebuffer_registered_once (ctx : GbmEglDrm) (bo fb0 : Nat) (addfb : Option Nat)
    (ok enabled use_event : Bool) (ops later : List DisplayOp) (b : Nat) :
    (∀ fb, ctx.fb_data.lookup bo = some fb →
      (drm_set_crtc_for_bo ctx bo fb0 addfb ok).2.1 = fb ∧
      (drm_set_crtc_for_bo ctx bo fb0 addfb ok).2.2.fb_data = ctx.fb_data ∧
      ∀ b, registrations b (drm_set_crtc_for_bo ctx bo fb0 addfb ok).2.2.log =
        registrations b ctx.log) ∧
    (∀ fb, ctx.fb_data.lookup bo = none → addfb = some fb →
      (drm_set_crtc_for_bo ctx bo fb0 addfb ok).2.1 = fb ∧
      (drm_set_crtc_for_bo ctx bo fb0 addfb ok).2.2.fb_data = (bo, fb) :: ctx.fb_data ∧
      registrations bo (drm_set_crtc_for_bo ctx bo fb0 addfb ok).2.2.log =
        registrations bo ctx.log ++ [fb]) ∧
    (ctx.fb_data.lookup bo = none → addfb = none →
      drm_set_crtc_for_bo ctx bo fb0 addfb ok = (false, fb0, ctx)) ∧
    registrations b (run_display (GbmEglDrm.start enabled use_event) ops).log =
      ((run_display (GbmEglDrm.start enabled use_event) ops).fb_data.lookup b).toList ∧
    (registrations b (run_display (GbmEglDrm.start enabled use_event) ops).log).length ≤ 1 ∧
    (∀ fb, (run_display (GbmEglDrm.start enabled use_event) ops).fb_data.lookup b = some fb →
      (run_display (GbmEglDrm.start enabled use_event) (ops ++ later)).fb_data.lookup b =
        some fb) := by
  have hinv := fb_cache_inv_run (GbmEglDrm.start enabled use_event) ops
    ⟨rfl, fun b => rfl⟩
  refine ⟨?_, ?_, ?_, hinv.2 b, ?_, ?_⟩
  · intro fb hl
    simp only [drm_set_crtc_for_bo, hl]
    rcases Bool.eq_false_or_eq_true ctx.modeset_done with hm | hm <;> cases ok <;>
      simp [hm, registrations_append, registrations_cons, registrations_nil, registration_of]
  · intro fb hl ha
    subst ha
    simp only [drm_set_crtc_for_bo, hl]
    rcases Bool.eq_false_or_eq_true ctx.modeset_done with hm | hm <;> cases ok <;>
      simp [hm, registrations_append, registrations_cons, registrations_nil, registration_of]
  · intro hl ha
    subst ha
    simp only [drm_set_crtc_for_bo, hl]
  · rw [hinv.2 b]
    cases List.lookup b (run_display (GbmEglDrm.start enabled use_event) ops).fb_data <;> simp
  · intro fb hl
    rw [run_display_append]
    exact fb_lookup_run _ later b fb hinv.1 hl

/-! ## Capture configuration -/

theorem update_buffer_length (bs : List Buffer) (i : Nat) (f : Buffer → Buffer) :
    (update_buffer bs i f).length = bs.length := by
  induction bs generalizing i with
  | nil => rfl
  | cons b bs ih =>
    cases i with
    | zero => rfl
    | succ i => simp [update_buffer, ih]

theorem update_buffer_fds_same (bs : List Buffer) (i : Nat) (f : Buffer → Buffer)
    (hf : ∀ b, (f b).dmabuf_fd = b.dmabuf_fd) :
    (update_buffer bs i f).map Buffer.dmabuf_fd = bs.map Buffer.dmabuf_fd := by
  induction bs generalizing i with
  | nil => rfl
  | cons b bs ih =>
    cases i with
    | zero => simp [update_buffer, hf]
    | succ i => simp [update_buffer, ih]

theorem update_buffer_fds_set (bs : List Buffer) (i : Nat) (fd : Int) (f : Buffer → Buffer)
    (hf : ∀ b, (f b).dmabuf_fd = fd) :
    (update_buffer bs i f).map Buffer.dmabuf_fd = (bs.map Buffer.dmabuf_fd).set i fd := by
  induction bs generalizing i with
  | nil => rfl
  | cons b bs ih =>
    cases i with
    | zero => simp [update_buffer, hf]
    | succ i => simp [update_buffer, ih]

theorem dmabuf_fd_eq (cap : V4L2Capture) (j : Nat) :
    cap.dmabuf_fd j = ((cap.buffers_.map Buffer.dmabuf_fd)[j]?).getD (-1) := by
  simp only [V4L2Capture.dmabuf_fd, List.get?_eq_getElem?, List.getElem?_map]
  cases cap.buffers_[j]? <;> rfl

/-- What the plane loop leaves untouched. -/
theorem map_planes_frame (env : ConfigEnv) (i : Nat) (q : QueryBuf) (cap : V4L2Capture) :
    (map_planes env i q cap).2.buffers_.map Buffer.dmabuf_fd =
      cap.buffers_.map Buffer.dmabuf_fd ∧
    (map_planes env i q cap).2.dmabuf_export_supported_ = cap.dmabuf_export_supported_ := by
  simp only [map_planes]
  split_ifs <;> simp [update_buffer_fds_same]

/-- The effect of the buffer loop on the stored descriptors and on the export flag, when
it runs to completion. -/
theorem configure_buffers_spec (env : ConfigEnv) (remaining i : Nat) (cap cap' : V4L2Capture)
    (h : configure_buffers env remaining i cap = (true, cap'))
    (hlen : i + remaining ≤ cap.buffers_.length) :
    (cap'.buffers_.map Buffer.dmabuf_fd).length = cap.buffers_.length ∧
    (∀ j, j < i → (cap'.buffers_.map Buffer.dmabuf_fd)[j]? =
      (cap.buffers_.map Buffer.dmabuf_fd)[j]?) ∧
    (∀ j, i ≤ j → j < i + remaining →
      (cap'.buffers_.map Buffer.dmabuf_fd)[j]? = some (exported_fd env j)) ∧
    (cap'.dmabuf_export_supported_ = true ↔
      cap.dmabuf_export_supported_ = true ∨
        ∃ j, i ≤ j ∧ j < i + remaining ∧ (env.expbuf j).isSome = true) := by
  induction remaining generalizing i cap with
  | zero =>
    simp only [configure_buffers, Prod.mk.injEq, true_and] at h
    subst h
    refine ⟨by simp, fun _ _ => rfl, fun j h1 h2 => by omega, ?_⟩
    constructor
    · exact Or.inl
    · rintro (h | ⟨j, h1, h2, -⟩)
      · exact h
      · omega
  | succ n ih =>
    simp only [configure_buffers] at h
    split at h
    · cases h
    · next q hq =>
      split at h
      · cases h
      · next cap2 hmap =>
        have hfr := map_planes_frame env i q
          { cap with buffers_ := update_buffer cap.buffers_ i fun b =>
            { b with dmabuf_fd := -1 } }
        rw [hmap] at hfr
        obtain ⟨hfds, hflag⟩ := hfr
        simp only at hfds hflag
        rw [update_buffer_fds_set _ _ (-1) _ (fun _ => rfl)] at hfds
        have hl2 : cap2.buffers_.length = cap.buffers_.length := by
          have := congrArg List.length hfds
          simpa using this
        cases hexp : env.expbuf i with
        | none =>
          rw [hexp] at h
          simp only at h
          obtain ⟨h1, h2, h3, h4⟩ := ih (i + 1) cap2 h (by omega)
          refine ⟨by rw [h1, hl2], fun j hj => ?_, fun j hj1 hj2 => ?_, ?_⟩
          · rw [h2 j (by omega), hfds]
            simp [List.getElem?_set, show ¬ i = j by omega]
          · by_cases hji : j = i
            · subst hji
              rw [h2 j (by omega), hfds]
              simp [List.getElem?_set, exported_fd, hexp, show j < cap.buffers_.length by omega]
            · exact h3 j (by omega) (by omega)
          · rw [h4, hflag]
            constructor
            · rintro (h | ⟨j, hj1, hj2, hj3⟩)
              · exact Or.inl h
              · exact Or.inr ⟨j, by omega, by omega, hj3⟩
            · rintro (h | ⟨j, hj1, hj2, hj3⟩)
              · exact Or.inl h
              · by_cases hji : j = i
                · subst hji
                  rw [hexp] at hj3
                  cases hj3
                · exact Or.inr ⟨j, by omega, by omega, hj3⟩
        | some fd =>
          rw [hexp] at h
          simp only at h
          obtain ⟨h1, h2, h3, h4⟩ := ih (i + 1) _ h (by simp [update_buffer_length]; omega)
          have hset : (update_buffer cap2.buffers_ i fun b =>
              { b with dmabuf_fd := (fd : Int) }).map Buffer.dmabuf_fd =
              (cap2.buffers_.map Buffer.dmabuf_fd).set i fd :=
            update_buffer_fds_set _ _ _ _ (fun _ => rfl)
          simp only [update_buffer_length, hset, hfds] at h1 h2
          refine ⟨by rw [h1, hl2], fun j hj => ?_, fun j hj1 hj2 => ?_, ?_⟩
          · rw [h2 j (by omega)]
            simp [List.getElem?_set, show ¬ i = j by omega]
          · by_cases hji : j = i
            · subst hji
              rw [h2 j (by omega)]
              simp [List.getElem?_set, exported_fd, hexp, show j < cap.buffers_.length by omega]
            · exact h3 j (by omega) (by omega)
          · rw [h4]
            simp only [true_or, true_iff]
            exact Or.inr ⟨i, le_refl _, by omega, by simp [hexp]⟩

theorem fix_strides_frame (cap : V4L2Capture) (size0 : Nat) :
    (fix_strides cap size0).buffers_ = cap.buffers_ ∧
    (fix_strides cap size0).dmabuf_export_supported_ = cap.dmabuf_export_supported_ ∧
    (fix_strides cap size0).reqbuf_count_ = cap.reqbuf_count_ := by
  simp only [fix_strides]
  split_ifs <;> exact ⟨rfl, rfl, rfl⟩

theorem buffers_resize_length (bs : List Buffer) (n : Nat) :
    (buffers_resize bs n).length = n := by
  simp only [buffers_resize, List.length_append, List.length_take, List.length_replicate]
  omega

/-- A successful `configure` ran the buffer loop to completion on a pool of the granted
size with the export flag cleared. -/
theorem configure_reaches_buffers (cap cap' : V4L2Capture) (env : ConfigEnv)
    (width height : Nat) (h : cap.configure env width height = (true, cap')) :
    ∃ cap0 count n, env.reqbufs n = some count ∧ 2 ≤ count ∧ cap0.buffers_.length = count ∧
      cap0.dmabuf_export_supported_ = false ∧
      configure_buffers env count 0 cap0 = (true, cap') := by
  simp only [V4L2Capture.configure] at h
  split at h
  · cases h
  · split at h
    · cases h
    · split at h
      · cases h
      · split at h
        · cases h
        · split at h
          · cases h
          · next count hreq =>
            split at h
            · cases h
            · next hc =>
              refine ⟨_, count, _, hreq, by omega, ?_, ?_, h⟩
              · exact buffers_resize_length _ _
              · simp [(fix_strides_frame _ _).2.1]

/-- C18 (counterexample): with a driver that exports buffer 0 and refuses buffer 1,
`configure` succeeds and reports DMABUF export as supported although `dmabuf_fd(1)` is -1
for a buffer of the pool. -/
theorem C18_one_export_sets_flag :
    (opened_cap.configure (nv12_driver fun i => i == 0) 0 0).1 = true ∧
    (opened_cap.configure (nv12_driver fun i => i == 0) 0 0).2.dmabuf_export_supported = true ∧
    1 < (opened_cap.configure (nv12_driver fun i => i == 0) 0 0).2.buffer_count ∧
    (opened_cap.configure (nv12_driver fun i => i == 0) 0 0).2.dmabuf_fd 1 = -1 := by
  decide

/-- C18 (amended): after a successful `configure` each buffer of the pool stores the
descriptor its export returned, or -1 when the export failed, and
`dmabuf_export_supported()` is true exactly when the export succeeded for at least one
buffer of the pool; in particular it is true when every buffer was exported. -/
theorem C18_export_flag_means_some_buffer (cap cap' : V4L2Capture) (env : ConfigEnv)
    (width height : Nat) (hcount : ∀ n c, env.reqbufs n = some c → c < 2 ^ 32)
    (h : cap.configure env width height = (true, cap')) :
    (∀ i, i < cap'.buffer_count → cap'.dmabuf_fd i = exported_fd env i) ∧
    (cap'.dmabuf_export_supported = true ↔
      ∃ i, i < cap'.buffer_count ∧ 0 ≤ cap'.dmabuf_fd i) ∧
    ((∀ i, i < cap'.buffer_count → 0 ≤ cap'.dmabuf_fd i) →
      cap'.dmabuf_export_supported = true) := by
  obtain ⟨cap0, count, n, hreq, h2, hlen, hflag, hloop⟩ :=
    configure_reaches_buffers cap cap' env width height h
  obtain ⟨h1, -, h3, h4⟩ := configure_buffers_spec env count 0 cap0 cap' hloop (by omega)
  have hbc : cap'.buffer_count = count := by
    have hl : cap'.buffers_.length = count := by simpa [hlen] using h1
    rw [V4L2Capture.buffer_count, hl]
    exact Nat.mod_eq_of_lt (hcount n count hreq)
  have hfd : ∀ i, i < count → cap'.dmabuf_fd i = exported_fd env i := by
    intro i hi
    rw [dmabuf_fd_eq, h3 i (Nat.zero_le _) (by omega)]
    rfl
  have hpos : ∀ i, (0 ≤ exported_fd env i ↔ (env.expbuf i).isSome = true) := by
    intro i
    simp only [exported_fd]
    cases env.expbuf i <;> simp
  have hiff : cap'.dmabuf_export_supported = true ↔
      ∃ i, i < cap'.buffer_count ∧ 0 ≤ cap'.dmabuf_fd i := by
    rw [V4L2Capture.dmabuf_export_supported, h4, hflag, hbc]
    constructor
    · rintro (hf | ⟨j, -, hj, hs⟩)
      · cases hf
      · exact ⟨j, by omega, by rw [hfd j (by omega)]; exact (hpos j).2 hs⟩
    · rintro ⟨i, hi, hs⟩
      rw [hfd i hi] at hs
      exact Or.inr ⟨i, Nat.zero_le _, by omega, (hpos i).1 hs⟩
  refine ⟨fun i hi => hfd i (hbc ▸ hi), hiff, fun hall => ?_⟩
  exact hiff.2 ⟨0, by omega, hall 0 (by omega)⟩

/-- C18 (amended) at a concrete call: the driver that exports buffer 0 and refuses
buffer 1. -/
theorem C18_export_flag_witness :
    (∀ i, i < (opened_cap.configure (nv12_driver fun i => i == 0) 0 0).2.buffer_count →
      (opened_cap.configure (nv12_driver fun i => i == 0) 0 0).2.dmabuf_fd i =
        exported_fd (nv12_driver fun i => i == 0) i) ∧
    ((opened_cap.configure (nv12_driver fun i => i == 0) 0 0).2.dmabuf_export_supported = true ↔
      ∃ i, i < (opened_cap.configure (nv12_driver fun i => i == 0) 0 0).2.buffer_count ∧
        0 ≤ (opened_cap.configure (nv12_driver fun i => i == 0) 0 0).2.dmabuf_fd i) ∧
    ((∀ i, i < (opened_cap.configure (nv12_driver fun i => i == 0) 0 0).2.buffer_count →
      0 ≤ (opened_cap.configure (nv12_driver fun i => i == 0) 0 0).2.dmabuf_fd i) →
      (opened_cap.configure (nv12_driver fun i => i == 0) 0 0).2.dmabuf_export_supported = true) :=
  C18_export_flag_means_some_buffer opened_cap _ (nv12_driver fun i => i == 0) 0 0
    (fun _ c hc => by
      simp only [nv12_driver, Option.some.injEq] at hc
      subst hc
      decide)
    (Prod.ext (by decide) rfl)

/-! ## The capture buffers the render loop owns -/

theorem isdigit_not_special (c : Char) (h : isdigit c = true) :
    c ≠ 'x' ∧ c ≠ '@' ∧ isspace c = false := by
  simp only [isdigit, Bool.and_eq_true, decide_eq_true_eq] at h
  refine ⟨?_, ?_, ?_⟩
  · rintro rfl
    have : ('x' : Char).toNat = 120 := by decide
    omega
  · rintro rfl
    have : ('@' : Char).toNat = 64 := by decide
    omega
  · simp only [isspace, Bool.or_eq_false_iff, Bool.and_eq_false_iff, decide_eq_false_iff_not]
    omega

theorem dropWhile_head (p : Char → Bool) (s : List Char) (hne : s ≠ [])
    (h : p (s.head hne) = false) : s.dropWhile p = s := by
  cases s with
  | nil => exact absurd rfl hne
  | cons a rest =>
    simp only [List.head_cons] at h
    simp [List.dropWhile_cons, h]

theorem trim_id (s : List Char) (hne : s ≠ []) (h1 : isspace (s.head hne) = false)
    (h2 : isspace (s.getLast hne) = false) : trim s = s := by
  have hr : s.reverse ≠ [] := by simpa using hne
  have h3 : isspace (s.reverse.head hr) = false := by
    rw [List.head_reverse]
    exact h2
  simp only [trim]
  rw [dropWhile_head isspace s hne h1, dropWhile_head isspace s.reverse hr h3, List.reverse_reverse]

theorem find_char_none (c : Char) (s : List Char) (h : c ∉ s) : find_char c s = none := by
  induction s with
  | nil => rfl
  | cons a rest ih =>
    have ha : ¬ a = c := fun e => h (by simp [e])
    have hr : c ∉ rest := fun e => h (List.mem_cons_of_mem _ e)
    simp [find_char, ha, ih hr]

theorem find_char_append (c : Char) (s t : List Char) (h : c ∉ s) :
    find_char c (s ++ c :: t) = some s.length := by
  induction s with
  | nil => simp [find_char]
  | cons a rest ih =>
    have ha : ¬ a = c := fun e => h (by simp [e])
    have hr : c ∉ rest := fun e => h (List.mem_cons_of_mem _ e)
    simp [find_char, ha, ih hr]

theorem atoi_eq (s : List Char) (h : decimal s < 2 ^ 31) : atoi s = decimal s := by
  have h1 : min (decimal s) (2 ^ 63 - 1) = decimal s := by
    apply Nat.min_eq_left
    omega
  have h2 : decimal s % 2 ^ 32 = decimal s := Nat.mod_eq_of_lt (by omega)
  simp only [atoi, h1, to_int, h2]
  rw [if_pos h]

/-- A size-only override parses to the two numbers and no refresh rate. -/
theorem parse_override_size (ws hs : List Char) (hw : ws ≠ []) (hh : hs ≠ [])
    (hwd : ∀ c ∈ ws, isdigit c = true) (hhd : ∀ c ∈ hs, isdigit c = true) :
    parse_override (ws ++ 'x' :: hs) = (atoi ws, atoi hs, -1) := by
  have hx : 'x' ∉ ws := fun h => (isdigit_not_special _ (hwd _ h)).1 rfl
  have ha : '@' ∉ hs := fun h => (isdigit_not_special _ (hhd _ h)).2.1 rfl
  have hlen : 0 < ws.length := List.length_pos.2 hw
  have h1 : string_find (ws ++ 'x' :: hs) 'x' 0 = some ws.length := by
    simp [string_find, find_char_append _ _ _ hx]
  have hdrop : (ws ++ 'x' :: hs).drop (ws.length + 1) = hs := by
    rw [List.drop_append_eq_append_drop]
    simp
  have h2 : string_find (ws ++ 'x' :: hs) '@' (ws.length + 1) = none := by
    simp [string_find, hdrop, find_char_none _ _ ha]
  have h3 : substr (ws ++ 'x' :: hs) 0 ws.length = ws := by
    simp [substr]
  have hwe : ws.isEmpty = false := by cases ws <;> simp_all
  have hhe : hs.isEmpty = false := by cases hs <;> simp_all
  have hwa : ws.all isdigit = true := List.all_eq_true.2 hwd
  have hha : hs.all isdigit = true := List.all_eq_true.2 hhd
  simp only [parse_override, h1, h2, h3, hdrop, hlen, gt_iff_lt, if_true, hwe, hhe, hwa, hha,
    Bool.not_false, Bool.and_self]

/-- The result of `choose_mode_override` for a size-only override: the selection loop run
from the start of the mode list. -/
theorem choose_mode_override_size (modes : List drmModeModeInfo) (ws hs : List Char)
    (hw : ws ≠ []) (hh : hs ≠ []) (hwd : ∀ c ∈ ws, isdigit c = true)
    (hhd : ∀ c ∈ hs, isdigit c = true) (hwr : decimal ws < 2 ^ 31)
    (hhr : decimal hs < 2 ^ 31) (hne : modes ≠ []) :
    choose_mode_override (some ⟨modes⟩) (some (ws ++ 'x' :: hs)) =
      override_scan modes (decimal ws) (decimal hs) (-1) modes 0 (-1) 0 := by
  have hs0 : ws ++ 'x' :: hs ≠ [] := by simp
  have h1 : isspace ((ws ++ 'x' :: hs).head hs0) = false := by
    rw [List.head_append_of_ne_nil hw]
    exact (isdigit_not_special _ (hwd _ (List.head_mem hw))).2.2
  have h2 : isspace ((ws ++ 'x' :: hs).getLast hs0) = false := by
    have : (ws ++ 'x' :: hs).getLast hs0 = hs.getLast hh := by
      rw [List.getLast_append_of_ne_nil (by simp), List.getLast_cons hh]
    rw [this]
    exact (isdigit_not_special _ (hhd _ (List.getLast_mem hh))).2.2
  have hlen : ¬ modes.length = 0 := by
    intro h
    exact hne (List.length_eq_zero.1 h)
  have he : (ws ++ 'x' :: hs).isEmpty = false := by
    cases ws <;> rfl
  simp only [choose_mode_override, hlen, if_false, he, Bool.false_eq_true,
    trim_id _ hs0 h1 h2, parse_override_size ws hs hw hh hwd hhd, atoi_eq ws hwr,
    atoi_eq hs hhr]
  rw [if_neg]
  omega

/-- An override with a refresh rate parses to the three numbers. -/
theorem parse_override_rate (ws hs rs : List Char) (hw : ws ≠ []) (hh : hs ≠ [])
    (hr : rs ≠ []) (hwd : ∀ c ∈ ws, isdigit c = true) (hhd : ∀ c ∈ hs, isdigit c = true)
    (hrd : ∀ c ∈ rs, isdigit c = true) :
    parse_override (ws ++ 'x' :: (hs ++ '@' :: rs)) = (atoi ws, atoi hs, atoi rs) := by
  have hx : 'x' ∉ ws := fun h => (isdigit_not_special _ (hwd _ h)).1 rfl
  have ha : '@' ∉ hs := fun h => (isdigit_not_special _ (hhd _ h)).2.1 rfl
  have hlen : 0 < ws.length := List.length_pos.2 hw
  have h1 : string_find (ws ++ 'x' :: (hs ++ '@' :: rs)) 'x' 0 = some ws.length := by
    simp [string_find, find_char_append _ _ _ hx]
  have hdrop : (ws ++ 'x' :: (hs ++ '@' :: rs)).drop (ws.length + 1) = hs ++ '@' :: rs := by
    rw [List.drop_append_eq_append_drop]
    simp
  have h2 : string_find (ws ++ 'x' :: (hs ++ '@' :: rs)) '@' (ws.length + 1) =
      some (hs.length + (ws.length + 1)) := by
    simp [string_find, hdrop, find_char_append _ _ _ ha]
  have h3 : substr (ws ++ 'x' :: (hs ++ '@' :: rs)) 0 ws.length = ws := by
    simp [substr]
  have h4 : substr (ws ++ 'x' :: (hs ++ '@' :: rs)) (ws.length + 1)
      (hs.length + (ws.length + 1) - (ws.length + 1)) = hs := by
    simp [substr, hdrop]
  have h5 : (ws ++ 'x' :: (hs ++ '@' :: rs)).drop (hs.length + (ws.length + 1) + 1) = rs := by
    have : hs.length + (ws.length + 1) + 1 = (ws.length + 1) + (hs.length + 1) := by omega
    rw [this, ← List.drop_drop, hdrop, List.drop_append_eq_append_drop]
    simp
  have hwe : ws.isEmpty = false := by cases ws <;> simp_all
  have hhe : hs.isEmpty = false := by cases hs <;> simp_all
  have hre : rs.isEmpty = false := by cases rs <;> simp_all
  have hwa : ws.all isdigit = true := List.all_eq_true.2 hwd
  have hha : hs.all isdigit = true := List.all_eq_true.2 hhd
  have hra : rs.all isdigit = true := List.all_eq_true.2 hrd
  simp only [parse_override, h1, h2, h3, h4, h5, hlen, gt_iff_lt, if_true, hwe, hhe, hre, hwa,
    hha, hra, Bool.not_false, Bool.and_self]

/-- With a requested refresh rate the selection loop returns the first mode of the
requested size and rate, and fails when there is none. -/
theorem override_scan_rate (modes : List drmModeModeInfo) (w h r : Int) (hr : 0 ≤ r)
    (rest : List drmModeModeInfo) (i : Nat) (best_vr : Int) :
    match override_scan modes w h r rest i (-1) best_vr with
    | none => ∀ m ∈ rest, ¬ (has_size w h m ∧ vrefresh m = r)
    | some m => first_with (fun m => has_size w h m ∧ vrefresh m = r) rest m := by
  induction rest generalizing i with
  | nil => simp [override_scan]
  | cons a rest ih =>
    simp only [override_scan]
    by_cases hsa : has_size w h a
    · have hc : ¬ ((a.hdisplay : Int) ≠ w ∨ (a.vdisplay : Int) ≠ h) := by
        rintro (h1 | h1)
        · exact h1 hsa.1
        · exact h1 hsa.2
      rw [if_neg hc]
      simp only [ge_iff_le, hr, if_true]
      by_cases hv : vrefresh a = r
      · simp only [hv, ne_eq, not_true_eq_false, if_false]
        exact ⟨[], rest, rfl, ⟨hsa, hv⟩, fun m' hm => by cases hm⟩
      · simp only [ne_eq, hv, not_false_eq_true, if_true]
        have := ih (i + 1)
        cases hres : override_scan modes w h r rest (i + 1) (-1) best_vr with
        | none =>
          rw [hres] at this
          intro m hm
          rcases List.mem_cons.1 hm with rfl | hm1
          · exact fun hx => hv hx.2
          · exact this m hm1
        | some m =>
          rw [hres] at this
          obtain ⟨pre, post, he, hp, hn⟩ := this
          refine ⟨a :: pre, post, by simp [he], hp, fun m' hm => ?_⟩
          rcases List.mem_cons.1 hm with rfl | hm1
          · exact fun hx => hv hx.2
          · exact hn m' hm1
    · have hc : (a.hdisplay : Int) ≠ w ∨ (a.vdisplay : Int) ≠ h := by
        by_cases h1 : (a.hdisplay : Int) = w
        · right
          intro h2
          exact hsa ⟨h1, h2⟩
        · exact Or.inl h1
      rw [if_pos hc]
      have := ih (i + 1)
      cases hres : override_scan modes w h r rest (i + 1) (-1) best_vr with
      | none =>
        rw [hres] at this
        intro m hm
        rcases List.mem_cons.1 hm with rfl | hm1
        · exact fun hx => hsa hx.1
        · exact this m hm1
      | some m =>
        rw [hres] at this
        obtain ⟨pre, post, he, hp, hn⟩ := this
        refine ⟨a :: pre, post, by simp [he], hp, fun m' hm => ?_⟩
        rcases List.mem_cons.1 hm with rfl | hm1
        · exact fun hx => hsa hx.1
        · exact hn m' hm1

/-- The result of `choose_mode_override` for an override with a refresh rate: the
selection loop run from the start of the mode list with the three numbers. -/
theorem choose_mode_override_rate (modes : List drmModeModeInfo) (ws hs rs : List Char)
    (hw : ws ≠ []) (hh : hs ≠ []) (hr : rs ≠ []) (hwd : ∀ c ∈ ws, isdigit c = true)
    (hhd : ∀ c ∈ hs, isdigit c = true) (hrd : ∀ c ∈ rs, isdigit c = true)
    (hwr : decimal ws < 2 ^ 31) (hhr : decimal hs < 2 ^ 31) (hrr : decimal rs < 2 ^ 31)
    (hne : modes ≠ []) :
    choose_mode_override (some ⟨modes⟩) (some (ws ++ 'x' :: (hs ++ '@' :: rs))) =
      override_scan modes (decimal ws) (decimal hs) (decimal rs) modes 0 (-1) 0 := by
  have hs0 : ws ++ 'x' :: (hs ++ '@' :: rs) ≠ [] := by simp
  have h1 : isspace ((ws ++ 'x' :: (hs ++ '@' :: rs)).head hs0) = false := by
    rw [List.head_append_of_ne_nil hw]
    exact (isdigit_not_special _ (hwd _ (List.head_mem hw))).2.2
  have h2 : isspace ((ws ++ 'x' :: (hs ++ '@' :: rs)).getLast hs0) = false := by
    have : (ws ++ 'x' :: (hs ++ '@' :: rs)).getLast hs0 = rs.getLast hr := by
      rw [List.getLast_append_of_ne_nil (by simp), List.getLast_cons (by simp),
        List.getLast_append_of_ne_nil (by simp), List.getLast_cons hr]
    rw [this]
    exact (isdigit_not_special _ (hrd _ (List.getLast_mem hr))).2.2
  have hlen : ¬ modes.length = 0 := by
    intro h
    exact hne (List.length_eq_zero.1 h)
  have he : (ws ++ 'x' :: (hs ++ '@' :: rs)).isEmpty = false := by
    cases ws <;> rfl
  simp only [choose_mode_override, hlen, if_false, he, Bool.false_eq_true,
    trim_id _ hs0 h1 h2, parse_override_rate ws hs rs hw hh hr hwd hhd hrd, atoi_eq ws hwr,
    atoi_eq hs hhr, atoi_eq rs hrr]
  rw [if_neg]
  omega

/-- C21: for an override `<W>x<H>@<R>` made of decimal digits whose values fit an `int`,
`choose_mode_override` succeeds exactly when some mode has `hdisplay` = W, `vdisplay` = H
and the refresh rate R (the value of the `vrefresh` lambda), and the mode it returns is the
first such mode in list order; it fails when the modes of that size have other rates. -/
theorem C21_rate_override_selects_first_exact (modes : List drmModeModeInfo)
    (ws hs rs : List Char) (hw : ws ≠ []) (hh : hs ≠ []) (hr : rs ≠ [])
    (hwd : ∀ c ∈ ws, isdigit c = true) (hhd : ∀ c ∈ hs, isdigit c = true)
    (hrd : ∀ c ∈ rs, isdigit c = true) (hwr : decimal ws < 2 ^ 31)
    (hhr : decimal hs < 2 ^ 31) (hrr : decimal rs < 2 ^ 31) :
    ((choose_mode_override (some ⟨modes⟩) (some (ws ++ 'x' :: (hs ++ '@' :: rs)))).isSome = true ↔
      ∃ m ∈ modes, m.hdisplay = decimal ws ∧ m.vdisplay = decimal hs ∧
        vrefresh m = decimal rs) ∧
    ∀ m, choose_mode_override (some ⟨modes⟩) (some (ws ++ 'x' :: (hs ++ '@' :: rs))) = some m →
      first_with (fun m => has_size (decimal ws) (decimal hs) m ∧ vrefresh m = decimal rs)
        modes m := by
  by_cases hne : modes = []
  · subst hne
    simp [choose_mode_override]
  · rw [choose_mode_override_rate modes ws hs rs hw hh hr hwd hhd hrd hwr hhr hrr hne]
    have hspec := override_scan_rate modes (decimal ws) (decimal hs) (decimal rs)
      (by omega) modes 0 0
    cases hres : override_scan modes (decimal ws) (decimal hs) (decimal rs) modes 0 (-1) 0 with
    | none =>
      rw [hres] at hspec
      refine ⟨⟨fun h => (by cases h), ?_⟩, fun m h => (by cases h)⟩
      rintro ⟨m, hm, h1, h2, h3⟩
      exact absurd ⟨⟨by rw [h1], by rw [h2]⟩, h3⟩ (hspec m hm)
    | some m =>
      rw [hres] at hspec
      refine ⟨⟨fun _ => ?_, fun _ => rfl⟩, fun m' h => ?_⟩
      · obtain ⟨pre, post, he, ⟨hsz, hv⟩, -⟩ := hspec
        refine ⟨m, by rw [he]; simp, ?_, ?_, hv⟩
        · exact_mod_cast hsz.1
        · exact_mod_cast hsz.2
      · cases h
        exact hspec

/-- C21 at a concrete input: among the candidates 1920x1080 at 60 Hz, 1920x1080 at 50 Hz
and 3840x2160 at 30 Hz the override 1920x1080@50 selects the 50 Hz mode, and the override
1920x1080@75 fails although two modes have that size. -/
theorem C21_rate_override_witness :
    choose_mode_override (some ⟨demo_modes⟩) (some "1920x1080@50".toList) =
      some (mode_of 1920 1080 50 "1920x1080".toList) ∧
    choose_mode_override (some ⟨demo_modes⟩) (some "1920x1080@75".toList) = none ∧
    ((choose_mode_override (some ⟨demo_modes⟩)
        (some ("1920".toList ++ 'x' :: ("1080".toList ++ '@' :: "50".toList)))).isSome = true ↔
      ∃ m ∈ demo_modes, m.hdisplay = decimal "1920".toList ∧
        m.vdisplay = decimal "1080".toList ∧ vrefresh m = decimal "50".toList) ∧
    ∀ m, choose_mode_override (some ⟨demo_modes⟩)
        (some ("1920".toList ++ 'x' :: ("1080".toList ++ '@' :: "50".toList))) = some m →
      first_with (fun m => has_size (decimal "1920".toList) (decimal "1080".toList) m ∧
        vrefresh m = decimal "50".toList) demo_modes m :=
  ⟨by decide, by decide,
   C21_rate_override_selects_first_exact demo_modes "1920".toList "1080".toList "50".toList
    (by decide) (by decide) (by decide) (by decide) (by decide) (by decide) (by decide)
    (by decide) (by decide)⟩

theorem find_char_some (c : Char) (s : List Char) (i : Nat) (h : find_char c s = some i) :
    s = s.take i ++ c :: s.drop (i + 1) ∧ c ∉ s.take i := by
  induction s generalizing i with
  | nil => cases h
  | cons a rest ih =>
    simp only [find_char] at h
    by_cases ha : a = c
    · rw [if_pos ha] at h
      cases h
      subst ha
      simp
    · rw [if_neg ha] at h
      cases hr : find_char c rest with
      | none => rw [hr] at h; cases h
      | some j =>
        rw [hr] at h
        simp only [Option.map_some', Option.some.injEq] at h
        subst h
        obtain ⟨h1, h2⟩ := ih j hr
        refine ⟨?_, ?_⟩
        · simp only [List.take_succ_cons, List.drop_succ_cons, List.cons_append]
          rw [← h1]
        · simp only [List.take_succ_cons, List.mem_cons, not_or]
          exact ⟨fun e => ha e.symm, h2⟩

/-- A string without the size part of the grammar makes the parser leave the three
numbers at -1. -/
theorem parse_override_fails (s : List Char) (h : ¬ size_parses s) :
    parse_override s = (-1, -1, -1) := by
  simp only [parse_override]
  cases hx : string_find s 'x' 0 with
  | none => rfl
  | some x =>
    simp only
    split
    · next hpos =>
      have hfx : find_char 'x' s = some x := by
        simpa [string_find] using hx
      obtain ⟨hsx, -⟩ := find_char_some 'x' s x hfx
      split
      · next hok =>
        exfalso
        apply h
        simp only [Bool.and_eq_true, Bool.not_eq_true', List.isEmpty_eq_false,
          List.all_eq_true] at hok
        obtain ⟨⟨⟨hw, hh⟩, hwd⟩, hhd⟩ := hok
        have hsw : substr s 0 x = s.take x := by simp [substr]
        rw [hsw] at hw hwd
        cases hat : string_find s '@' (x + 1) with
        | none =>
          rw [hat] at hh hhd
          simp only at hh hhd
          exact ⟨s.take x, s.drop (x + 1), [], by simpa using hsx, hw, hh, hwd, hhd, Or.inl rfl⟩
        | some a =>
          rw [hat] at hh hhd
          simp only at hh hhd
          simp only [string_find, Option.map_eq_some'] at hat
          obtain ⟨j, hj, rfl⟩ := hat
          obtain ⟨hsa, -⟩ := find_char_some '@' (s.drop (x + 1)) j hj
          have hsh : substr s (x + 1) (j + (x + 1) - (x + 1)) = (s.drop (x + 1)).take j := by
            simp [substr]
          rw [hsh] at hh hhd
          refine ⟨s.take x, (s.drop (x + 1)).take j, '@' :: (s.drop (x + 1)).drop (j + 1),
            ?_, hw, hh, hwd, hhd, Or.inr ⟨_, rfl⟩⟩
          rw [← hsa]
          exact hsx
      · rfl
    · rfl

theorem find_first_with {α : Type} (p : α → Prop) [DecidablePred p] (l : List α) :
    match l.find? (fun a => decide (p a)) with
    | none => ∀ m ∈ l, ¬ p m
    | some m => first_with p l m := by
  induction l with
  | nil => simp
  | cons a rest ih =>
    by_cases ha : p a
    · simp only [List.find?_cons, ha, decide_True]
      exact ⟨[], rest, rfl, ha, fun m hm => by cases hm⟩
    · simp only [List.find?_cons, ha, decide_False]
      cases hr : rest.find? (fun a => decide (p a)) with
      | none =>
        rw [hr] at ih
        intro m hm
        rcases List.mem_cons.1 hm with rfl | hm1
        · exact ha
        · exact ih m hm1
      | some m =>
        rw [hr] at ih
        obtain ⟨pre, post, he, hp, hn⟩ := ih
        refine ⟨a :: pre, post, by simp [he], hp, fun m' hm => ?_⟩
        rcases List.mem_cons.1 hm with rfl | hm1
        · exact ha
        · exact hn m' hm1

/-- An override whose refresh part is empty or not a number parses like the size alone. -/
theorem parse_override_junk_rate (ws hs rs : List Char) (hw : ws ≠ []) (hh : hs ≠ [])
    (hwd : ∀ c ∈ ws, isdigit c = true) (hhd : ∀ c ∈ hs, isdigit c = true)
    (hj : ¬ (rs ≠ [] ∧ ∀ c ∈ rs, isdigit c = true)) :
    parse_override (ws ++ 'x' :: (hs ++ '@' :: rs)) = (atoi ws, atoi hs, -1) := by
  have hx : 'x' ∉ ws := fun h => (isdigit_not_special _ (hwd _ h)).1 rfl
  have ha : '@' ∉ hs := fun h => (isdigit_not_special _ (hhd _ h)).2.1 rfl
  have hlen : 0 < ws.length := List.length_pos.2 hw
  have h1 : string_find (ws ++ 'x' :: (hs ++ '@' :: rs)) 'x' 0 = some ws.length := by
    simp [string_find, find_char_append _ _ _ hx]
  have hdrop : (ws ++ 'x' :: (hs ++ '@' :: rs)).drop (ws.length + 1) = hs ++ '@' :: rs := by
    rw [List.drop_append_eq_append_drop]
    simp
  have h2 : string_find (ws ++ 'x' :: (hs ++ '@' :: rs)) '@' (ws.length + 1) =
      some (hs.length + (ws.length + 1)) := by
    simp [string_find, hdrop, find_char_append _ _ _ ha]
  have h3 : substr (ws ++ 'x' :: (hs ++ '@' :: rs)) 0 ws.length = ws := by
    simp [substr]
  have h4 : substr (ws ++ 'x' :: (hs ++ '@' :: rs)) (ws.length + 1)
      (hs.length + (ws.length + 1) - (ws.length + 1)) = hs := by
    simp [substr, hdrop]
  have h5 : (ws ++ 'x' :: (hs ++ '@' :: rs)).drop (hs.length + (ws.length + 1) + 1) = rs := by
    have : hs.length + (ws.length + 1) + 1 = (ws.length + 1) + (hs.length + 1) := by omega
    rw [this, ← List.drop_drop, hdrop, List.drop_append_eq_append_drop]
    simp
  have hwe : ws.isEmpty = false := by cases ws <;> simp_all
  have hhe : hs.isEmpty = false := by cases hs <;> simp_all
  have hwa : ws.all isdigit = true := List.all_eq_true.2 hwd
  have hha : hs.all isdigit = true := List.all_eq_true.2 hhd
  have hokr : (!rs.isEmpty && rs.all isdigit) = false := by
    cases hre : rs.isEmpty with
    | true => rfl
    | false =>
      cases hra : rs.all isdigit with
      | false => rfl
      | true =>
        exfalso
        apply hj
        refine ⟨?_, List.all_eq_true.1 hra⟩
        intro he
        rw [he] at hre
        cases hre
  simp only [parse_override, h1, h2, h3, h4, h5, hlen, gt_iff_lt, if_true, hwe, hhe, hwa,
    hha, hokr, Bool.not_false, Bool.and_self, Bool.false_eq_true, if_false]

/-- C22: the overrides `1920x1080@` and `1920x1080@fast` match neither
form of the grammar and no mode has one of them as its name, yet `choose_mode_override`
succeeds on them with the size-only selection, and so does the mode selection of
`init_drm_gbm_egl`. -/
theorem C22_junk_refresh_falls_back_to_size :
    (¬ ∃ m ∈ demo_modes, m.name = "1920x1080@".toList ∨ m.name = "1920x1080@fast".toList) ∧
    choose_mode_override (some ⟨demo_modes⟩) (some "1920x1080@".toList) =
      some (mode_of 1920 1080 60 "1920x1080".toList) ∧
    choose_mode_override (some ⟨demo_modes⟩) (some "1920x1080@fast".toList) =
      some (mode_of 1920 1080 60 "1920x1080".toList) ∧
    init_select_mode (some ⟨demo_modes⟩) (some "1920x1080@fast".toList) =
      some (mode_of 1920 1080 60 "1920x1080".toList) := by
  decide

/-- Overrides matched by name: when the trimmed override is not empty and lacks the size
part of the grammar (digits, `x`, digits, then the end or an `@`), `choose_mode_override` succeeds
exactly when some mode's name equals the trimmed override and returns the first such
mode, and the mode selection of `init_drm_gbm_egl` is that result, with no automatic
choice. An override with a size part is not looked up by name: when its refresh part is
empty or not a number it is treated as the size alone. -/
theorem unparsed_override_matches_name (modes : List drmModeModeInfo) (str : List Char)
    (hne : trim str ≠ []) (hs : ¬ size_parses (trim str)) :
    ((choose_mode_override (some ⟨modes⟩) (some str)).isSome = true ↔
      ∃ m ∈ modes, m.name = trim str) ∧
    (∀ m, choose_mode_override (some ⟨modes⟩) (some str) = some m →
      first_with (fun m => m.name = trim str) modes m) ∧
    init_select_mode (some ⟨modes⟩) (some str) =
      choose_mode_override (some ⟨modes⟩) (some str) ∧
    ∀ ws hs rs : List Char, ws ≠ [] → hs ≠ [] → (∀ c ∈ ws, isdigit c = true) →
      (∀ c ∈ hs, isdigit c = true) → decimal ws < 2 ^ 31 → decimal hs < 2 ^ 31 →
      ¬ (rs ≠ [] ∧ ∀ c ∈ rs, isdigit c = true) →
      (∀ h : rs ≠ [], isspace (rs.getLast h) = false) →
      choose_mode_override (some ⟨modes⟩) (some (ws ++ 'x' :: (hs ++ '@' :: rs))) =
        choose_mode_override (some ⟨modes⟩) (some (ws ++ 'x' :: hs)) := by
  have hstr : str ≠ [] := by
    intro h
    apply hne
    rw [h]
    rfl
  have hse : str.isEmpty = false := by cases str <;> simp_all
  have hte : (trim str).isEmpty = false := by
    cases h : trim str with
    | nil => exact absurd h hne
    | cons a l => rfl
  refine ⟨?_, ?_, ?_, ?_⟩
  · by_cases hm : modes = []
    · subst hm
      simp [choose_mode_override]
    · have hlen : ¬ modes.length = 0 := fun h => hm (List.length_eq_zero.1 h)
      simp only [choose_mode_override, hlen, if_false, hse, hte, Bool.false_eq_true,
        parse_override_fails _ hs, show ((-1 : Int) < 0 ∨ (-1 : Int) < 0) by omega, if_true]
      have hf := find_first_with (fun m : drmModeModeInfo => trim str = m.name) modes
      cases hr : modes.find? (fun m => decide (trim str = m.name)) with
      | none =>
        rw [hr] at hf
        refine ⟨fun h => (by cases h), ?_⟩
        rintro ⟨m, hmm, he⟩
        exact absurd he.symm (hf m hmm)
      | some m =>
        rw [hr] at hf
        obtain ⟨pre, post, he, hp, -⟩ := hf
        exact ⟨fun _ => ⟨m, by rw [he]; simp, hp.symm⟩, fun _ => rfl⟩
  · intro m hres
    by_cases hm : modes = []
    · subst hm
      simp [choose_mode_override] at hres
    · have hlen : ¬ modes.length = 0 := fun h => hm (List.length_eq_zero.1 h)
      simp only [choose_mode_override, hlen, if_false, hse, hte, Bool.false_eq_true,
        parse_override_fails _ hs, show ((-1 : Int) < 0 ∨ (-1 : Int) < 0) by omega, if_true]
        at hres
      have hf := find_first_with (fun m : drmModeModeInfo => trim str = m.name) modes
      rw [hres] at hf
      obtain ⟨pre, post, he, hp, hn⟩ := hf
      exact ⟨pre, post, he, hp.symm, fun m' hm' e => hn m' hm' e.symm⟩
  · simp [init_select_mode, hse]
  · intro ws hs rs hw hh hwd hhd hwr hhr hj hl
    by_cases hm : modes = []
    · subst hm
      simp [choose_mode_override]
    · rw [choose_mode_override_size modes ws hs hw hh hwd hhd hwr hhr hm]
      have hs0 : ws ++ 'x' :: (hs ++ '@' :: rs) ≠ [] := by simp
      have h1 : isspace ((ws ++ 'x' :: (hs ++ '@' :: rs)).head hs0) = false := by
        rw [List.head_append_of_ne_nil hw]
        exact (isdigit_not_special _ (hwd _ (List.head_mem hw))).2.2
      have h2 : isspace ((ws ++ 'x' :: (hs ++ '@' :: rs)).getLast hs0) = false := by
        by_cases hr : rs = []
        · subst hr
          have : (ws ++ 'x' :: (hs ++ ['@'])).getLast hs0 = '@' := by
            rw [List.getLast_append_of_ne_nil (by simp), List.getLast_cons (by simp),
              List.getLast_append_of_ne_nil (by simp)]
            rfl
          rw [this]
          decide
        · have : (ws ++ 'x' :: (hs ++ '@' :: rs)).getLast hs0 = rs.getLast hr := by
            rw [List.getLast_append_of_ne_nil (by simp), List.getLast_cons (by simp),
              List.getLast_append_of_ne_nil (by simp), List.getLast_cons hr]
          rw [this]
          exact hl hr
      have hlen : ¬ modes.length = 0 := fun h => hm (List.length_eq_zero.1 h)
      have he : (ws ++ 'x' :: (hs ++ '@' :: rs)).isEmpty = false := by
        cases ws <;> rfl
      simp only [choose_mode_override, hlen, if_false, he, Bool.false_eq_true,
        trim_id _ hs0 h1 h2, parse_override_junk_rate ws hs rs hw hh hwd hhd hj,
        atoi_eq ws hwr, atoi_eq hs hhr]
      rw [if_neg]
      omega

/-- The override `bogus` has no size part and no candidate is named so, hence it is
rejected. -/
theorem unparsed_override_bogus_rejected :
    choose_mode_override (some ⟨demo_modes⟩) (some "bogus".toList) = none ∧
    (∀ m, choose_mode_override (some ⟨demo_modes⟩) (some "bogus".toList) = some m →
      first_with (fun m => m.name = trim "bogus".toList) demo_modes m) ∧
    init_select_mode (some ⟨demo_modes⟩) (some "bogus".toList) =
      choose_mode_override (some ⟨demo_modes⟩) (some "bogus".toList) :=
  ⟨by decide,
   (unparsed_override_matches_name demo_modes "bogus".toList (by decide)
    (by
      rintro ⟨ws, hs, rest, he, -⟩
      have hx : 'x' ∈ trim "bogus".toList := by
        rw [he]
        simp
      revert hx
      decide)).2.1,
   (unparsed_override_matches_name demo_modes "bogus".toList (by decide)
    (by
      rintro ⟨ws, hs, rest, he, -⟩
      have hx : 'x' ∈ trim "bogus".toList := by
        rw [he]
        simp
      revert hx
      decide)).2.2.1⟩

/-! ## Automatic mode selection -/

theorem mode_at_append (p q : List drmModeModeInfo) (m : drmModeModeInfo) :
    mode_at (p ++ m :: q) (p.length : Int) = m := by
  simp only [mode_at, Int.toNat_ofNat, List.get?_eq_getElem?]
  rw [List.getElem?_append_right (le_refl _)]
  simp

theorem better_iff (c b : drmModeModeInfo) : better c b = true ↔ mode_lt b c := by
  simp only [better, mode_lt]
  split_ifs with h1 h2 h3
  · simp only [decide_eq_true_eq]
    constructor
    · intro h; exact Or.inl h
    · rintro (h | ⟨h, -⟩)
      · exact h
      · exact absurd h.symm h1
  · simp only [decide_eq_true_eq]
    have e : pixel_count b = pixel_count c := by
      by_contra hx
      exact h1 (fun e => hx e.symm)
    constructor
    · intro h; exact Or.inr ⟨e, Or.inl h⟩
    · rintro (h | ⟨-, h | ⟨h, -⟩⟩)
      · omega
      · exact h
      · exact absurd h.symm h2
  · simp only [decide_eq_true_eq]
    have e : pixel_count b = pixel_count c := by
      by_contra hx
      exact h1 (fun e => hx e.symm)
    have e2 : b.hdisplay = c.hdisplay := by
      by_contra hx
      exact h2 (fun e => hx e.symm)
    constructor
    · intro h; exact Or.inr ⟨e, Or.inr ⟨e2, Or.inl h⟩⟩
    · rintro (h | ⟨-, h | ⟨-, h | ⟨h, -⟩⟩⟩)
      · omega
      · omega
      · exact h
      · exact absurd h.symm h3
  · simp only [decide_eq_true_eq]
    have e : pixel_count b = pixel_count c := by
      by_contra hx
      exact h1 (fun e => hx e.symm)
    have e2 : b.hdisplay = c.hdisplay := by
      by_contra hx
      exact h2 (fun e => hx e.symm)
    have e3 : b.vdisplay = c.vdisplay := by
      by_contra hx
      exact h3 (fun e => hx e.symm)
    constructor
    · intro h; exact Or.inr ⟨e, Or.inr ⟨e2, Or.inr ⟨e3, h⟩⟩⟩
    · rintro (h | ⟨-, h | ⟨-, h | ⟨-, h⟩⟩⟩)
      · omega
      · omega
      · omega
      · exact h

theorem mode_lt_trans (a b c : drmModeModeInfo) (h1 : mode_lt a b) (h2 : mode_lt b c) :
    mode_lt a c := by
  simp only [mode_lt] at h1 h2 ⊢
  generalize pixel_count a = pa at *
  generalize pixel_count b = pb at *
  generalize pixel_count c = pc at *
  generalize vrefresh a = va at *
  generalize vrefresh b = vb at *
  generalize vrefresh c = vc at *
  omega

theorem mode_lt_of_not_lt (a b c : drmModeModeInfo) (h1 : ¬ mode_lt b a) (h2 : mode_lt b c) :
    mode_lt a c := by
  simp only [mode_lt] at h1 h2 ⊢
  generalize pixel_count a = pa at *
  generalize pixel_count b = pb at *
  generalize pixel_count c = pc at *
  generalize vrefresh a = va at *
  generalize vrefresh b = vb at *
  generalize vrefresh c = vc at *
  omega

/-- Loop invariant of the `better` loops. -/
theorem cand_scan_spec (c : drmModeModeInfo → Bool) (modes rest pre : List drmModeModeInfo)
    (best : Int) (hm : modes = pre ++ rest) (hinv : scan_inv (fun m => c m = true) pre best) :
    scan_inv (fun m => c m = true) modes (cand_scan c modes rest pre.length best) := by
  induction rest generalizing pre best with
  | nil =>
    simp only [List.append_nil] at hm
    subst hm
    exact hinv
  | cons a rest ih =>
    have hm' : modes = (pre ++ [a]) ++ rest := by simp [hm]
    have hlen : (pre ++ [a]).length = pre.length + 1 := by simp
    simp only [cand_scan]
    cases hca : c a with
    | false =>
      simp only [if_true]
      rw [← hlen]
      apply ih _ _ hm'
      rcases hinv with ⟨hb, hn⟩ | ⟨p, m, q, hp, hb, hcm, h1, h2⟩
      · refine Or.inl ⟨hb, fun m hm1 => ?_⟩
        rcases List.mem_append.1 hm1 with hm2 | hm2
        · exact hn m hm2
        · rw [List.mem_singleton] at hm2
          subst hm2
          simp [hca]
      · refine Or.inr ⟨p, m, q ++ [a], by simp [hp], hb, hcm, h1, fun x hx hcx => ?_⟩
        rcases List.mem_append.1 hx with hx1 | hx1
        · exact h2 x hx1 hcx
        · rw [List.mem_singleton] at hx1
          subst hx1
          simp [hca] at hcx
    | true =>
      simp only [Bool.true_eq_false, if_false]
      rcases hinv with ⟨hb, hn⟩ | ⟨p, m, q, hp, hb, hcm, h1, h2⟩
      · subst hb
        simp only [show ((-1 : Int) < 0) by omega, true_or, if_true]
        rw [← hlen]
        apply ih _ _ hm'
        exact Or.inr ⟨pre, a, [], rfl, rfl, hca, fun x hx hcx => absurd hcx (hn x hx),
          fun x hx => by cases hx⟩
      · have hat : mode_at modes best = m := by
          rw [hm, hp, hb]
          simp only [List.append_assoc, List.cons_append]
          exact mode_at_append p _ m
        rw [hat]
        by_cases hbt : better a m = true
        · simp only [hbt, or_true, if_true]
          rw [← hlen]
          apply ih _ _ hm'
          have hlt := (better_iff a m).1 hbt
          refine Or.inr ⟨pre, a, [], rfl, rfl, hca, fun x hx hcx => ?_, fun x hx => by cases hx⟩
          rw [hp] at hx
          rcases List.mem_append.1 hx with hx1 | hx1
          · exact mode_lt_trans x m a (h1 x hx1 hcx) hlt
          · rcases List.mem_cons.1 hx1 with rfl | hx2
            · exact hlt
            · exact mode_lt_of_not_lt x m a (h2 x hx2 hcx) hlt
        · have hnb : ¬ (best < 0 ∨ better a m = true) := by
            rintro (hx | hx)
            · omega
            · exact hbt hx
          rw [if_neg hnb, ← hlen]
          apply ih _ _ hm'
          refine Or.inr ⟨p, m, q ++ [a], by simp [hp], hb, hcm, h1, fun x hx hcx => ?_⟩
          rcases List.mem_append.1 hx with hx1 | hx1
          · exact h2 x hx1 hcx
          · rw [List.mem_singleton] at hx1
            subst hx1
            exact fun hl => hbt ((better_iff x m).2 hl)

theorem preferred_scan_eq (modes rest : List drmModeModeInfo) (i : Nat) (best : Int) :
    preferred_scan modes rest i best =
      cand_scan (fun m => decide (is_preferred m)) modes rest i best := by
  induction rest generalizing i best with
  | nil => rfl
  | cons a rest ih =>
    simp only [preferred_scan, cand_scan, ih, is_preferred, decide_eq_false_iff_not, not_not]

theorem better_fold_eq (modes rest : List drmModeModeInfo) (i : Nat) (best : Int) :
    better_fold modes rest i best = cand_scan (fun _ => true) modes rest i best := by
  induction rest generalizing i best with
  | nil => rfl
  | cons a rest ih =>
    simp only [better_fold, cand_scan, ih, Bool.true_eq_false, if_false]

/-- The hand-written loop takes the decisions of the `better` fold. -/
theorem best_scan_eq (modes rest pre : List drmModeModeInfo) (best : Int)
    (hm : modes = pre ++ rest) (hb : 0 ≤ best) :
    best_scan modes rest pre.length best (pixel_count (mode_at modes best))
      (vrefresh (mode_at modes best)) = better_fold modes rest pre.length best := by
  induction rest generalizing pre best with
  | nil => rfl
  | cons a rest ih =>
    have hm' : modes = (pre ++ [a]) ++ rest := by simp [hm]
    have hlen : (pre ++ [a]).length = pre.length + 1 := by simp
    have hat : mode_at modes (pre.length : Int) = a := by
      rw [hm]
      exact mode_at_append pre rest a
    have hnb : ¬ best < 0 := by omega
    have keep : ∀ hbt : better a (mode_at modes best) = false,
        best_scan modes rest (pre.length + 1) best (pixel_count (mode_at modes best))
          (vrefresh (mode_at modes best)) =
        (if best < 0 ∨ better a (mode_at modes best) = true then
          better_fold modes rest (pre.length + 1) pre.length
        else better_fold modes rest (pre.length + 1) best) := by
      intro hbt
      rw [if_neg (by simp [hnb, hbt]), ← hlen]
      exact ih (pre ++ [a]) best hm' hb
    have take : ∀ hbt : better a (mode_at modes best) = true,
        best_scan modes rest (pre.length + 1) pre.length (pixel_count a) (vrefresh a) =
        (if best < 0 ∨ better a (mode_at modes best) = true then
          better_fold modes rest (pre.length + 1) pre.length
        else better_fold modes rest (pre.length + 1) best) := by
      intro hbt
      rw [if_pos (Or.inr hbt), ← hlen]
      have := ih (pre ++ [a]) (pre.length : Int) hm' (by omega)
      rw [hat] at this
      exact this
    simp only [best_scan, better_fold]
    by_cases h1 : pixel_count a > pixel_count (mode_at modes best)
    · rw [if_pos h1]
      exact take ((better_iff _ _).2 (by simp only [mode_lt]; omega))
    · rw [if_neg h1]
      by_cases h2 : pixel_count a < pixel_count (mode_at modes best)
      · rw [if_pos h2]
        exact keep (Bool.eq_false_iff.2 fun h =>
          absurd ((better_iff _ _).1 h) (by simp only [mode_lt]; omega))
      · rw [if_neg h2]
        have e1 : pixel_count a = pixel_count (mode_at modes best) := by omega
        by_cases h3 : a.hdisplay > (mode_at modes best).hdisplay
        · rw [if_pos h3, ← e1]
          exact take ((better_iff _ _).2 (by simp only [mode_lt]; omega))
        · rw [if_neg h3]
          by_cases h4 : a.hdisplay < (mode_at modes best).hdisplay
          · rw [if_pos h4]
            exact keep (Bool.eq_false_iff.2 fun h =>
          absurd ((better_iff _ _).1 h) (by simp only [mode_lt]; omega))
          · rw [if_neg h4]
            have e2 : a.hdisplay = (mode_at modes best).hdisplay := by omega
            by_cases h5 : a.vdisplay > (mode_at modes best).vdisplay
            · rw [if_pos h5, ← e1]
              exact take ((better_iff _ _).2 (by simp only [mode_lt]; omega))
            · rw [if_neg h5]
              by_cases h6 : a.vdisplay < (mode_at modes best).vdisplay
              · rw [if_pos h6]
                exact keep (Bool.eq_false_iff.2 fun h =>
          absurd ((better_iff _ _).1 h) (by simp only [mode_lt]; omega))
              · rw [if_neg h6]
                have e3 : a.vdisplay = (mode_at modes best).vdisplay := by omega
                by_cases h7 : vrefresh a > vrefresh (mode_at modes best)
                · rw [if_pos h7, ← e1]
                  exact take ((better_iff _ _).2 (by simp only [mode_lt]; omega))
                · rw [if_neg h7]
                  exact keep (Bool.eq_false_iff.2 fun h =>
          absurd ((better_iff _ _).1 h) (by simp only [mode_lt]; omega))

theorem scan_inv_congr (p q : drmModeModeInfo → Prop) (h : ∀ m, p m ↔ q m)
    (l : List drmModeModeInfo) (b : Int) (hi : scan_inv p l b) : scan_inv q l b := by
  rcases hi with ⟨hb, hn⟩ | ⟨pre, m, post, he, hb, hc, h1, h2⟩
  · exact Or.inl ⟨hb, fun m hm hq => hn m hm ((h m).2 hq)⟩
  · exact Or.inr ⟨pre, m, post, he, hb, (h m).1 hc, fun c hc1 hq => h1 c hc1 ((h c).2 hq),
      fun c hc1 hq => h2 c hc1 ((h c).2 hq)⟩

theorem preferred_scan_inv (modes : List drmModeModeInfo) :
    scan_inv is_preferred modes (preferred_scan modes modes 0 (-1)) := by
  rw [preferred_scan_eq]
  have := cand_scan_spec (fun m => decide (is_preferred m)) modes modes [] (-1) rfl
    (Or.inl ⟨rfl, fun m hm => by cases hm⟩)
  exact scan_inv_congr _ _ (fun m => by simp) _ _ this

theorem better_fold_inv (modes : List drmModeModeInfo) :
    scan_inv (fun _ => True) modes (better_fold modes modes 0 (-1)) := by
  rw [better_fold_eq]
  have := cand_scan_spec (fun _ => true) modes modes [] (-1) rfl
    (Or.inl ⟨rfl, fun m hm => by cases hm⟩)
  exact scan_inv_congr _ _ (fun m => by simp) _ _ this

/-- The hand-written loop of `choose_mode`, started as the source starts it, ends with
the index the fold of `better` over the whole list ends with. -/
theorem best_scan_is_fold (modes : List drmModeModeInfo) (hne : modes ≠ []) :
    best_scan modes (modes.drop 1) 1 0 (pixel_count (mode_at modes 0))
      (vrefresh (mode_at modes 0)) = better_fold modes modes 0 (-1) := by
  cases modes with
  | nil => exact absurd rfl hne
  | cons m0 tl =>
    have h := best_scan_eq (m0 :: tl) tl [m0] 0 rfl (le_refl _)
    simp only [List.length_singleton] at h
    simp only [List.drop_succ_cons, List.drop_zero]
    rw [h]
    simp [better_fold]

/-- The two ways `choose_mode` ends on a non-empty list. -/
theorem choose_mode_cases (modes : List drmModeModeInfo) (hne : modes ≠ []) :
    (∃ m, choose_mode (some ⟨modes⟩) = some m ∧ first_maximal is_preferred modes m) ∨
    (∃ m, choose_mode (some ⟨modes⟩) = some m ∧ (∀ c ∈ modes, ¬ is_preferred c) ∧
      first_maximal (fun _ => True) modes m) := by
  have hlen : ¬ modes.length = 0 := fun h => hne (List.length_eq_zero.1 h)
  simp only [choose_mode, hlen, if_false]
  rcases preferred_scan_inv modes with ⟨hb, hn⟩ | ⟨p, m, q, he, hb, hc, h1, h2⟩
  · right
    rw [hb, if_neg (by omega), best_scan_is_fold modes hne]
    rcases better_fold_inv modes with ⟨-, hn2⟩ | ⟨p, m, q, he, hb2, -, h1, h2⟩
    · cases modes with
      | nil => exact absurd rfl hne
      | cons a l => exact absurd trivial (hn2 a (List.mem_cons_self _ _))
    · refine ⟨m, ?_, hn, p, q, he, trivial, h1, h2⟩
      rw [hb2]
      conv_lhs => rw [he]
      rw [mode_at_append]
  · left
    refine ⟨m, ?_, p, q, he, hc, h1, h2⟩
    rw [hb, if_pos (by omega)]
    conv_lhs => rw [he]
    rw [mode_at_append]

theorem mode_lt_asymm (a b : drmModeModeInfo) (h : mode_lt a b) : ¬ mode_lt b a := by
  simp only [mode_lt] at h ⊢
  omega

theorem first_maximal_mem (cand : drmModeModeInfo → Prop) (modes : List drmModeModeInfo)
    (m : drmModeModeInfo) (h : first_maximal cand modes m) :
    m ∈ modes ∧ cand m ∧ ∀ c ∈ modes, cand c → ¬ mode_lt m c := by
  obtain ⟨p, q, he, hc, h1, h2⟩ := h
  refine ⟨by rw [he]; simp, hc, fun c hm hcc => ?_⟩
  rw [he] at hm
  rcases List.mem_append.1 hm with hm | hm
  · exact mode_lt_asymm _ _ (h1 c hm hcc)
  · rcases List.mem_cons.1 hm with rfl | hm
    · intro h
      exact mode_lt_asymm _ _ h h
    · exact h2 c hm hcc

/-- C23: when exactly one mode of a mode list carries the preferred flag, `choose_mode`
(and so the mode selection of `init_drm_gbm_egl` without an override) returns that mode,
wherever it stands in the list and whatever the sizes and refresh rates of the others. -/
theorem C23_single_preferred_mode_chosen (pre post : List drmModeModeInfo)
    (m : drmModeModeInfo) (hp : is_preferred m)
    (hn : ∀ c ∈ pre ++ post, ¬ is_preferred c) :
    choose_mode (some ⟨pre ++ m :: post⟩) = some m ∧
    init_select_mode (some ⟨pre ++ m :: post⟩) none = some m := by
  have key : choose_mode (some ⟨pre ++ m :: post⟩) = some m := by
    rcases choose_mode_cases (pre ++ m :: post) (by simp) with ⟨c, hc, hf⟩ | ⟨c, -, hno, -⟩
    · obtain ⟨hmem, hcp, -⟩ := first_maximal_mem _ _ _ hf
      rw [hc]
      rcases List.mem_append.1 hmem with hm | hm
      · exact absurd hcp (hn c (List.mem_append.2 (Or.inl hm)))
      · rcases List.mem_cons.1 hm with rfl | hm
        · rfl
        · exact absurd hcp (hn c (List.mem_append.2 (Or.inr hm)))
    · exact absurd hp (hno m (by simp))
  exact ⟨key, key⟩

/-- C23 at a concrete list: the small preferred mode in the middle is chosen over the two
larger modes around it. -/
theorem C23_single_preferred_witness :
    is_preferred (typed_mode 1920 1080 60 72) ∧
    (∀ c ∈ [typed_mode 3840 2160 30 64] ++ [typed_mode 7680 4320 30 64], ¬ is_preferred c) ∧
    choose_mode (some ⟨[typed_mode 3840 2160 30 64, typed_mode 1920 1080 60 72,
      typed_mode 7680 4320 30 64]⟩) = some (typed_mode 1920 1080 60 72) :=
  ⟨by decide, by decide,
    (C23_single_preferred_mode_chosen [typed_mode 3840 2160 30 64]
      [typed_mode 7680 4320 30 64] (typed_mode 1920 1080 60 72) (by decide) (by decide)).1⟩

theorem to_int_small (n : Nat) (h : n < 2 ^ 31) : to_int n = (n : Int) := by
  have h2 : n % 2 ^ 32 = n := Nat.mod_eq_of_lt (by omega)
  simp only [to_int, h2, if_pos h]

/-- C25: the refresh rate of a mode with `vrefresh = 0` is computed as
`(clock * 1000) / (htotal * vtotal)` in 32-bit unsigned arithmetic, and the product
`clock * 1000` wraps for a 32-bit clock of 4294968 kHz or more: with clock 4294968 and
totals of 1000 the exact quotient is 4294 and the program computes 0, so that the
override `1920x1080@4294` does not find this mode and `1920x1080@0` does. Below the wrap
(`clock * 1000 < 2 ^ 32`, 16-bit totals, quotient within `int`) the value is the exact
floor; a non-zero `vrefresh` field that fits an `int` is used as is; and with
`vrefresh = 0` and a zero total the value is 0. -/
theorem C25_derived_refresh_wraps :
    (vrefresh (timed_mode 4294968 1000 1000) = 0 ∧
      (4294968 * 1000 / (1000 * 1000) : Nat) = 4294 ∧ 4294968 < 2 ^ 32 ∧ 1000 < 2 ^ 16 ∧
      choose_mode_override (some ⟨[timed_mode 4294968 1000 1000]⟩)
        (some "1920x1080@4294".toList) = none ∧
      choose_mode_override (some ⟨[timed_mode 4294968 1000 1000]⟩)
        (some "1920x1080@0".toList) = some (timed_mode 4294968 1000 1000)) ∧
    (∀ m : drmModeModeInfo, m.vrefresh = 0 → m.htotal ≠ 0 → m.vtotal ≠ 0 →
      m.clock * 1000 < 2 ^ 32 → m.htotal < 2 ^ 16 → m.vtotal < 2 ^ 16 →
      m.clock * 1000 / (m.htotal * m.vtotal) < 2 ^ 31 →
      vrefresh m = ((m.clock * 1000 / (m.htotal * m.vtotal) : Nat) : Int)) ∧
    (∀ m : drmModeModeInfo, m.vrefresh ≠ 0 → m.vrefresh < 2 ^ 31 →
      vrefresh m = (m.vrefresh : Int)) ∧
    (∀ m : drmModeModeInfo, m.vrefresh = 0 → (m.htotal = 0 ∨ m.vtotal = 0) →
      vrefresh m = 0) := by
  refine ⟨⟨by decide, by decide, by decide, by decide, by decide, by decide⟩, ?_, ?_, ?_⟩
  · intro m hv hh hvt hc hh16 hv16 hq
    have hprod : m.htotal * m.vtotal < 2 ^ 32 := by
      have : m.htotal * m.vtotal < 2 ^ 16 * 2 ^ 16 :=
        Nat.mul_lt_mul_of_lt_of_lt hh16 hv16
      simpa using this
    simp only [vrefresh, hv, ne_eq, not_true_eq_false, if_false, hh, hvt, not_false_eq_true,
      and_self, if_true, Nat.mod_eq_of_lt hc, Nat.mod_eq_of_lt hprod]
    exact to_int_small _ hq
  · intro m hv hlt
    simp only [vrefresh, ne_eq, hv, not_false_eq_true, if_true]
    exact to_int_small _ hlt
  · intro m hv h0
    rcases h0 with h0 | h0 <;> simp [vrefresh, hv, h0]

/-- A failed `acquire_frame` whose dequeue loop ended on EAGAIN has issued a re-queue for
every buffer it dequeued. -/
theorem acquire_frame_failed_after_loop (cap : V4L2Capture) (dev d : V4L2Dev) (pr : Int)
    (dq : List DqResult) (out : V4L2Frame) (have_ : Bool) (last : v4l2_buffer)
    (hloop : dequeue_loop dq dev false v4l2_buffer.init = DqLoop.done d have_ last)
    (hret : (cap.acquire_frame dev pr dq out).1 = false) :
    ∃ new, (cap.acquire_frame dev pr dq out).2.2.log = dev.log ++ new ∧
      dequeued new = requeued new := by
  obtain ⟨new, e1, e2, -, -⟩ := dequeue_loop_done dq dev d false have_ _ last hloop
  have hq := VIDIOC_QBUF_log d last.index
  have hfin : have_ = true → ∃ new, (VIDIOC_QBUF d last.index).2.log = dev.log ++ new ∧
      dequeued new = requeued new := by
    intro hh
    refine ⟨new ++ [Ioctl.qbuf last.index (VIDIOC_QBUF d last.index).1], ?_, ?_⟩
    · rw [hq, e1, List.append_assoc]
    · rw [dequeued_append, requeued_append]
      simp only [held, Bool.false_eq_true, if_false, List.nil_append, hh, if_true] at e2
      rw [e2]
      simp [dequeued, requeued]
  unfold V4L2Capture.acquire_frame at hret ⊢
  by_cases hfd : cap.fd_ < 0
  · simp only [hfd, if_true]
    exact ⟨[], by simp, rfl⟩
  simp only [hfd, if_false] at hret ⊢
  by_cases hpr0 : pr = 0
  · simp [hpr0] at hret
  simp only [hpr0, if_false] at hret ⊢
  by_cases hprn : pr < 0
  · simp only [hprn, if_true]
    exact ⟨[], by simp, rfl⟩
  simp only [hprn, if_false, hloop] at hret ⊢
  cases have_ with
  | false => simp at hret
  | true =>
    simp only [Bool.not_true, Bool.false_eq_true, if_false] at hret ⊢
    replace hfin := hfin rfl
    by_cases hnv : cap.fourcc_ = V4L2_PIX_FMT_NV12
    · simp only [hnv, if_true] at hret ⊢
      by_cases hp2 : cap.num_planes_ ≥ 2
      · simp [hp2] at hret
      · simp only [hp2, if_false] at hret ⊢
        by_cases hp1 : cap.num_planes_ = 1
        · simp only [hp1, if_true] at hret ⊢
          split at hret
          · next hav =>
            simp only [hav, if_true]
            exact hfin
          · simp at hret
        · simp only [hp1, if_false]
          exact hfin
    · simp only [hnv, if_false] at hret ⊢
      by_cases hb : cap.fourcc_ = V4L2_PIX_FMT_BGR24 ∧ cap.num_planes_ ≥ 1
      · rw [if_pos hb] at hret ⊢
        cases hconv : bgr24_to_rgb24 d.mem
            ((cap.buffers_.get? last.index).getD Buffer.init).planes0.start
            cap.width_ cap.height_ [] with
        | mk okc data =>
          simp only [hconv] at hret ⊢
          cases okc with
          | false => exact hfin
          | true =>
            simp only at hret ⊢
            cases hqq : VIDIOC_QBUF d last.index with
            | mk okq d2 =>
              rw [hqq] at hfin
              simp only [hqq] at hret ⊢
              cases okq with
              | false => exact hfin
              | true => simp at hret
      · rw [if_neg hb]
        exact hfin

/-- C27: a dequeue that fails with an error other than EAGAIN after an earlier dequeue of
the same call succeeded makes `acquire_frame` return false without any re-queue: buffer 0
stays with the application. A rejected re-queue inside the loop leaves the newly dequeued
buffer 1 without a re-queue as well. When the dequeue loop ends on EAGAIN, every failed
call has issued a re-queue for each buffer it dequeued. -/
theorem C27_failed_dequeue_keeps_buffer :
    ((demo_cap.acquire_frame demo_dev 1 [DqResult.buf 0 0 0, DqResult.error]
        V4L2Frame.init).1 = false ∧
      (demo_cap.acquire_frame demo_dev 1 [DqResult.buf 0 0 0, DqResult.error]
        V4L2Frame.init).2.2.log = [Ioctl.dqbuf 0] ∧
      owned (demo_cap.acquire_frame demo_dev 1 [DqResult.buf 0 0 0, DqResult.error]
        V4L2Frame.init).2.2.log = [0]) ∧
    ((demo_cap.acquire_frame demo_dev_busy 1 [DqResult.buf 0 0 0, DqResult.buf 1 0 0]
        V4L2Frame.init).1 = false ∧
      (demo_cap.acquire_frame demo_dev_busy 1 [DqResult.buf 0 0 0, DqResult.buf 1 0 0]
        V4L2Frame.init).2.2.log = [Ioctl.dqbuf 0, Ioctl.dqbuf 1, Ioctl.qbuf 0 false]) ∧
    (∀ (cap : V4L2Capture) (dev d : V4L2Dev) (pr : Int) (dq : List DqResult)
        (out : V4L2Frame) (have_ : Bool) (last : v4l2_buffer),
      dequeue_loop dq dev false v4l2_buffer.init = DqLoop.done d have_ last →
      (cap.acquire_frame dev pr dq out).1 = false →
      ∃ new, (cap.acquire_frame dev pr dq out).2.2.log = dev.log ++ new ∧
        dequeued new = requeued new) :=
  ⟨⟨by decide, by decide, by decide⟩, ⟨by decide, by decide⟩,
    acquire_frame_failed_after_loop⟩

/-- The pixel loop started at offset `o` for input and output: the length is kept, the
bytes before `o` are kept, and each of the `n` pixels that lies inside the vector holds
the source pixel with its first and third byte exchanged. -/
theorem bgr24_to_rgb24_loop_spec (mem : Nat → Nat) (bgr : Nat) (n o : Nat) (v : List Nat) :
    (bgr24_to_rgb24_loop mem bgr n o o v).length = v.length ∧
    (∀ j, j < o → (bgr24_to_rgb24_loop mem bgr n o o v)[j]? = v[j]?) ∧
    (∀ i, i < n → o + 3 * i + 2 < v.length →
      (bgr24_to_rgb24_loop mem bgr n o o v)[o + 3 * i]? = some (mem (bgr + (o + 3 * i) + 2)) ∧
      (bgr24_to_rgb24_loop mem bgr n o o v)[o + 3 * i + 1]? =
        some (mem (bgr + (o + 3 * i) + 1)) ∧
      (bgr24_to_rgb24_loop mem bgr n o o v)[o + 3 * i + 2]? =
        some (mem (bgr + (o + 3 * i)))) := by
  induction n generalizing o v with
  | zero =>
    refine ⟨rfl, fun _ _ => rfl, fun i hi => by omega⟩
  | succ n ih =>
    simp only [bgr24_to_rgb24_loop, Nat.add_zero]
    obtain ⟨h1, h2, h3⟩ := ih (o + 3)
      (((v.set o (mem (bgr + o + 2))).set (o + 1) (mem (bgr + o + 1))).set (o + 2)
        (mem (bgr + o)))
    refine ⟨by rw [h1]; simp, fun j hj => ?_, fun i hi hlen => ?_⟩
    · rw [h2 j (by omega)]
      simp only [List.getElem?_set]
      rw [if_neg (by omega), if_neg (by omega), if_neg (by omega)]
    · cases i with
      | zero =>
        simp only [Nat.mul_zero, Nat.add_zero] at hlen ⊢
        rw [h2 o (by omega), h2 (o + 1) (by omega), h2 (o + 2) (by omega)]
        have a0 : o < v.length := by omega
        have a1 : o + 1 < v.length := by omega
        simp [List.getElem?_set, a0, a1, hlen]
      | succ i =>
        have hl : o + 3 + 3 * i + 2 <
            (((v.set o (mem (bgr + o + 2))).set (o + 1) (mem (bgr + o + 1))).set (o + 2)
              (mem (bgr + o))).length := by
          simp only [List.length_set]; omega
        obtain ⟨a, b, c⟩ := h3 i (by omega) hl
        have e : o + 3 * (i + 1) = o + 3 + 3 * i := by ring
        rw [e]
        exact ⟨a, b, c⟩

theorem vector_resize_length (v : List Nat) (n : Nat) : (vector_resize v n).length = n := by
  simp only [vector_resize, List.length_append, List.length_take, List.length_replicate]
  omega

/-- What a successful `bgr24_to_rgb24` writes. -/
theorem bgr24_to_rgb24_pixels (mem : Nat → Nat) (bgr width height : Nat) (rgb_out : List Nat)
    (hsz : width * height * 3 < 2 ^ 64) (hb : bgr ≠ 0) (hw : width ≠ 0) (hh : height ≠ 0) :
    (bgr24_to_rgb24 mem bgr width height rgb_out).1 = true ∧
    (bgr24_to_rgb24 mem bgr width height rgb_out).2.length = width * height * 3 ∧
    ∀ i, i < width * height →
      (bgr24_to_rgb24 mem bgr width height rgb_out).2[3 * i]? = some (mem (bgr + 3 * i + 2)) ∧
      (bgr24_to_rgb24 mem bgr width height rgb_out).2[3 * i + 1]? =
        some (mem (bgr + 3 * i + 1)) ∧
      (bgr24_to_rgb24 mem bgr width height rgb_out).2[3 * i + 2]? =
        some (mem (bgr + 3 * i)) := by
  have h0 : ¬ (bgr = 0 ∨ width = 0 ∨ height = 0) := by
    rintro (h | h | h) <;> contradiction
  have hp : (width * height) % 2 ^ 64 = width * height := Nat.mod_eq_of_lt (by omega)
  simp only [bgr24_to_rgb24, h0, if_false, Nat.mod_eq_of_lt hsz, hp]
  obtain ⟨h1, -, h3⟩ := bgr24_to_rgb24_loop_spec mem bgr (width * height) 0
    (vector_resize rgb_out (width * height * 3))
  refine ⟨trivial, by rw [h1, vector_resize_length], fun i hi => ?_⟩
  have := h3 i hi (by rw [vector_resize_length]; omega)
  simpa [Nat.add_assoc] using this

/-- C30: with `width * height * 3` below 2^64, `bgr24_to_rgb24` returns false exactly for
a null input or a zero width or height, leaving the output vector as it was; otherwise it
returns true with `width * height * 3` bytes in which every pixel has its first and third
byte exchanged and its middle byte kept; and converting that output again (read from any
non-null address it is stored at) gives back the original bytes. -/
theorem C30_bgr_swap_involution (mem : Nat → Nat) (bgr width height : Nat)
    (rgb_out : List Nat) (hsz : width * height * 3 < 2 ^ 64) :
    ((bgr24_to_rgb24 mem bgr width height rgb_out).1 = false ↔
      (bgr = 0 ∨ width = 0 ∨ height = 0)) ∧
    ((bgr24_to_rgb24 mem bgr width height rgb_out).1 = false →
      (bgr24_to_rgb24 mem bgr width height rgb_out).2 = rgb_out) ∧
    ((bgr24_to_rgb24 mem bgr width height rgb_out).1 = true →
      (bgr24_to_rgb24 mem bgr width height rgb_out).2.length = width * height * 3 ∧
      ∀ i, i < width * height →
        (bgr24_to_rgb24 mem bgr width height rgb_out).2[3 * i]? =
          some (mem (bgr + 3 * i + 2)) ∧
        (bgr24_to_rgb24 mem bgr width height rgb_out).2[3 * i + 1]? =
          some (mem (bgr + 3 * i + 1)) ∧
        (bgr24_to_rgb24 mem bgr width height rgb_out).2[3 * i + 2]? =
          some (mem (bgr + 3 * i))) ∧
    ((bgr24_to_rgb24 mem bgr width height rgb_out).1 = true →
      ∀ (mem2 : Nat → Nat) (rgb : Nat) (out2 : List Nat), rgb ≠ 0 →
        (∀ j, j < width * height * 3 →
          mem2 (rgb + j) = (bgr24_to_rgb24 mem bgr width height rgb_out).2.getD j 0) →
        (bgr24_to_rgb24 mem2 rgb width height out2).1 = true ∧
        (bgr24_to_rgb24 mem2 rgb width height out2).2.length = width * height * 3 ∧
        ∀ j, j < width * height * 3 →
          (bgr24_to_rgb24 mem2 rgb width height out2).2[j]? = some (mem (bgr + j))) := by
  by_cases h0 : bgr = 0 ∨ width = 0 ∨ height = 0
  · have e : bgr24_to_rgb24 mem bgr width height rgb_out = (false, rgb_out) := by
      simp only [bgr24_to_rgb24, h0, if_true]
    rw [e]
    refine ⟨⟨fun _ => h0, fun _ => rfl⟩, fun _ => rfl, fun h => (by cases h),
      fun h => (by cases h)⟩
  · have hb : bgr ≠ 0 := fun h => h0 (Or.inl h)
    have hw : width ≠ 0 := fun h => h0 (Or.inr (Or.inl h))
    have hh : height ≠ 0 := fun h => h0 (Or.inr (Or.inr h))
    obtain ⟨p1, p2, p3⟩ := bgr24_to_rgb24_pixels mem bgr width height rgb_out hsz hb hw hh
    refine ⟨⟨fun h => ?_, fun h => absurd h h0⟩, fun h => ?_, fun _ => ⟨p2, p3⟩,
      fun _ mem2 rgb out2 hr hm => ?_⟩
    · rw [p1] at h; cases h
    · rw [p1] at h; cases h
    · obtain ⟨q1, q2, q3⟩ := bgr24_to_rgb24_pixels mem2 rgb width height out2 hsz hr hw hh
      refine ⟨q1, q2, fun j hj => ?_⟩
      have hget : ∀ k x, (bgr24_to_rgb24 mem bgr width height rgb_out).2[k]? = some x →
          (bgr24_to_rgb24 mem bgr width height rgb_out).2.getD k 0 = x := by
        intro k x hk
        rw [List.getD_eq_getElem?_getD, hk]
        rfl
      obtain ⟨i, hi⟩ : ∃ i, j = 3 * i ∨ j = 3 * i + 1 ∨ j = 3 * i + 2 := ⟨j / 3, by omega⟩
      have hlt : i < width * height := by omega
      obtain ⟨a, b, c⟩ := p3 i hlt
      obtain ⟨a2, b2, c2⟩ := q3 i hlt
      rcases hi with rfl | rfl | rfl
      · have e2 : rgb + 3 * i + 2 = rgb + (3 * i + 2) := by omega
        rw [e2, hm _ (by omega), hget _ _ c] at a2
        exact a2
      · have e2 : rgb + 3 * i + 1 = rgb + (3 * i + 1) := by omega
        rw [e2, hm _ (by omega), hget _ _ b] at b2
        have e3 : bgr + 3 * i + 1 = bgr + (3 * i + 1) := by omega
        rw [e3] at b2
        exact b2
      · have e2 : rgb + 3 * i = rgb + (3 * i) := rfl
        rw [hm _ (by omega), hget _ _ a] at c2
        have e3 : bgr + 3 * i + 2 = bgr + (3 * i + 2) := by omega
        rw [e3] at c2
        exact c2

/-- C30 at a concrete image: two pixels stored at address 100, converted and converted
back. -/
theorem C30_bgr_swap_witness :
    bgr24_to_rgb24 (fun a => a % 256) 100 2 1 [] = (true, [102, 101, 100, 105, 104, 103]) ∧
    bgr24_to_rgb24 (fun a => [102, 101, 100, 105, 104, 103].getD (a - 200) 0) 200 2 1 [] =
      (true, [100, 101, 102, 103, 104, 105]) ∧
    bgr24_to_rgb24 (fun a => a % 256) 0 2 1 [7] = (false, [7]) ∧
    ((bgr24_to_rgb24 (fun a => a % 256) 100 2 1 []).1 = false ↔
      ((100 : Nat) = 0 ∨ (2 : Nat) = 0 ∨ (1 : Nat) = 0)) :=
  ⟨by decide, by decide, by decide,
    (C30_bgr_swap_involution (fun a => a % 256) 100 2 1 [] (by decide)).1⟩

/-! ## Counter consistency -/

theorem single_events_cons (r : SelectResult) (l : List SelectResult)
    (h : single_events (r :: l) = true) :
    single_events l = true ∧ ∀ n, r = SelectResult.ready n → n ≤ 1 := by
  simp only [single_events, List.all_cons, Bool.and_eq_true] at h ⊢
  refine ⟨h.2, fun n hn => ?_⟩
  subst hn
  simpa using h.1

theorem drain_not_pending (s : GbmEglDrm) (l : List SelectResult)
    (h : s.pageflip_pending = false) : drain_drm_events s l = s := by
  cases l with
  | nil => rfl
  | cons r rest => simp [drain_drm_events, h]

theorem page_flip_handler_pending (s : GbmEglDrm) :
    (page_flip_handler s).pageflip_pending = false := by
  have := drmHandleEvent_succ_pending s 0
  simpa [drmHandleEvent] using this

/-- With at most one completion per readable `select()`, the drain runs the handler at
most once, and only on a pending flip. -/
theorem drain_single (s : GbmEglDrm) (l : List SelectResult) (h : single_events l = true) :
    drain_drm_events s l = s ∨
      (s.pageflip_pending = true ∧ drain_drm_events s l = page_flip_handler s) := by
  induction l with
  | nil => exact Or.inl rfl
  | cons r rest ih =>
    obtain ⟨h1, h2⟩ := single_events_cons r rest h
    rcases Bool.eq_false_or_eq_true s.pageflip_pending with hp | hp
    · cases r with
      | eintr => simpa [drain_drm_events, hp] using ih h1
      | error => exact Or.inl (by simp [drain_drm_events, hp])
      | timeout => exact Or.inl (by simp [drain_drm_events, hp])
      | ready n =>
        have hn := h2 n rfl
        have hn2 : n = 0 ∨ n = 1 := by omega
        rcases hn2 with rfl | rfl
        · simpa [drain_drm_events, hp, drmHandleEvent] using ih h1
        · refine Or.inr ⟨hp, ?_⟩
          simp only [drain_drm_events, hp, Bool.not_true, Bool.false_eq_true, if_false,
            drmHandleEvent]
          exact drain_not_pending _ _ (page_flip_handler_pending s)
    · exact Or.inl (drain_not_pending s _ hp)

/-- With at most one completion per readable `select()`, the wait loop runs the handler
at most once, and only on a pending flip. -/
theorem wait_loop_single (s : GbmEglDrm) (t : Int) (l : List SelectResult)
    (h : single_events l = true) :
    wait_pageflip_loop s t l = s ∨
      (s.pageflip_pending = true ∧ wait_pageflip_loop s t l = page_flip_handler s) := by
  induction l with
  | nil => exact Or.inl rfl
  | cons r rest ih =>
    obtain ⟨h1, h2⟩ := single_events_cons r rest h
    by_cases hc : (s.pageflip_pending && decide (t > 0)) = true
    · have hp : s.pageflip_pending = true := by
        simp only [Bool.and_eq_true] at hc
        exact hc.1
      cases r with
      | eintr => simpa [wait_pageflip_loop, hc] using ih h1
      | error => exact Or.inl (by simp [wait_pageflip_loop, hc])
      | timeout => exact Or.inl (by simp [wait_pageflip_loop, hc])
      | ready n =>
        have hn := h2 n rfl
        have hn2 : n = 0 ∨ n = 1 := by omega
        rcases hn2 with rfl | rfl
        · exact Or.inl (by simp [wait_pageflip_loop, hc, drmHandleEvent])
        · exact Or.inr ⟨hp, by simp [wait_pageflip_loop, hc, drmHandleEvent]⟩
    · exact Or.inl (by simp [wait_pageflip_loop, hc])

/-- The outcomes of the first part of a swap when every readable `select()` delivers at
most one completion. -/
theorem swap_buffers_settle_single (s : GbmEglDrm) (env : SwapEnv)
    (hd : single_events env.drain = true) (hw : single_events env.wait1 = true) :
    swap_buffers_settle s env = s ∨
    (s.pageflip_pending = true ∧ swap_buffers_settle s env = page_flip_handler s) ∨
    (s.pageflip_pending = true ∧
      swap_buffers_settle s env = { page_flip_handler s with pageflip_timeouts := 0 }) ∨
    (s.pageflip_pending = true ∧ swap_buffers_settle s env = swap_fallback s) ∨
    (s.pageflip_pending = true ∧ swap_buffers_settle s env = wait_reset s) := by
  rcases swap_buffers_settle_cases s env with ⟨n, h1, e⟩ | ⟨-, -, e⟩ | ⟨-, -, hp, n, h1, e⟩ |
      ⟨-, -, hp, -, -, e⟩ | ⟨-, -, hp, -, -, e⟩
  · rw [e, ← h1]
    rcases drain_single s env.drain hd with h | ⟨hp, h⟩
    · exact Or.inl h
    · exact Or.inr (Or.inl ⟨hp, h⟩)
  · exact Or.inl e
  · rcases wait_loop_single s 16 env.wait1 hw with h | ⟨-, h⟩
    · have hx := drmHandleEvent_succ_pending s n
      rw [← h1, h, hp] at hx
      cases hx
    · refine Or.inr (Or.inr (Or.inl ⟨hp, ?_⟩))
      rw [e, ← h1, h]
  · exact Or.inr (Or.inr (Or.inr (Or.inl ⟨hp, e⟩)))
  · exact Or.inr (Or.inr (Or.inr (Or.inr ⟨hp, e⟩)))

/-- The completion handler on a pending flip keeps the counter relation. -/
theorem page_flip_handler_counters (s : GbmEglDrm) (hs : s.gbm_surf = true)
    (hp : s.pageflip_pending = true) (hc : counters_inv s)
    (hlt : s.pageflip_submitted < 2 ^ 64) :
    (page_flip_handler s).gbm_surf = true ∧
    (page_flip_handler s).pageflip_pending = false ∧
    (page_flip_handler s).pageflip_submitted = s.pageflip_submitted ∧
    (page_flip_handler s).pageflip_completed = s.pageflip_completed + 1 ∧
    counters_inv (page_flip_handler s) := by
  rw [page_flip_handler_eq s hs]
  simp only [counters_inv, hp, if_true] at hc
  have e : (s.pageflip_completed + 1) % 2 ^ 64 = s.pageflip_completed + 1 :=
    Nat.mod_eq_of_lt (by omega)
  simp only [counters_inv, e, Bool.false_eq_true, if_false]
  exact ⟨hs, trivial, trivial, trivial, by omega⟩

/-- The first part of a swap keeps the counter relation and the submission count and does
not lower the completion count. -/
theorem swap_buffers_settle_counters (s : GbmEglDrm) (env : SwapEnv)
    (hd : single_events env.drain = true) (hw : single_events env.wait1 = true)
    (hs : s.gbm_surf = true) (hc : counters_inv s) (hlt : s.pageflip_submitted < 2 ^ 64) :
    (swap_buffers_settle s env).gbm_surf = true ∧
    (swap_buffers_settle s env).pageflip_submitted = s.pageflip_submitted ∧
    s.pageflip_completed ≤ (swap_buffers_settle s env).pageflip_completed ∧
    counters_inv (swap_buffers_settle s env) := by
  rcases swap_buffers_settle_single s env hd hw with e | ⟨hp, e⟩ | ⟨hp, e⟩ | ⟨hp, e⟩ | ⟨hp, e⟩
  · rw [e]; exact ⟨hs, rfl, le_refl _, hc⟩
  · obtain ⟨a, b, c, d, f⟩ := page_flip_handler_counters s hs hp hc hlt
    rw [e]; exact ⟨a, c, by omega, f⟩
  · obtain ⟨a, b, c, d, f⟩ := page_flip_handler_counters s hs hp hc hlt
    rw [e]
    refine ⟨a, c, ?_, ?_⟩
    · simp only; omega
    · simpa [counters_inv] using f
  · rw [e, swap_fallback_eq s hs]
    simp only [counters_inv, hp, if_true] at hc
    refine ⟨hs, rfl, le_refl _, ?_⟩
    simp only [counters_inv, Bool.false_eq_true, if_false]
    omega
  · rw [e, wait_reset_eq s hs]
    simp only [counters_inv, hp, if_true] at hc
    refine ⟨hs, rfl, le_refl _, ?_⟩
    simp only [counters_inv, Bool.false_eq_true, if_false]
    omega

/-- The presenting part of a swap keeps the counter relation and the completion count and
raises the submission count by at most one. -/
theorem swap_buffers_present_counters (s : GbmEglDrm) (env : SwapEnv)
    (hidle : (s.pageflip_enabled && s.pageflip_pending) = false) (hs : s.gbm_surf = true)
    (hc : counters_inv s) (hlt : s.pageflip_submitted + 1 < 2 ^ 64) :
    (swap_buffers_present s env).2.gbm_surf = true ∧
    (swap_buffers_present s env).2.pageflip_completed = s.pageflip_completed ∧
    s.pageflip_submitted ≤ (swap_buffers_present s env).2.pageflip_submitted ∧
    (swap_buffers_present s env).2.pageflip_submitted ≤ s.pageflip_submitted + 1 ∧
    counters_inv (swap_buffers_present s env).2 := by
  have e1 : (s.pageflip_submitted + 1) % 2 ^ 64 = s.pageflip_submitted + 1 :=
    Nat.mod_eq_of_lt hlt
  rcases swap_buffers_present_cases s env hidle hs with ⟨-, e⟩ |
      ⟨bo, okr, fbr, md, fbd, u, -, -, -, -, -, e⟩
  · rw [e]; exact ⟨hs, rfl, le_refl _, by simp, hc⟩
  · rcases e with ⟨-, e⟩ | ⟨-, -, e⟩ | ⟨-, -, -, -, e⟩ | ⟨-, -, -, -, e⟩ |
        ⟨-, -, -, -, e⟩ | ⟨-, -, -, -, -, e⟩ | ⟨-, -, -, -, -, e⟩ |
        ⟨-, -, -, -, hp, -, e⟩ | ⟨-, -, -, -, hp, -, e⟩
    all_goals rw [e]
    all_goals simp only [after_setup, counters_inv, e1] at hc ⊢
    all_goals refine ⟨hs, trivial, ?_, ?_, ?_⟩
    all_goals try simp only [Bool.false_eq_true, if_false, if_true]
    all_goals try simp only [hp, Bool.false_eq_true, if_false] at hc
    all_goals try omega

theorem handler_while_pending_append (s : GbmEglDrm) (a b : List DisplayOp) :
    handler_while_pending s (a ++ b) =
      (handler_while_pending s a && handler_while_pending (run_display s a) b) := by
  induction a generalizing s with
  | nil => simp [handler_while_pending, run_display]
  | cons op a ih =>
    cases op with
    | swap env =>
      simp only [List.cons_append, handler_while_pending, List.append_eq, ih, run_display,
        List.foldl_cons, Bool.and_assoc]
    | completion =>
      simp only [List.cons_append, handler_while_pending, List.append_eq, ih, run_display,
        List.foldl_cons, Bool.and_assoc, DisplayOp.apply]

/-- Along a session that runs the handler only while a flip is pending, the counter
relation holds, the submission count grows by at most one for each step and neither
count decreases, as long as the submission count cannot wrap. -/
theorem counters_run (ops : List DisplayOp) (s : GbmEglDrm) (k : Nat)
    (hs : s.gbm_surf = true) (hc : counters_inv s) (hk : s.pageflip_submitted ≤ k)
    (hlen : k + ops.length < 2 ^ 64) (hops : handler_while_pending s ops = true) :
    (run_display s ops).gbm_surf = true ∧ counters_inv (run_display s ops) ∧
    (run_display s ops).pageflip_submitted ≤ k + ops.length ∧
    s.pageflip_submitted ≤ (run_display s ops).pageflip_submitted ∧
    s.pageflip_completed ≤ (run_display s ops).pageflip_completed := by
  induction ops generalizing s k with
  | nil => exact ⟨hs, hc, by simpa using hk, le_refl _, le_refl _⟩
  | cons op ops ih =>
    simp only [List.length_cons] at hlen ⊢
    simp only [run_display, List.foldl_cons]
    cases op with
    | swap env =>
      simp only [handler_while_pending, Bool.and_eq_true] at hops
      obtain ⟨⟨hd, hw⟩, hrest⟩ := hops
      obtain ⟨a1, a2, a3, a4⟩ :=
        swap_buffers_settle_counters s env hd hw hs hc (by omega)
      obtain ⟨b1, b2, b3, b4, b5⟩ :=
        swap_buffers_present_counters (swap_buffers_settle s env) env
          (swap_buffers_settle_idle s env) a1 a4 (by omega)
      have hstep : DisplayOp.apply s (DisplayOp.swap env) =
          (swap_buffers_present (swap_buffers_settle s env) env).2 := rfl
      rw [hstep] at hrest ⊢
      obtain ⟨c1, c2, c3, c4, c5⟩ := ih _ (k + 1) b1 b5 (by omega) (by omega) hrest
      simp only [run_display] at c1 c2 c3 c4 c5
      exact ⟨c1, c2, by omega, by omega, by omega⟩
    | completion =>
      simp only [handler_while_pending, Bool.and_eq_true] at hops
      obtain ⟨hp, hrest⟩ := hops
      obtain ⟨a1, -, a3, a4, a5⟩ := page_flip_handler_counters s hs hp hc (by omega)
      obtain ⟨c1, c2, c3, c4, c5⟩ := ih (page_flip_handler s) (k + 1) a1 a5 (by omega)
        (by omega) hrest
      simp only [run_display] at c1 c2 c3 c4 c5
      simp only [DisplayOp.apply]
      exact ⟨c1, c2, by omega, by omega, by omega⟩

/-- C28: in a session of `drm_gbm_egl_swap_buffers` calls and completion-handler
invocations from the initial context (any initial mode flags) in which the handler runs
only while a flip is pending, after every number of steps
`pageflip_completed + (1 if pageflip_pending else 0) ≤ pageflip_submitted`, and further
steps lower neither `pageflip_submitted` nor `pageflip_completed`; the session is shorter
than 2^64 steps, so that the 64-bit counters do not wrap. -/
theorem C28_flip_counters_consistent (enabled use_event : Bool) (ops later : List DisplayOp)
    (hlen : (ops ++ later).length < 2 ^ 64)
    (hops : handler_while_pending (GbmEglDrm.start enabled use_event) (ops ++ later) = true) :
    (run_display (GbmEglDrm.start enabled use_event) ops).pageflip_completed +
        (if (run_display (GbmEglDrm.start enabled use_event) ops).pageflip_pending
          then 1 else 0) ≤
      (run_display (GbmEglDrm.start enabled use_event) ops).pageflip_submitted ∧
    (run_display (GbmEglDrm.start enabled use_event) ops).pageflip_submitted ≤
      (run_display (GbmEglDrm.start enabled use_event) (ops ++ later)).pageflip_submitted ∧
    (run_display (GbmEglDrm.start enabled use_event) ops).pageflip_completed ≤
      (run_display (GbmEglDrm.start enabled use_event) (ops ++ later)).pageflip_completed := by
  rw [handler_while_pending_append, Bool.and_eq_true] at hops
  simp only [List.length_append] at hlen
  obtain ⟨a1, a2, a3, -, -⟩ := counters_run ops (GbmEglDrm.start enabled use_event) 0 rfl
    (by simp [counters_inv, GbmEglDrm.start, GbmEglDrm.init])
    (by simp [GbmEglDrm.start, GbmEglDrm.init]) (by omega) hops.1
  obtain ⟨-, -, -, b4, b5⟩ := counters_run later _ ops.length a1 a2 (by omega) (by omega)
    hops.2
  rw [run_display_append]
  exact ⟨a2, b4, b5⟩

/-- C28 at a concrete session: anchor, flip, completion, then another flip; and a handler
run on the idle initial context, which the hypothesis excludes, breaks the relation. -/
theorem C28_flip_counters_witness :
    handler_while_pending (GbmEglDrm.start true true)
      ([DisplayOp.swap (swap_ok [] [] 1), DisplayOp.swap (swap_ok [] [] 2),
        DisplayOp.completion] ++ [DisplayOp.swap (swap_ok [] [] 3)]) = true ∧
    (run_display (GbmEglDrm.start true true)
      [DisplayOp.swap (swap_ok [] [] 1), DisplayOp.swap (swap_ok [] [] 2),
        DisplayOp.completion]).pageflip_completed = 1 ∧
    (run_display (GbmEglDrm.start true true)
      ([DisplayOp.swap (swap_ok [] [] 1), DisplayOp.swap (swap_ok [] [] 2),
        DisplayOp.completion] ++ [DisplayOp.swap (swap_ok [] [] 3)])).pageflip_submitted
      = 2 ∧
    (run_display (GbmEglDrm.start true true) [DisplayOp.completion]).pageflip_completed = 1 ∧
    (run_display (GbmEglDrm.start true true) [DisplayOp.completion]).pageflip_submitted = 0 ∧
    (run_display (GbmEglDrm.start true true)
      [DisplayOp.swap (swap_ok [] [] 1), DisplayOp.swap (swap_ok [] [] 2),
        DisplayOp.completion]).pageflip_submitted ≤
    (run_display (GbmEglDrm.start true true)
      ([DisplayOp.swap (swap_ok [] [] 1), DisplayOp.swap (swap_ok [] [] 2),
        DisplayOp.completion] ++ [DisplayOp.swap (swap_ok [] [] 3)])).pageflip_submitted :=
  ⟨by decide, by decide, by decide, by decide, by decide,
    (C28_flip_counters_consistent true true
      [DisplayOp.swap (swap_ok [] [] 1), DisplayOp.swap (swap_ok [] [] 2),
        DisplayOp.completion] [DisplayOp.swap (swap_ok [] [] 3)] (by decide) (by decide)).2.1⟩

/-! ## Capture buffers owned by the render loop -/

end RockHdmiIn
